import Mathlib

/-!
# Geometry.cpp: mesh transforms and procedural generators

A shallow embedding of `src/CSE328_HW2/Geometry.cpp`.

* `GLfloat` is an arbitrary field `α`; the results are stated for every such
  field and, where an order or square roots matter, for ordered fields.
* `GLushort` / `GLuint` values are natural numbers, reduced modulo `2 ^ 16`
  where the source narrows a value to `GLushort`.
* `std::vector` is `List`, `std::map<GLuint, GLushort>` is an association list
  read with `List.lookup` (a newer binding shadows an older one).
* C++ faults (a `nullptr` dereference, `std::out_of_range` from `at`) are the
  error side of `Except Fault`.
-/

namespace Geometry

/-! ## Vectors and matrices (GLM) -/

/-- The type `glm::vec2`. -/
structure Vec2 (α : Type) where
  x : α
  y : α
deriving DecidableEq

/-- The type `glm::vec3`. -/
structure Vec3 (α : Type) where
  x : α
  y : α
  z : α
deriving DecidableEq

/-- The type `glm::mat4`, written as the mathematical matrix it denotes. -/
abbrev Mat4 (α : Type) := Matrix (Fin 4) (Fin 4) α

/-- The type `glm::mat3`. -/
abbrev Mat3 (α : Type) := Matrix (Fin 3) (Fin 3) α

/-- Library primitives that the sources call and do not define: `sqrt`, `cosf`
and `sinf` of the C library, the constant `M_PI`, and `glm::rotate`, whose
angle unit depends on the GLM version in use. -/
structure Prims (α : Type) where
  sqrt : α → α
  cos : α → α
  sin : α → α
  pi : α
  rotate : α → Vec3 α → Mat4 α

section VectorOps

variable {α : Type} [Field α]

/-- Componentwise `glm::vec3 + glm::vec3`. -/
def Vec3.add (a b : Vec3 α) : Vec3 α := ⟨a.x + b.x, a.y + b.y, a.z + b.z⟩

/-- Componentwise `glm::vec3 - glm::vec3`. -/
def Vec3.sub (a b : Vec3 α) : Vec3 α := ⟨a.x - b.x, a.y - b.y, a.z - b.z⟩

/-- Unary minus on `glm::vec3`. -/
def Vec3.neg (a : Vec3 α) : Vec3 α := ⟨-a.x, -a.y, -a.z⟩

/-- The product `glm::vec3 * float` (also `float * glm::vec3`). -/
def Vec3.smul (a : Vec3 α) (s : α) : Vec3 α := ⟨a.x * s, a.y * s, a.z * s⟩

/-- The function `glm::dot`. -/
def Vec3.dot (a b : Vec3 α) : α := a.x * b.x + a.y * b.y + a.z * b.z

/-- The function `glm::cross`. -/
def Vec3.cross (a b : Vec3 α) : Vec3 α :=
  ⟨a.y * b.z - b.y * a.z, a.z * b.x - b.z * a.x, a.x * b.y - b.x * a.y⟩

/-- The function `glm::normalize`: `v * inversesqrt(dot(v, v))`. -/
def Vec3.normalize (P : Prims α) (v : Vec3 α) : Vec3 α :=
  v.smul (1 / P.sqrt (v.dot v))

/-- Componentwise `glm::vec2 + glm::vec2`. -/
def Vec2.add (a b : Vec2 α) : Vec2 α := ⟨a.x + b.x, a.y + b.y⟩

/-- The product `glm::vec2 * float`. -/
def Vec2.smul (a : Vec2 α) (s : α) : Vec2 α := ⟨a.x * s, a.y * s⟩

/-- The default-constructed `glm::mat4()`: the identity matrix. -/
def mat4Identity : Mat4 α := 1

/-- The function `glm::translate(v)`: the identity with `v` as translation column. -/
def glmTranslate (v : Vec3 α) : Mat4 α :=
  !![1, 0, 0, v.x; 0, 1, 0, v.y; 0, 0, 1, v.z; 0, 0, 0, 1]

/-- The function `glm::scale(v)`: the diagonal matrix of `v` and `1`. -/
def glmScale (v : Vec3 α) : Mat4 α :=
  !![v.x, 0, 0, 0; 0, v.y, 0, 0; 0, 0, v.z, 0; 0, 0, 0, 1]

/-- The conversion `glm::mat3(glm::mat4)`: the upper left 3 x 3 block. -/
def mat3OfMat4 (m : Mat4 α) : Mat3 α :=
  fun i j => m ⟨i.val, by omega⟩ ⟨j.val, by omega⟩

/-- The product `glm::mat3 * glm::vec3`. -/
def Mat3.mulVec3 (m : Mat3 α) (v : Vec3 α) : Vec3 α :=
  ⟨m 0 0 * v.x + m 0 1 * v.y + m 0 2 * v.z,
   m 1 0 * v.x + m 1 1 * v.y + m 1 2 * v.z,
   m 2 0 * v.x + m 2 1 * v.y + m 2 2 * v.z⟩

end VectorOps

/-! ## The mesh data model -/

/-- The struct `Vertex`: position, colour, normal, texture coordinate. -/
structure Vertex (α : Type) where
  position : Vec3 α
  color : Vec3 α
  normal : Vec3 α
  textureCoordinate : Vec2 α
deriving DecidableEq

/-- Constants of `Geometry.h`, a header that is not among the sources. -/
structure Header where
  DEFAULT_NUM_BUFFERS : Nat
  DEFAULT_DRAW_MODE : Nat
  DEFAULT_SOLID : Bool

/-- The OpenGL enumerant `GL_TRIANGLES`. -/
def GL_TRIANGLES : Nat := 4

/-- The class `Mesh`, one field per data member. The heap array `vertices`
together with its element count `numVertices` is one list, and likewise
`indices` with `numIndices`. -/
structure Mesh (α : Type) where
  vertices : List (Vertex α)
  indices : List Nat
  textureID : Int
  changed : Bool
  transform_MTW : Mat4 α
  translate_M : Mat4 α
  scale_M : Mat4 α
  rotate_M : Mat4 α
  revolve_M : Mat4 α
  numBuffers : Nat
  bufferIDs : List Nat
  vertexArrayID : Nat
  drawMode : Nat
  solid : Bool

/-- The accessor `Mesh::getNumVertices`. -/
def Mesh.getNumVertices {α : Type} (m : Mesh α) : Nat := m.vertices.length

/-- The accessor `Mesh::getNumIndices`. -/
def Mesh.getNumIndices {α : Type} (m : Mesh α) : Nat := m.indices.length

/-- What can go wrong in the C++: a null pointer is dereferenced, or a checked
or unchecked container access is out of range. -/
inductive Fault where
  | nullDeref
  | outOfRange
deriving DecidableEq

section MeshOps

variable {α : Type} [Field α]

/-- The default constructor `Mesh::Mesh()`. -/
def Mesh.new (H : Header) : Mesh α where
  vertices := []
  indices := []
  textureID := -1
  changed := false
  transform_MTW := mat4Identity
  translate_M := mat4Identity
  scale_M := mat4Identity
  rotate_M := mat4Identity
  revolve_M := mat4Identity
  numBuffers := H.DEFAULT_NUM_BUFFERS
  bufferIDs := []
  vertexArrayID := 0
  drawMode := H.DEFAULT_DRAW_MODE
  solid := H.DEFAULT_SOLID

/-- The method `Mesh::translateModel`. -/
def Mesh.translateModel (m : Mesh α) (translate : Vec3 α) : Mesh α :=
  { m with translate_M := glmTranslate translate, changed := true }

/-- The method `Mesh::rotateModel`. -/
def Mesh.rotateModel (P : Prims α) (m : Mesh α) (theta : α) (axis : Vec3 α) : Mesh α :=
  { m with rotate_M := P.rotate theta axis, changed := true }

/-- The method `Mesh::scaleModel`. -/
def Mesh.scaleModel (m : Mesh α) (scale : Vec3 α) : Mesh α :=
  { m with scale_M := glmScale scale, changed := true }

/-- The method `Mesh::revolveModel`. -/
def Mesh.revolveModel (P : Prims α) (m : Mesh α) (theta : α) (axis : Vec3 α) : Mesh α :=
  { m with revolve_M := P.rotate theta axis, changed := true }

/-- The method `Mesh::getTransform`: the returned matrix and the mesh afterwards. -/
def Mesh.getTransform (m : Mesh α) : Mat4 α × Mesh α :=
  if m.changed then
    let t := m.revolve_M * m.translate_M * m.rotate_M * m.scale_M
    (t, { m with transform_MTW := t, changed := false })
  else
    (m.transform_MTW, m)

/-- The method `Mesh::clearTransform`. -/
def Mesh.clearTransform (m : Mesh α) : Mesh α :=
  { m with
    revolve_M := mat4Identity
    translate_M := mat4Identity
    rotate_M := mat4Identity
    scale_M := mat4Identity
    transform_MTW := mat4Identity
    changed := false }

/-- One call of a transform mutator, with its arguments. -/
inductive TransformCall (α : Type) where
  | translate (v : Vec3 α)
  | rotate (theta : α) (axis : Vec3 α)
  | scale (s : Vec3 α)
  | revolve (phi : α) (axis : Vec3 α)

/-- Run one mutator call on a mesh. -/
def Mesh.call (P : Prims α) (m : Mesh α) : TransformCall α → Mesh α
  | .translate v => m.translateModel v
  | .rotate theta axis => m.rotateModel P theta axis
  | .scale s => m.scaleModel s
  | .revolve phi axis => m.revolveModel P phi axis

/-- Run a sequence of mutator calls, first call first. -/
def Mesh.calls (P : Prims α) (m : Mesh α) (cs : List (TransformCall α)) : Mesh α :=
  cs.foldl (Mesh.call P) m

/-- The copy constructor `Mesh::Mesh(const Mesh&)`. Its initializer list and its
body set the two counts, `textureID`, `numBuffers`, `vertexArrayID`, `drawMode`
and the three arrays. The `memcpy` of the buffer names reads `numBuffers` names
from `rhs.bufferIDs`: that is a read through the null pointer when the buffers
of `rhs` were never generated (the empty list), and a read past the array when
it holds fewer names. The five matrices are not named in the constructor and are
default-constructed (`glm::mat4()`, as in `Mesh::Mesh()`); the flags `changed`
and `solid` are not named either and hold whatever was in memory, here the
arguments `changed0` and `solid0`. -/
def Mesh.copy (rhs : Mesh α) (changed0 solid0 : Bool) : Except Fault (Mesh α) :=
  if rhs.bufferIDs.length < rhs.numBuffers then
    .error (if rhs.bufferIDs = [] then .nullDeref else .outOfRange)
  else
    .ok
      { vertices := rhs.vertices
        indices := rhs.indices
        textureID := rhs.textureID
        changed := changed0
        transform_MTW := mat4Identity
        translate_M := mat4Identity
        scale_M := mat4Identity
        rotate_M := mat4Identity
        revolve_M := mat4Identity
        numBuffers := rhs.numBuffers
        bufferIDs := rhs.bufferIDs.take rhs.numBuffers
        vertexArrayID := rhs.vertexArrayID
        drawMode := rhs.drawMode
        solid := solid0 }

/-- One call of a method that writes or reads the transform state of a mesh. -/
inductive TransformOp (α : Type) where
  | mutate (c : TransformCall α)
  | getTransform
  | clearTransform

/-- Run one such call; of `getTransform` the mesh afterwards is kept. -/
def Mesh.step (P : Prims α) (m : Mesh α) : TransformOp α → Mesh α
  | .mutate c => m.call P c
  | .getTransform => m.getTransform.2
  | .clearTransform => m.clearTransform

/-- Run a sequence of such calls, first call first. -/
def Mesh.run (P : Prims α) (m : Mesh α) (ops : List (TransformOp α)) : Mesh α :=
  ops.foldl (Mesh.step P) m

end MeshOps

/-! ## Icosphere subdivision -/

/-- The midpoint cache `std::map<GLuint, GLushort>`, newest binding first. -/
abbrev Cache := List (Nat × Nat)

/-- The checked access `std::vector::at`. -/
def vecAt {β : Type} (xs : List β) (i : Nat) : Except Fault β :=
  match xs[i]? with
  | some v => .ok v
  | none => .error .outOfRange

section Sphere

variable {α : Type} [Field α]

/-- The key that `middlePointIndex` packs from its two indices. -/
def edgeKey (i1 i2 : Nat) : Nat :=
  let smaller := if i1 < i2 then i1 else i2
  let larger := if i1 < i2 then i2 else i1
  (smaller <<< 10) + larger

/-- The vertex that `middlePointIndex` builds between `v1` and `v2`. -/
def middleVertex (P : Prims α) (v1 v2 : Vertex α) : Vertex α :=
  { position := (v1.position.add v2.position).normalize P
    color := (v1.color.add v2.color).smul (1 / 2)
    normal := (v1.normal.add v2.normal).normalize P
    textureCoordinate := (v1.textureCoordinate.add v2.textureCoordinate).smul (1 / 2) }

/-- The function `Geometry::middlePointIndex`: the returned index with the
vertex list and the cache afterwards. The new index is narrowed to `GLushort`. -/
def middlePointIndex (P : Prims α) (i1 i2 : Nat) (verts : List (Vertex α)) (cache : Cache) :
    Except Fault (Nat × List (Vertex α) × Cache) :=
  let key := edgeKey i1 i2
  match cache.lookup key with
  | some hit => .ok (hit, verts, cache)
  | none =>
    match vecAt verts i1 with
    | .error f => .error f
    | .ok v1 =>
      match vecAt verts i2 with
      | .error f => .error f
      | .ok v2 =>
        let index := verts.length % 65536
        .ok (index, verts ++ [middleVertex P v1 v2], (key, index) :: cache)

/-- The statement `localVerts[a].position *= radius`. -/
def scalePositionAt (verts : List (Vertex α)) (a : Nat) (radius : α) :
    Except Fault (List (Vertex α)) :=
  match verts[a]? with
  | some v => .ok (verts.set a { v with position := v.position.smul radius })
  | none => .error .outOfRange

/-- The body of the inner loop of `makeSphere` for the triangle `(v_0, v_1, v_2)`:
the twelve indices it pushes, with the vertex list and the cache afterwards. -/
def splitTriangle (P : Prims α) (radius : α) (v_0 v_1 v_2 : Nat)
    (verts : List (Vertex α)) (cache : Cache) :
    Except Fault (List Nat × List (Vertex α) × Cache) := do
  let (a, verts, cache) ← middlePointIndex P v_0 v_1 verts cache
  let (b, verts, cache) ← middlePointIndex P v_1 v_2 verts cache
  let (c, verts, cache) ← middlePointIndex P v_2 v_0 verts cache
  let verts ← scalePositionAt verts a radius
  let verts ← scalePositionAt verts b radius
  let verts ← scalePositionAt verts c radius
  pure ([v_0, a, c, v_1, b, a, v_2, c, b, a, b, c], verts, cache)

/-- The inner loop of `makeSphere` (`j += 3` over `localIndices`): the new
index list with the vertex list and the cache afterwards. A trailing group of
one or two indices makes `at(j + 1)` or `at(j + 2)` throw. -/
def subdividePass (P : Prims α) (radius : α) :
    List Nat → List (Vertex α) → Cache → Except Fault (List Nat × List (Vertex α) × Cache)
  | [], verts, cache => .ok ([], verts, cache)
  | v_0 :: v_1 :: v_2 :: rest, verts, cache =>
    match splitTriangle P radius v_0 v_1 v_2 verts cache with
    | .error f => .error f
    | .ok (pushed, verts, cache) =>
      match subdividePass P radius rest verts cache with
      | .error f => .error f
      | .ok (newIndices, verts, cache) => .ok (pushed ++ newIndices, verts, cache)
  | _, _, _ => .error .outOfRange

/-- The outer loop of `makeSphere`: `tesselation` passes over one shared cache. -/
def tessellate (P : Prims α) (radius : α) :
    Nat → List Nat → List (Vertex α) → Cache → Except Fault (List Nat × List (Vertex α) × Cache)
  | 0, localIndices, verts, cache => .ok (localIndices, verts, cache)
  | n + 1, localIndices, verts, cache =>
    match subdividePass P radius localIndices verts cache with
    | .error f => .error f
    | .ok (newIndices, verts, cache) => tessellate P radius n newIndices verts cache

/-- The first loop of `makeSphere`: every base vertex is projected onto the
sphere of the given radius. -/
def projectBase (P : Prims α) (radius : α) (vs : List (Vertex α)) : List (Vertex α) :=
  vs.map fun v => { v with position := (v.position.normalize P).smul radius }

/-- The function `Geometry::makeSphere`. The argument `base` is what
`loadObj(ICO_OBJ)` returned (`none` for `nullptr`); the trailing driver calls
only replace the buffer names. -/
def makeSphere (P : Prims α) (base : Option (Mesh α)) (radius : α) (tesselation : Nat) :
    Except Fault (Mesh α) :=
  match base with
  | none => .error .nullDeref
  | some sphere =>
    match tessellate P radius tesselation sphere.indices
        (projectBase P radius sphere.vertices) [] with
    | .error f => .error f
    | .ok (localIndices, localVerts, _) =>
      .ok { sphere with vertices := localVerts, indices := localIndices }

/-- A variant of the outer loop of `makeSphere` for comparison, not in the
source: every pass starts with an empty midpoint cache. -/
def tessellateFresh (P : Prims α) (radius : α) :
    Nat → List Nat → List (Vertex α) → Except Fault (List Nat × List (Vertex α))
  | 0, localIndices, verts => .ok (localIndices, verts)
  | n + 1, localIndices, verts =>
    match subdividePass P radius localIndices verts [] with
    | .error f => .error f
    | .ok (newIndices, verts, _) => tessellateFresh P radius n newIndices verts

/-- The variant of `makeSphere` for comparison, not in the source, whose passes
each start with an empty midpoint cache. -/
def makeSphereFresh (P : Prims α) (base : Option (Mesh α)) (radius : α) (tesselation : Nat) :
    Except Fault (Mesh α) :=
  match base with
  | none => .error .nullDeref
  | some sphere =>
    match tessellateFresh P radius tesselation sphere.indices
        (projectBase P radius sphere.vertices) with
    | .error f => .error f
    | .ok (localIndices, localVerts) =>
      .ok { sphere with vertices := localVerts, indices := localIndices }

end Sphere

/-! ## Cube -/

section Cube

variable {α : Type} [Field α]

/-- The decimal literal `0.d`. -/
def dec (d : Nat) : α := (d : α) / 10

/-- The palette `Geometry::COLORS`. -/
def COLORS : List (Vec3 α) :=
  [⟨1, 0, 0⟩, ⟨0, 1, 0⟩, ⟨0, 0, 1⟩, ⟨1, 1, 0⟩, ⟨1, 0, 1⟩, ⟨0, 1, 1⟩]

/-- The array access `COLORS[c]`. -/
def colorAt (c : Nat) : Vec3 α := (COLORS : List (Vec3 α)).getD c ⟨0, 0, 0⟩

/-- The array `localVertices` of `makeCube`, before scaling. -/
def cubeLocalVertices : List (Vertex α) := [
  ⟨⟨-1, 1, 1⟩, ⟨1, 0, 0⟩, ⟨0, 0, 0⟩, ⟨0, 0⟩⟩,
  ⟨⟨1, 1, 1⟩, ⟨0, 1, 0⟩, ⟨0, 0, 0⟩, ⟨0, 0⟩⟩,
  ⟨⟨1, 1, -1⟩, ⟨0, 0, 1⟩, ⟨0, 0, 0⟩, ⟨0, 0⟩⟩,
  ⟨⟨-1, 1, -1⟩, ⟨1, 1, 1⟩, ⟨0, 0, 0⟩, ⟨0, 0⟩⟩,
  ⟨⟨-1, 1, -1⟩, ⟨1, 0, 1⟩, ⟨0, 0, 0⟩, ⟨0, 0⟩⟩,
  ⟨⟨1, 1, -1⟩, ⟨0, dec 5, dec 2⟩, ⟨0, 0, 0⟩, ⟨0, 0⟩⟩,
  ⟨⟨1, -1, -1⟩, ⟨dec 8, dec 6, dec 4⟩, ⟨0, 0, 0⟩, ⟨0, 0⟩⟩,
  ⟨⟨-1, -1, -1⟩, ⟨dec 3, 1, dec 5⟩, ⟨0, 0, 0⟩, ⟨0, 0⟩⟩,
  ⟨⟨1, 1, -1⟩, ⟨dec 2, dec 5, dec 2⟩, ⟨0, 0, 0⟩, ⟨0, 0⟩⟩,
  ⟨⟨1, 1, 1⟩, ⟨dec 9, dec 3, dec 7⟩, ⟨0, 0, 0⟩, ⟨0, 0⟩⟩,
  ⟨⟨1, -1, 1⟩, ⟨dec 3, dec 7, dec 5⟩, ⟨0, 0, 0⟩, ⟨0, 0⟩⟩,
  ⟨⟨1, -1, -1⟩, ⟨dec 5, dec 7, dec 5⟩, ⟨0, 0, 0⟩, ⟨0, 0⟩⟩,
  ⟨⟨-1, 1, 1⟩, ⟨dec 7, dec 8, dec 2⟩, ⟨0, 0, 0⟩, ⟨0, 0⟩⟩,
  ⟨⟨-1, 1, -1⟩, ⟨dec 5, dec 7, dec 3⟩, ⟨0, 0, 0⟩, ⟨0, 0⟩⟩,
  ⟨⟨-1, -1, -1⟩, ⟨dec 4, dec 7, dec 7⟩, ⟨0, 0, 0⟩, ⟨0, 0⟩⟩,
  ⟨⟨-1, -1, -1⟩, ⟨dec 2, dec 5, 1⟩, ⟨0, 0, 0⟩, ⟨0, 0⟩⟩,
  ⟨⟨1, 1, 1⟩, ⟨dec 6, 1, dec 7⟩, ⟨0, 0, 0⟩, ⟨0, 0⟩⟩,
  ⟨⟨-1, 1, 1⟩, ⟨dec 6, dec 4, dec 8⟩, ⟨0, 0, 0⟩, ⟨0, 0⟩⟩,
  ⟨⟨-1, -1, 1⟩, ⟨dec 2, dec 8, dec 7⟩, ⟨0, 0, 0⟩, ⟨0, 0⟩⟩,
  ⟨⟨1, -1, 1⟩, ⟨dec 2, dec 7, 1⟩, ⟨0, 0, 0⟩, ⟨0, 0⟩⟩,
  ⟨⟨1, -1, -1⟩, ⟨dec 8, dec 3, dec 7⟩, ⟨0, 0, 0⟩, ⟨0, 0⟩⟩,
  ⟨⟨-1, -1, -1⟩, ⟨dec 8, dec 9, dec 5⟩, ⟨0, 0, 0⟩, ⟨0, 0⟩⟩,
  ⟨⟨-1, -1, 1⟩, ⟨dec 5, dec 8, dec 5⟩, ⟨0, 0, 0⟩, ⟨0, 0⟩⟩,
  ⟨⟨1, -1, 1⟩, ⟨dec 9, 1, dec 2⟩, ⟨0, 0, 0⟩, ⟨0, 0⟩⟩]

/-- The array `localIndices` of `makeCube`. -/
def cubeLocalIndices : List Nat := [
  0, 1, 2, 0, 2, 3,
  4, 5, 6, 4, 6, 7,
  8, 9, 10, 8, 10, 11,
  12, 14, 13, 12, 14, 15,
  16, 17, 18, 16, 18, 19,
  20, 22, 21, 20, 23, 22]

/-- The function `Geometry::makeCube`; the trailing driver calls only replace
the buffer names. -/
def makeCube (H : Header) (side : α) : Mesh α :=
  let scale : Mat3 α := mat3OfMat4 (glmScale ⟨side, side, side⟩)
  { (Mesh.new H : Mesh α) with
    textureID := -1
    drawMode := GL_TRIANGLES
    vertices := cubeLocalVertices.map fun v => { v with position := scale.mulVec3 v.position }
    indices := cubeLocalIndices }

end Cube

/-! ## Cylinder -/

section Cylinder

variable {α : Type} [LinearOrderedField α] [FloorRing α]

/-- The local variables `localVerts`, `localIndices` and `index` of a generator. -/
structure GenState (α : Type) where
  localVerts : List (Vertex α)
  localIndices : List Nat
  index : Nat

/-- The call `localIndices.push_back(v)`, which narrows the `GLuint` to `GLushort`.
As `2 ^ 16` divides `2 ^ 32`, a wrap of the 32-bit `index` itself cannot be seen
in the pushed value, so `index` is kept unreduced. -/
def pushIndex (localIndices : List Nat) (v : Nat) : List Nat :=
  localIndices ++ [v % 65536]

/-- The segment count `NUM_SEGMENTS`. -/
def NUM_SEGMENTS : Nat := 20

/-- The arc `theta` of one segment. -/
def segmentTheta (P : Prims α) : α := (2 * P.pi) / (NUM_SEGMENTS : α)

/-- The six vertices that the cap loop of `makeCylinder` pushes for segment `i`:
the bottom triangle `v_0, v_2, v_3`, then the top triangle `v_2, v_1, v_3`. -/
def cylinderCapVertices (P : Prims α) (radius length : α) (i : Nat) : List (Vertex α) :=
  let theta := segmentTheta P
  let textureCoordinates : Vec2 α := ⟨0, 0⟩
  let base : α := -(length / 2)
  let v_0 : Vec3 α := ⟨0, 0, base⟩
  let v_1 : Vec3 α := ⟨0, 0, base + length⟩
  let color : Vec3 α := colorAt ((i + 1) % 6)
  let v_2 : Vec3 α := ⟨P.cos ((i : α) * theta) * radius, P.sin ((i : α) * theta) * radius, base⟩
  let v_3 : Vec3 α :=
    ⟨P.cos (((i + 1 : Nat) : α) * theta) * radius, P.sin (((i + 1 : Nat) : α) * theta) * radius,
      base⟩
  let v_2t : Vec3 α := { v_2 with z := base + length }
  let v_3t : Vec3 α := { v_3 with z := base + length }
  [⟨v_0, color, ⟨0, -1, 0⟩, textureCoordinates⟩,
   ⟨v_2, color, ⟨0, -1, 0⟩, textureCoordinates⟩,
   ⟨v_3, color, ⟨0, -1, 0⟩, textureCoordinates⟩,
   ⟨v_2t, color, ⟨0, 1, 0⟩, textureCoordinates⟩,
   ⟨v_1, color, ⟨0, 1, 0⟩, textureCoordinates⟩,
   ⟨v_3t, color, ⟨0, 1, 0⟩, textureCoordinates⟩]

/-- The body of the cap loop of `makeCylinder` for segment `i`. -/
def cylinderCapStep (P : Prims α) (radius length : α) (st : GenState α) (i : Nat) :
    GenState α :=
  { localVerts := st.localVerts ++ cylinderCapVertices P radius length i
    localIndices :=
      pushIndex (pushIndex (pushIndex (pushIndex (pushIndex (pushIndex st.localIndices
        (st.index + 0)) (st.index + 1)) (st.index + 2))
        (st.index + 3)) (st.index + 4)) (st.index + 5)
    index := st.index + 6 }

/-- The cap loop of `makeCylinder`, from empty vectors. -/
def cylinderCaps (P : Prims α) (radius length : α) : GenState α :=
  (List.range NUM_SEGMENTS).foldl (cylinderCapStep P radius length) ⟨[], [], 0⟩

/-- The four vertices that the inner ring loop of `makeCylinder` pushes at height
`z` for segment `i`: the corners `v_0, v_1, v_2, v_3` of one side quad. -/
def cylinderQuadVertices (P : Prims α) (radius length z : α) (i : Nat) : List (Vertex α) :=
  let theta := segmentTheta P
  let textureCoordinates : Vec2 α := ⟨0, 0⟩
  let base : α := -(length / 2)
  let v_0 : Vec3 α :=
    ⟨P.cos ((i : α) * theta) * radius, P.sin ((i : α) * theta) * radius, base + z⟩
  let v_1 : Vec3 α :=
    ⟨P.cos (((i + 1 : Nat) : α) * theta) * radius, P.sin (((i + 1 : Nat) : α) * theta) * radius,
      base + z⟩
  let v_2 : Vec3 α := ⟨v_0.x, v_0.y, base + z + 1⟩
  let v_3 : Vec3 α := ⟨v_1.x, v_1.y, base + z + 1⟩
  let color : Vec3 α := colorAt ((i + ⌊z⌋₊) % 6)
  let normal : Vec3 α := (((v_2.sub v_0).cross (v_1.sub v_0)).normalize P).neg
  [⟨v_0, color, normal, textureCoordinates⟩,
   ⟨v_1, color, normal, textureCoordinates⟩,
   ⟨v_2, color, normal, textureCoordinates⟩,
   ⟨v_3, color, normal, textureCoordinates⟩]

/-- The body of the inner ring loop of `makeCylinder` at height `z`, segment `i`. -/
def cylinderQuadStep (P : Prims α) (radius length z : α) (st : GenState α) (i : Nat) :
    GenState α :=
  { localVerts := st.localVerts ++ cylinderQuadVertices P radius length z i
    localIndices :=
      pushIndex (pushIndex (pushIndex (pushIndex (pushIndex (pushIndex st.localIndices
        (st.index + 0)) (st.index + 1)) (st.index + 2))
        (st.index + 3)) (st.index + 2)) (st.index + 1)
    index := st.index + 4 }

/-- One turn of the outer ring loop of `makeCylinder`: the 20 quads at height `z`. -/
def cylinderRing (P : Prims α) (radius length z : α) (st : GenState α) : GenState α :=
  (List.range NUM_SEGMENTS).foldl (cylinderQuadStep P radius length z) st

/-- The outer ring loop `for (z = 0; z < length; z += 1.0f)` of `makeCylinder`,
run for at most `fuel` tests of its condition; `none` when they do not suffice. -/
def cylinderRings (P : Prims α) (radius length : α) : Nat → α → GenState α → Option (GenState α)
  | 0, _, _ => none
  | fuel + 1, z, st =>
    if z < length then
      cylinderRings P radius length fuel (z + 1) (cylinderRing P radius length z st)
    else
      some st

/-- The function `Geometry::makeCylinder`, with `fuel` bounding the tests of the
ring loop condition; the trailing driver calls only replace the buffer names. -/
def makeCylinder (H : Header) (P : Prims α) (fuel : Nat) (radius length : α) :
    Option (Mesh α) :=
  match cylinderRings P radius length fuel 0 (cylinderCaps P radius length) with
  | none => none
  | some st =>
    some { (Mesh.new H : Mesh α) with vertices := st.localVerts, indices := st.localIndices }

end Cylinder

/-! ## External model adapter -/

/-- The struct `tinyobj::mesh_t`, as far as `loadObj` reads it: the flat float
arrays and the `unsigned int` index array. -/
structure ObjMesh (α : Type) where
  positions : List α
  normals : List α
  texcoords : List α
  indices : List Nat

/-- The struct `tinyobj::shape_t`. -/
structure Shape (α : Type) where
  mesh : ObjMesh α

/-- What `tinyobj::LoadObj` hands back: the shapes it filled in and the error
message it returned. The materials are never read. -/
structure ParseResult (α : Type) where
  shapes : List (Shape α)
  errMsg : String

/-- The argument `textureFile` of `loadObj` when it is not `NULL`: the file name,
and the texture name that the driver hands out for the image loaded from it,
`none` when `IMG_Load` returns `NULL`. -/
structure TextureFile where
  filename : String
  loaded : Option Nat

section LoadObj

variable {α : Type} [Field α]

/-- The braced initializer of the vertex pushed by `loadObj` for index `i`: eight
checked accesses `at`, `none` when one of them throws `std::out_of_range`. -/
def objVertex? (s : ObjMesh α) (i : Nat) (triangleColor : Vec3 α) : Option (Vertex α) := do
  let p0 ← s.positions[3 * i + 0]?
  let p1 ← s.positions[3 * i + 1]?
  let p2 ← s.positions[3 * i + 2]?
  let n0 ← s.normals[3 * i + 0]?
  let n1 ← s.normals[3 * i + 1]?
  let n2 ← s.normals[3 * i + 2]?
  let t0 ← s.texcoords[2 * i + 0]?
  let t1 ← s.texcoords[2 * i + 1]?
  pure ⟨⟨p0, p1, p2⟩, triangleColor, ⟨n0, n1, n2⟩, ⟨t0, 1 - t1⟩⟩

/-- The vertex loop of `loadObj` from index `i` on, with `count` turns left and
the current value of `triangleColor`: the vertices it pushes. -/
def loadObjVertices (s : ObjMesh α) : Nat → Nat → Vec3 α → Except Fault (List (Vertex α))
  | 0, _, _ => .ok []
  | count + 1, i, triangleColor =>
    let triangleColor := if i % 3 = 0 then colorAt ((i / 3) % 6) else triangleColor
    match objVertex? s i triangleColor with
    | none => .error .outOfRange
    | some v =>
      match loadObjVertices s count (i + 1) triangleColor with
      | .error f => .error f
      | .ok vs => .ok (v :: vs)

/-- The index loop of `loadObj`: every parser index narrowed to `GLushort`. -/
def loadObjIndices (s : ObjMesh α) : List Nat :=
  s.indices.map fun k => k % 65536

/-- The method `Mesh::genTextureID`; `texture` is `none` when `filename` is `NULL`.
A file that cannot be loaded leaves the mesh alone. For a loaded file the method
takes `file.substr(file.find('.'), ...)` before it asks the driver for a texture
name, and that throws `std::out_of_range` when the file name has no dot. -/
def Mesh.genTextureID (m : Mesh α) (texture : Option TextureFile) : Except Fault (Mesh α) :=
  match texture with
  | none => .ok m
  | some t =>
    match t.loaded with
    | none => .ok m
    | some name =>
      if '.' ∈ t.filename.data then
        .ok { m with textureID := (name : Int) }
      else
        .error .outOfRange

/-- The function `Geometry::loadObj`, run on what the parser returned for
`objFile`; `.ok none` is the returned `nullptr`. The argument `texture` stands
for `textureFile` (`none` for `NULL`). The other driver calls only replace the
buffer names. -/
def loadObj (H : Header) (parsed : ParseResult α) (texture : Option TextureFile) :
    Except Fault (Option (Mesh α)) :=
  if parsed.errMsg ≠ "" then
    .ok none
  else
    match vecAt parsed.shapes 0 with
    | .error f => .error f
    | .ok s =>
      match loadObjVertices s.mesh (s.mesh.positions.length / 3) 0 ⟨1, 1, 1⟩ with
      | .error f => .error f
      | .ok localVertices =>
        match Mesh.genTextureID
          { (Mesh.new H : Mesh α) with
            vertices := localVertices
            indices := loadObjIndices s.mesh } texture with
        | .error f => .error f
        | .ok obj => .ok (some obj)

/-- The function `Geometry::makeTorus`, run on what the parser returned for
`TORUS_OBJ`. -/
def makeTorus (H : Header) (torus : ParseResult α) : Except Fault (Option (Mesh α)) :=
  loadObj H torus none

/-- The function `Geometry::makeSphere` together with its call of
`loadObj(ICO_OBJ)`, run on what the parser returned for `ICO_OBJ`. -/
def makeSphereOf (H : Header) (P : Prims α) (ico : ParseResult α) (radius : α)
    (tesselation : Nat) : Except Fault (Mesh α) :=
  match loadObj H ico none with
  | .error f => .error f
  | .ok sphere => makeSphere P sphere radius tesselation

/-- The function `Geometry::makeEllipse`. The argument `base` is what
`loadObj(ICO_OBJ)` returned inside `makeSphere`; the trailing driver calls only
replace the buffer names. -/
def makeEllipse (P : Prims α) (base : Option (Mesh α)) (r_x r_y r_z : α) (tesselation : Nat) :
    Except Fault (Mesh α) :=
  match makeSphere P base 1 tesselation with
  | .error f => .error f
  | .ok ellipse =>
    let scale : Mat3 α := mat3OfMat4 (glmScale ⟨r_x, r_y, r_z⟩)
    .ok { ellipse with
      vertices := ellipse.vertices.map fun v => { v with position := scale.mulVec3 v.position } }

/-- The function `Geometry::makeEllipse` together with the call of
`loadObj(ICO_OBJ)` inside `makeSphere`. -/
def makeEllipseOf (H : Header) (P : Prims α) (ico : ParseResult α) (r_x r_y r_z : α)
    (tesselation : Nat) : Except Fault (Mesh α) :=
  match loadObj H ico none with
  | .error f => .error f
  | .ok sphere => makeEllipse P sphere r_x r_y r_z tesselation

end LoadObj

/-! ## Tetrahedron and cone -/

section TetrahedronCone

variable {α : Type} [Field α]

set_option linter.unusedVariables false in
/-- The function `Geometry::makeTetrahedron`; the scaling by `radius` is commented
out in the source, and the trailing driver calls only replace the buffer names. -/
def makeTetrahedron (H : Header) (P : Prims α) (radius : α) : Mesh α :=
  let texture : Vec2 α := ⟨0, 0⟩
  let a : Vec3 α := Vec3.normalize P ⟨1, 1, 1⟩
  let b : Vec3 α := Vec3.normalize P ⟨1, -1, -1⟩
  let c : Vec3 α := Vec3.normalize P ⟨-1, 1, -1⟩
  let d : Vec3 α := Vec3.normalize P ⟨-1, -1, 1⟩
  { (Mesh.new H : Mesh α) with
    textureID := -1
    drawMode := GL_TRIANGLES
    vertices := [
      ⟨a, colorAt 0, c.neg, texture⟩,
      ⟨d, colorAt 0, c.neg, texture⟩,
      ⟨b, colorAt 0, c.neg, texture⟩,
      ⟨a, colorAt 1, b.neg, texture⟩,
      ⟨c, colorAt 1, b.neg, texture⟩,
      ⟨d, colorAt 1, b.neg, texture⟩,
      ⟨a, colorAt 2, d.neg, texture⟩,
      ⟨b, colorAt 2, d.neg, texture⟩,
      ⟨c, colorAt 2, d.neg, texture⟩,
      ⟨b, colorAt 3, a.neg, texture⟩,
      ⟨d, colorAt 3, a.neg, texture⟩,
      ⟨c, colorAt 3, a.neg, texture⟩]
    indices := [0, 1, 2, 3, 4, 5, 6, 7, 8, 9, 10, 11] }

/-- The six vertices that the loop of `makeCone` pushes for segment `i`: the side
triangle `v_0, v_1, top`, then the base triangle `v_0, v_1` and the origin. -/
def coneSegmentVertices (P : Prims α) (radius length : α) (i : Nat) : List (Vertex α) :=
  let theta : α := (2 * P.pi) / (NUM_SEGMENTS : α)
  let textureCoordinates : Vec2 α := ⟨0, 0⟩
  let top : Vec3 α := ⟨0, 0, length⟩
  let v_0 : Vec3 α := ⟨P.cos ((i : α) * theta) * radius, P.sin ((i : α) * theta) * radius, 0⟩
  let v_1 : Vec3 α :=
    ⟨P.cos (((i + 1 : Nat) : α) * theta) * radius, P.sin (((i + 1 : Nat) : α) * theta) * radius, 0⟩
  let color : Vec3 α := colorAt (i % 6)
  let normal : Vec3 α := (((top.sub v_0).cross (top.sub v_0)).normalize P).neg
  let color2 : Vec3 α := colorAt ((i + 1) % 6)
  [⟨v_0, color, normal, textureCoordinates⟩,
   ⟨v_1, color, normal, textureCoordinates⟩,
   ⟨top, color, normal, textureCoordinates⟩,
   ⟨v_0, color2, ⟨0, -1, 0⟩, textureCoordinates⟩,
   ⟨v_1, color2, ⟨0, -1, 0⟩, textureCoordinates⟩,
   ⟨⟨0, 0, 0⟩, color2, ⟨0, -1, 0⟩, textureCoordinates⟩]

/-- The body of the loop of `makeCone` for segment `i`. -/
def coneStep (P : Prims α) (radius length : α) (st : GenState α) (i : Nat) : GenState α :=
  { localVerts := st.localVerts ++ coneSegmentVertices P radius length i
    localIndices :=
      pushIndex (pushIndex (pushIndex (pushIndex (pushIndex (pushIndex st.localIndices
        (st.index + 0)) (st.index + 1)) (st.index + 2))
        (st.index + 3)) (st.index + 4)) (st.index + 5)
    index := st.index + 6 }

/-- The loop of `makeCone`, from empty vectors. -/
def coneSegments (P : Prims α) (radius length : α) : GenState α :=
  (List.range NUM_SEGMENTS).foldl (coneStep P radius length) ⟨[], [], 0⟩

/-- The function `Geometry::makeCone`; the trailing driver calls only replace the
buffer names. -/
def makeCone (H : Header) (P : Prims α) (radius length : α) : Mesh α :=
  { (Mesh.new H : Mesh α) with
    vertices := (coneSegments P radius length).localVerts
    indices := (coneSegments P radius length).localIndices }

end TetrahedronCone

/-! ## Vocabulary for the statements about meshes -/

/-- The texture step of `loadObj` does not throw: no texture file is given, or
the file cannot be loaded, or its name has a dot. -/
def TextureOK (texture : Option TextureFile) : Prop :=
  ∀ t, texture = some t → t.loaded = none ∨ '.' ∈ t.filename.data

/-- The mesh invariant: the index count is a multiple of 3 and every index is
below the vertex count. -/
def MeshInvariant {α : Type} (m : Mesh α) : Prop :=
  m.indices.length % 3 = 0 ∧ ∀ i ∈ m.indices, i < m.vertices.length

/-- The state of a generator loop is sound: `index` counts the vertices pushed so
far, the indices come in triples and each is below the vertex count. -/
def GenOK {α : Type} (st : GenState α) : Prop :=
  st.index = st.localVerts.length ∧ st.localIndices.length % 3 = 0 ∧
    ∀ v ∈ st.localIndices, v < st.localVerts.length

/-! ## Vocabulary for the statements about subdivision -/

/-- The keys bound in a midpoint cache. -/
def keysOf (cache : Cache) : Finset Nat := (cache.map Prod.fst).toFinset

/-- Every index stored in the cache is below `n`. -/
def CacheOK (cache : Cache) (n : Nat) : Prop := ∀ kv ∈ cache, kv.2 < n

/-- The edges `(v_0, v_1)`, `(v_1, v_2)`, `(v_2, v_0)` of the triangles of an
index list, in the order in which `makeSphere` looks up their midpoints. -/
def triangleEdges : List Nat → List (Nat × Nat)
  | v_0 :: v_1 :: v_2 :: rest => (v_0, v_1) :: (v_1, v_2) :: (v_2, v_0) :: triangleEdges rest
  | _ => []

/-- An edge as an unordered pair: the smaller index first. -/
def unorderedPair (e : Nat × Nat) : Nat × Nat := (min e.1 e.2, max e.1 e.2)

/-- The distinct unordered pairs that occur as a triangle edge in an index list. -/
def distinctEdges (localIndices : List Nat) : Finset (Nat × Nat) :=
  ((triangleEdges localIndices).map unorderedPair).toFinset

/-! ## Vocabulary for the statements about faces, normals and colours -/

/-- The vector `(p1 - p0) × (p2 - p0)` of a triangle with the corners `p0, p1, p2`
in index order; its direction is the side that the winding faces. -/
def triangleCross {α : Type} [Field α] (p0 p1 p2 : Vec3 α) : Vec3 α :=
  (p1.sub p0).cross (p2.sub p0)

/-- The corner positions of the `t`-th triangle of a mesh, in index order. -/
def Mesh.trianglePositions {α : Type} (m : Mesh α) (t : Nat) :
    Option (Vec3 α × Vec3 α × Vec3 α) := do
  let i0 ← m.indices[3 * t]?
  let i1 ← m.indices[3 * t + 1]?
  let i2 ← m.indices[3 * t + 2]?
  let v0 ← m.vertices[i0]?
  let v1 ← m.vertices[i1]?
  let v2 ← m.vertices[i2]?
  pure (v0.position, v1.position, v2.position)

/-- All vertices of the group `g` carry one and the same entry of `COLORS`. -/
def PaletteGroup {α : Type} [Field α] (g : List (Vertex α)) : Prop :=
  ∃ c ∈ (COLORS : List (Vec3 α)), ∀ v ∈ g, v.color = c

/-- The vertex list splits into consecutive groups, each of a size listed in
`sizes`, and each carrying one entry of `COLORS`. -/
def PaletteGroups {α : Type} [Field α] (sizes : List Nat) (vs : List (Vertex α)) : Prop :=
  ∃ groups : List (List (Vertex α)), vs = groups.flatten ∧
    ∀ g ∈ groups, g.length ∈ sizes ∧ PaletteGroup g

/-- Every channel of the vector lies in `[0, 1]`. -/
def UnitChannels {α : Type} [LinearOrderedField α] (c : Vec3 α) : Prop :=
  (0 ≤ c.x ∧ c.x ≤ 1) ∧ (0 ≤ c.y ∧ c.y ≤ 1) ∧ (0 ≤ c.z ∧ c.z ≤ 1)

/-- Every colour channel of every vertex lies in `[0, 1]`. -/
def UnitColors {α : Type} [LinearOrderedField α] (vs : List (Vertex α)) : Prop :=
  ∀ v ∈ vs, UnitChannels v.color

/-- The state of `makeSphere` between two passes, where `n0` is the vertex count
at which the previous pass started (0 before the first pass): the index list is
made of valid triples, the cache binds valid indices, every cached key is the key
of two indices below `n0`, and every edge of the index list has an endpoint that
is not below `n0`. -/
def PassState {α : Type} (localIndices : List Nat) (verts : List (Vertex α)) (cache : Cache)
    (n0 : Nat) : Prop :=
  localIndices.length % 3 = 0 ∧ (∀ i ∈ localIndices, i < verts.length) ∧
    CacheOK cache verts.length ∧ n0 ≤ verts.length ∧
    (∀ k ∈ keysOf cache, ∃ i j, i < n0 ∧ j < n0 ∧ k = edgeKey i j) ∧
    ∀ e ∈ triangleEdges localIndices, n0 ≤ e.1 ∨ n0 ≤ e.2

/-- The cached transform of a mesh is coherent: the dirty flag is set, or the
cached matrix is the product of the four components. -/
def Mesh.Coherent {α : Type} [Field α] (m : Mesh α) : Prop :=
  m.changed = true ∨ m.transform_MTW = m.revolve_M * m.translate_M * m.rotate_M * m.scale_M

/-- The six entries that a cap segment of `makeCylinder` stores in `localIndices`
when `index` is `b`. -/
def capIndexBlock (b : Nat) : List Nat :=
  [(b + 0) % 65536, (b + 1) % 65536, (b + 2) % 65536,
   (b + 3) % 65536, (b + 4) % 65536, (b + 5) % 65536]

/-- The six entries that a side quad of `makeCylinder` stores in `localIndices`
when `index` is `b`. -/
def quadIndexBlock (b : Nat) : List Nat :=
  [(b + 0) % 65536, (b + 1) % 65536, (b + 2) % 65536,
   (b + 3) % 65536, (b + 2) % 65536, (b + 1) % 65536]

/-! ## Sample inputs -/

/-- A stand-in for the library primitives over the rationals, for running the
embedding on sample inputs; the theorems hold for every choice of primitives. -/
def samplePrims : Prims ℚ where
  sqrt := fun x => x
  cos := fun _ => 1
  sin := fun x => x
  pi := 3
  rotate := fun t a => !![1, -t, 0, a.x; t, 1, 0, a.y; 0, 0, 1, a.z; 0, 0, 0, 1]

/-- The face list of an icosahedron on the vertices `0 .. 11`: 20 triangles, 30
edges, every edge in two triangles. -/
def icosahedronIndices : List Nat := [
  0, 11, 5, 0, 5, 1, 0, 1, 7, 0, 7, 10, 0, 10, 11,
  1, 5, 9, 5, 11, 4, 11, 10, 2, 10, 7, 6, 7, 1, 8,
  3, 9, 4, 3, 4, 2, 3, 2, 6, 3, 6, 8, 3, 8, 9,
  4, 9, 5, 2, 4, 11, 6, 2, 10, 8, 6, 7, 9, 8, 1]

/-- The corner `p` of the sample icosahedron, as a white vertex whose normal is `p`. -/
def icosahedronCorner {α : Type} [Field α] (p : Vec3 α) : Vertex α :=
  ⟨p, ⟨1, 1, 1⟩, p, ⟨0, 0⟩⟩

/-- A sample base mesh for `makeSphere`: an icosahedron whose corners are the
cyclic permutations of `(0, ±1, ±13/8)`. The model `res/meshes/icosohedron.obj`
that the program loads is not among the sources. -/
def sampleIcosahedron {α : Type} [Field α] : Mesh α :=
  { (Mesh.new ⟨2, 4, true⟩ : Mesh α) with
    vertices := [
      icosahedronCorner ⟨-1, 13 / 8, 0⟩, icosahedronCorner ⟨1, 13 / 8, 0⟩,
      icosahedronCorner ⟨-1, -(13 / 8), 0⟩, icosahedronCorner ⟨1, -(13 / 8), 0⟩,
      icosahedronCorner ⟨0, -1, 13 / 8⟩, icosahedronCorner ⟨0, 1, 13 / 8⟩,
      icosahedronCorner ⟨0, -1, -(13 / 8)⟩, icosahedronCorner ⟨0, 1, -(13 / 8)⟩,
      icosahedronCorner ⟨13 / 8, 0, -1⟩, icosahedronCorner ⟨13 / 8, 0, 1⟩,
      icosahedronCorner ⟨-(13 / 8), 0, -1⟩, icosahedronCorner ⟨-(13 / 8), 0, 1⟩]
    indices := icosahedronIndices }

/-- A parser result for a model of one triangle that has positions and faces
only, no normals and no texture coordinates, and no error message. -/
def bareTriangle : ParseResult ℚ :=
  { shapes := [⟨{ positions := [0, 0, 0, 1, 0, 0, 0, 1, 0]
                  normals := []
                  texcoords := []
                  indices := [0, 1, 2] }⟩]
    errMsg := "" }

/-- The shape of a model of two triangles with normals and texture coordinates:
20 position floats (two more than six vertices need) and one index above 65535. -/
def twoTrianglesShape : Shape ℚ :=
  ⟨{ positions := [0, 0, 0, 1, 0, 0, 0, 1, 0, 0, 0, 1, 1, 0, 1, 0, 1, 1, 5, 5]
     normals := [0, 0, 1, 0, 0, 1, 0, 0, 1, 0, 0, -1, 0, 0, -1, 0, 0, -1]
     texcoords := [0, 0, 1, 0, 0, 1, 0, 1 / 4, 1, 1 / 4, 0, 3 / 4]
     indices := [0, 1, 2, 3, 4, 65541] }⟩

/-- A parser result for the two-triangle model, with no error message. -/
def twoTriangles : ParseResult ℚ :=
  { shapes := [twoTrianglesShape]
    errMsg := "" }

/-- A parser result that carries an error message next to a populated shape. -/
def failedParse : ParseResult ℚ :=
  { shapes := twoTriangles.shapes
    errMsg := "Cannot open file [res/meshes/icosohedron.obj]" }

/-- The shape of a model of one vertex whose index list is `0, 5, 0`: three
position floats with matching normals and texture coordinates. -/
def strayIndexShape : Shape ℚ :=
  ⟨{ positions := [0, 0, 0]
     normals := [0, 0, 1]
     texcoords := [0, 0]
     indices := [0, 5, 0] }⟩

/-- A parser result for the one-vertex model, with no error message. -/
def strayIndexModel : ParseResult ℚ :=
  { shapes := [strayIndexShape]
    errMsg := "" }

/-- A white vertex at `(1, 0, 0)` that carries the number `k` as its texture
coordinate `(k, 0)`. -/
def numberedVertex (k : Nat) : Vertex ℚ :=
  ⟨⟨1, 0, 0⟩, ⟨1, 1, 1⟩, ⟨1, 0, 0⟩, ⟨(k : ℚ), 0⟩⟩

/-- A list of `n` vertices told apart by their texture coordinate. -/
def numberedVertices (n : Nat) : List (Vertex ℚ) :=
  (List.range n).map numberedVertex

/-! ## Transform composer -/

section TransformTheorems

variable {α : Type} [Field α]

theorem calls_cons (P : Prims α) (m : Mesh α) (c : TransformCall α)
    (cs : List (TransformCall α)) :
    m.calls P (c :: cs) = (m.call P c).calls P cs := rfl

theorem calls_changed (P : Prims α) (m : Mesh α) (cs : List (TransformCall α))
    (h : cs ≠ [] ∨ m.changed = true) : (m.calls P cs).changed = true := by
  induction cs generalizing m with
  | nil => simpa [Mesh.calls] using h
  | cons c cs ih =>
    rw [calls_cons]
    apply ih
    right
    cases c <;> rfl

theorem calls_translate_M (P : Prims α) (cs : List (TransformCall α)) (m : Mesh α) (v : Vec3 α)
    (huniq : ∀ w, TransformCall.translate w ∈ cs → w = v)
    (h : TransformCall.translate v ∈ cs ∨ m.translate_M = glmTranslate v) :
    (m.calls P cs).translate_M = glmTranslate v := by
  induction cs generalizing m with
  | nil => simpa [Mesh.calls] using h
  | cons c cs ih =>
    rw [calls_cons]
    apply ih _ (fun w hw => huniq w (List.mem_cons_of_mem _ hw))
    by_cases hm : TransformCall.translate v ∈ cs
    · exact Or.inl hm
    · right
      cases c with
      | translate w =>
        have : w = v := huniq w (List.mem_cons_self _ _)
        subst this; rfl
      | rotate t a =>
        rcases h with h | h
        · simp at h; exact absurd h hm
        · exact h
      | scale s =>
        rcases h with h | h
        · simp at h; exact absurd h hm
        · exact h
      | revolve t a =>
        rcases h with h | h
        · simp at h; exact absurd h hm
        · exact h

theorem calls_scale_M (P : Prims α) (cs : List (TransformCall α)) (m : Mesh α) (v : Vec3 α)
    (huniq : ∀ w, TransformCall.scale w ∈ cs → w = v)
    (h : TransformCall.scale v ∈ cs ∨ m.scale_M = glmScale v) :
    (m.calls P cs).scale_M = glmScale v := by
  induction cs generalizing m with
  | nil => simpa [Mesh.calls] using h
  | cons c cs ih =>
    rw [calls_cons]
    apply ih _ (fun w hw => huniq w (List.mem_cons_of_mem _ hw))
    by_cases hm : TransformCall.scale v ∈ cs
    · exact Or.inl hm
    · right
      cases c with
      | scale w =>
        have : w = v := huniq w (List.mem_cons_self _ _)
        subst this; rfl
      | rotate t a =>
        rcases h with h | h
        · simp at h; exact absurd h hm
        · exact h
      | translate s =>
        rcases h with h | h
        · simp at h; exact absurd h hm
        · exact h
      | revolve t a =>
        rcases h with h | h
        · simp at h; exact absurd h hm
        · exact h

theorem calls_rotate_M (P : Prims α) (cs : List (TransformCall α)) (m : Mesh α) (t : α)
    (a : Vec3 α)
    (huniq : ∀ t' a', TransformCall.rotate t' a' ∈ cs → t' = t ∧ a' = a)
    (h : TransformCall.rotate t a ∈ cs ∨ m.rotate_M = P.rotate t a) :
    (m.calls P cs).rotate_M = P.rotate t a := by
  induction cs generalizing m with
  | nil => simpa [Mesh.calls] using h
  | cons c cs ih =>
    rw [calls_cons]
    apply ih _ (fun t' a' hw => huniq t' a' (List.mem_cons_of_mem _ hw))
    by_cases hm : TransformCall.rotate t a ∈ cs
    · exact Or.inl hm
    · right
      cases c with
      | rotate t' a' =>
        obtain ⟨h1, h2⟩ := huniq t' a' (List.mem_cons_self _ _)
        subst h1; subst h2; rfl
      | scale s =>
        rcases h with h | h
        · simp at h; exact absurd h hm
        · exact h
      | translate s =>
        rcases h with h | h
        · simp at h; exact absurd h hm
        · exact h
      | revolve t a =>
        rcases h with h | h
        · simp at h; exact absurd h hm
        · exact h

theorem calls_revolve_M (P : Prims α) (cs : List (TransformCall α)) (m : Mesh α) (t : α)
    (a : Vec3 α)
    (huniq : ∀ t' a', TransformCall.revolve t' a' ∈ cs → t' = t ∧ a' = a)
    (h : TransformCall.revolve t a ∈ cs ∨ m.revolve_M = P.rotate t a) :
    (m.calls P cs).revolve_M = P.rotate t a := by
  induction cs generalizing m with
  | nil => simpa [Mesh.calls] using h
  | cons c cs ih =>
    rw [calls_cons]
    apply ih _ (fun t' a' hw => huniq t' a' (List.mem_cons_of_mem _ hw))
    by_cases hm : TransformCall.revolve t a ∈ cs
    · exact Or.inl hm
    · right
      cases c with
      | revolve t' a' =>
        obtain ⟨h1, h2⟩ := huniq t' a' (List.mem_cons_self _ _)
        subst h1; subst h2; rfl
      | scale s =>
        rcases h with h | h
        · simp at h; exact absurd h hm
        · exact h
      | translate s =>
        rcases h with h | h
        · simp at h; exact absurd h hm
        · exact h
      | rotate t a =>
        rcases h with h | h
        · simp at h; exact absurd h hm
        · exact h

/-- C1: once `translateModel(v)`, `rotateModel(theta, axis)`, `scaleModel(s)` and
`revolveModel(phi, axis2)` have each been called once, in whatever order, on any
mesh, `getTransform()` returns `revolve * translate * rotate * scale` of the
four matrices built from the arguments, caches it and clears the dirty flag. -/
theorem getTransform_after_four_calls (P : Prims α) (m : Mesh α) (v s axis axis2 : Vec3 α)
    (theta phi : α) (cs : List (TransformCall α))
    (h : cs.Perm [TransformCall.translate v, TransformCall.rotate theta axis,
      TransformCall.scale s, TransformCall.revolve phi axis2]) :
    (m.calls P cs).getTransform.1 =
        P.rotate phi axis2 * glmTranslate v * P.rotate theta axis * glmScale s ∧
      (m.calls P cs).getTransform.2.transform_MTW =
        P.rotate phi axis2 * glmTranslate v * P.rotate theta axis * glmScale s ∧
      (m.calls P cs).getTransform.2.changed = false := by
  have hne : cs ≠ [] := by
    intro h0
    subst h0
    simpa using h.length_eq
  have hc := calls_changed P m cs (Or.inl hne)
  have ht := calls_translate_M P cs m v
    (fun w hw => by have := h.mem_iff.mp hw; simpa using this)
    (Or.inl (h.mem_iff.mpr (by simp)))
  have hr := calls_rotate_M P cs m theta axis
    (fun t a hw => by have := h.mem_iff.mp hw; simpa using this)
    (Or.inl (h.mem_iff.mpr (by simp)))
  have hs := calls_scale_M P cs m s
    (fun w hw => by have := h.mem_iff.mp hw; simpa using this)
    (Or.inl (h.mem_iff.mpr (by simp)))
  have hv := calls_revolve_M P cs m phi axis2
    (fun t a hw => by have := h.mem_iff.mp hw; simpa using this)
    (Or.inl (h.mem_iff.mpr (by simp)))
  simp [Mesh.getTransform, hc, ht, hr, hs, hv]

/-- Witness for C1: the four calls in the order scale, revolve, translate, rotate. -/
theorem getTransform_after_four_calls_witness :
    ([TransformCall.scale ⟨2, 3, 4⟩, TransformCall.revolve 1 ⟨0, 1, 0⟩,
        TransformCall.translate ⟨5, 6, 7⟩, TransformCall.rotate 2 ⟨0, 0, 1⟩] :
          List (TransformCall ℚ)).Perm
        [TransformCall.translate ⟨5, 6, 7⟩, TransformCall.rotate 2 ⟨0, 0, 1⟩,
          TransformCall.scale ⟨2, 3, 4⟩, TransformCall.revolve 1 ⟨0, 1, 0⟩] ∧
      (((Mesh.new ⟨2, 4, true⟩ : Mesh ℚ).calls samplePrims
          [TransformCall.scale ⟨2, 3, 4⟩, TransformCall.revolve 1 ⟨0, 1, 0⟩,
            TransformCall.translate ⟨5, 6, 7⟩, TransformCall.rotate 2 ⟨0, 0, 1⟩]).getTransform.1 =
        samplePrims.rotate 1 ⟨0, 1, 0⟩ * glmTranslate ⟨5, 6, 7⟩ *
          samplePrims.rotate 2 ⟨0, 0, 1⟩ * glmScale ⟨2, 3, 4⟩) := by
  have hp : ([TransformCall.scale ⟨2, 3, 4⟩, TransformCall.revolve 1 ⟨0, 1, 0⟩,
        TransformCall.translate ⟨5, 6, 7⟩, TransformCall.rotate 2 ⟨0, 0, 1⟩] :
          List (TransformCall ℚ)).Perm
        [TransformCall.translate ⟨5, 6, 7⟩, TransformCall.rotate 2 ⟨0, 0, 1⟩,
          TransformCall.scale ⟨2, 3, 4⟩, TransformCall.revolve 1 ⟨0, 1, 0⟩] := by
    exact @List.perm_append_comm _ [_, _] [_, _]
  exact ⟨hp, (getTransform_after_four_calls samplePrims _ _ _ _ _ _ _ _ hp).1⟩

/-- C2: `getTransform()` is memoized. On any mesh, a second call right after a
first returns the same matrix and leaves the whole mesh as the first call left
it; the second call finds the dirty flag clear, so it takes the branch that
does not recompute the product. -/
theorem getTransform_memoized (m : Mesh α) :
    m.getTransform.2.getTransform.1 = m.getTransform.1 ∧
      m.getTransform.2.getTransform.2 = m.getTransform.2 ∧
      m.getTransform.2.changed = false ∧
      m.getTransform.2.getTransform = (m.getTransform.2.transform_MTW, m.getTransform.2) := by
  unfold Mesh.getTransform
  by_cases h : m.changed = true
  · simp [h]
  · simp [h]

/-- C3: each of the four mutators overwrites its own component with the matrix
built from its argument, whatever the component was, sets the dirty flag and
leaves the other three components, the cached matrix and the vertex and index
data as they were; a second `translateModel` makes the first one unobservable. -/
theorem mutators_replace_own_component (P : Prims α) (m : Mesh α) (v v1 v2 : Vec3 α)
    (theta : α) :
    ((m.translateModel v).translate_M = glmTranslate v ∧ (m.translateModel v).changed = true ∧
        (m.translateModel v).rotate_M = m.rotate_M ∧ (m.translateModel v).scale_M = m.scale_M ∧
        (m.translateModel v).revolve_M = m.revolve_M ∧
        (m.translateModel v).transform_MTW = m.transform_MTW ∧
        (m.translateModel v).vertices = m.vertices ∧ (m.translateModel v).indices = m.indices) ∧
      ((m.rotateModel P theta v).rotate_M = P.rotate theta v ∧
        (m.rotateModel P theta v).changed = true ∧
        (m.rotateModel P theta v).translate_M = m.translate_M ∧
        (m.rotateModel P theta v).scale_M = m.scale_M ∧
        (m.rotateModel P theta v).revolve_M = m.revolve_M ∧
        (m.rotateModel P theta v).transform_MTW = m.transform_MTW ∧
        (m.rotateModel P theta v).vertices = m.vertices ∧
        (m.rotateModel P theta v).indices = m.indices) ∧
      ((m.scaleModel v).scale_M = glmScale v ∧ (m.scaleModel v).changed = true ∧
        (m.scaleModel v).translate_M = m.translate_M ∧ (m.scaleModel v).rotate_M = m.rotate_M ∧
        (m.scaleModel v).revolve_M = m.revolve_M ∧
        (m.scaleModel v).transform_MTW = m.transform_MTW ∧
        (m.scaleModel v).vertices = m.vertices ∧ (m.scaleModel v).indices = m.indices) ∧
      ((m.revolveModel P theta v).revolve_M = P.rotate theta v ∧
        (m.revolveModel P theta v).changed = true ∧
        (m.revolveModel P theta v).translate_M = m.translate_M ∧
        (m.revolveModel P theta v).rotate_M = m.rotate_M ∧
        (m.revolveModel P theta v).scale_M = m.scale_M ∧
        (m.revolveModel P theta v).transform_MTW = m.transform_MTW ∧
        (m.revolveModel P theta v).vertices = m.vertices ∧
        (m.revolveModel P theta v).indices = m.indices) ∧
      (m.translateModel v1).translateModel v2 = m.translateModel v2 ∧
      (m.rotateModel P theta v1).rotateModel P theta v2 = m.rotateModel P theta v2 ∧
      (m.scaleModel v1).scaleModel v2 = m.scaleModel v2 ∧
      (m.revolveModel P theta v1).revolveModel P theta v2 = m.revolveModel P theta v2 := by
  refine ⟨⟨rfl, rfl, rfl, rfl, rfl, rfl, rfl, rfl⟩, ⟨rfl, rfl, rfl, rfl, rfl, rfl, rfl, rfl⟩,
    ⟨rfl, rfl, rfl, rfl, rfl, rfl, rfl, rfl⟩, ⟨rfl, rfl, rfl, rfl, rfl, rfl, rfl, rfl⟩,
    rfl, rfl, rfl, rfl⟩

/-- C4: on any mesh, dirty or not, `clearTransform()` leaves the four components
and the cached matrix equal to the identity and the dirty flag clear, so the
next `getTransform()` returns the identity and changes nothing. -/
theorem clearTransform_resets (m : Mesh α) :
    m.clearTransform.translate_M = 1 ∧ m.clearTransform.rotate_M = 1 ∧
      m.clearTransform.scale_M = 1 ∧ m.clearTransform.revolve_M = 1 ∧
      m.clearTransform.transform_MTW = 1 ∧ m.clearTransform.changed = false ∧
      m.clearTransform.getTransform = (1, m.clearTransform) := by
  refine ⟨rfl, rfl, rfl, rfl, rfl, rfl, ?_⟩
  simp [Mesh.getTransform, Mesh.clearTransform, mat4Identity]

end TransformTheorems

/-! ## Icosphere subdivision -/

section MidpointTheorems

variable {α : Type} [Field α]

theorem edgeKey_eq (i1 i2 : Nat) : edgeKey i1 i2 = min i1 i2 * 1024 + max i1 i2 := by
  unfold edgeKey
  simp only [Nat.shiftLeft_eq]
  by_cases h : i1 < i2
  · simp [h, Nat.min_def, Nat.max_def, Nat.le_of_lt h]
  · have h' : i2 ≤ i1 := Nat.le_of_not_lt h
    simp only [h, if_false]
    rcases Nat.eq_or_lt_of_le h' with h2 | h2
    · subst h2; simp
    · simp [Nat.min_def, Nat.max_def, Nat.not_le_of_lt h2]

theorem edgeKey_comm (i1 i2 : Nat) : edgeKey i1 i2 = edgeKey i2 i1 := by
  rw [edgeKey_eq, edgeKey_eq, Nat.min_comm, Nat.max_comm]

theorem lookup_eq_none_iff_not_mem_keys (cache : Cache) (k : Nat) :
    cache.lookup k = none ↔ k ∉ keysOf cache := by
  induction cache with
  | nil => simp [keysOf]
  | cons kv rest ih =>
    obtain ⟨k', v⟩ := kv
    by_cases hk : k = k'
    · subst hk; simp [List.lookup, keysOf]
    · have : (k == k') = false := by simpa using hk
      simp [List.lookup, this, keysOf, hk] at ih ⊢
      exact ih

theorem lookup_some_mem (cache : Cache) (k v : Nat) (h : cache.lookup k = some v) :
    (k, v) ∈ cache := by
  induction cache with
  | nil => simp at h
  | cons kv rest ih =>
    obtain ⟨k', v'⟩ := kv
    by_cases hk : k = k'
    · subst hk
      simp [List.lookup] at h
      subst h
      exact List.mem_cons_self _ _
    · have : (k == k') = false := by simpa using hk
      simp [List.lookup, this] at h
      exact List.mem_cons_of_mem _ (ih h)

theorem vecAt_ok {β : Type} (xs : List β) (i : Nat) (h : i < xs.length) :
    vecAt xs i = .ok (xs.get ⟨i, h⟩) := by
  simp [vecAt, List.getElem?_eq_getElem h]

/-- What one call of `middlePointIndex` does on a state whose cache only holds
indices of existing vertices. -/
theorem middlePointIndex_spec (P : Prims α) (i1 i2 : Nat) (verts : List (Vertex α))
    (cache : Cache) (h1 : i1 < verts.length) (h2 : i2 < verts.length)
    (hc : CacheOK cache verts.length) :
    ∃ r verts' cache', middlePointIndex P i1 i2 verts cache = .ok (r, verts', cache') ∧
      r < verts'.length ∧ verts.length ≤ verts'.length ∧ CacheOK cache' verts'.length ∧
      keysOf cache' = insert (edgeKey i1 i2) (keysOf cache) ∧
      verts'.length + (keysOf cache).card = verts.length + (keysOf cache').card := by
  cases hl : cache.lookup (edgeKey i1 i2) with
  | some hit =>
    have e : middlePointIndex P i1 i2 verts cache = .ok (hit, verts, cache) := by
      simp [middlePointIndex, hl]
    have hmem := lookup_some_mem cache _ _ hl
    have hk : edgeKey i1 i2 ∈ keysOf cache := by
      by_contra hn
      rw [← lookup_eq_none_iff_not_mem_keys] at hn
      rw [hn] at hl
      cases hl
    refine ⟨hit, verts, cache, e, hc _ hmem, le_refl _, hc, ?_, rfl⟩
    rw [Finset.insert_eq_of_mem hk]
  | none =>
    have hk : edgeKey i1 i2 ∉ keysOf cache := (lookup_eq_none_iff_not_mem_keys _ _).mp hl
    have e : middlePointIndex P i1 i2 verts cache = .ok (verts.length % 65536,
        verts ++ [middleVertex P (verts.get ⟨i1, h1⟩) (verts.get ⟨i2, h2⟩)],
        (edgeKey i1 i2, verts.length % 65536) :: cache) := by
      simp [middlePointIndex, hl, vecAt_ok verts i1 h1, vecAt_ok verts i2 h2]
    refine ⟨_, _, _, e, ?_, ?_, ?_, ?_, ?_⟩
    · simp only [List.length_append, List.length_singleton]
      exact Nat.lt_succ_of_le (Nat.mod_le _ _)
    · simp
    · intro kv hkv
      simp only [List.length_append, List.length_singleton]
      rcases List.mem_cons.mp hkv with h | h
      · subst h
        exact Nat.lt_succ_of_le (Nat.mod_le _ _)
      · exact Nat.lt_succ_of_lt (hc kv h)
    · simp [keysOf]
    · have : keysOf ((edgeKey i1 i2, verts.length % 65536) :: cache)
          = insert (edgeKey i1 i2) (keysOf cache) := by simp [keysOf]
      rw [this, Finset.card_insert_of_not_mem hk]
      simp only [List.length_append, List.length_singleton]
      omega

theorem scalePositionAt_spec (verts : List (Vertex α)) (a : Nat) (radius : α)
    (h : a < verts.length) :
    ∃ verts', scalePositionAt verts a radius = .ok verts' ∧ verts'.length = verts.length := by
  unfold scalePositionAt
  rw [List.getElem?_eq_getElem h]
  exact ⟨_, rfl, by simp⟩

end MidpointTheorems


section PassTheorems

variable {α : Type} [Field α]

/-- What the loop body does for one triangle with valid corners: it returns,
pushes twelve valid indices and binds the keys of the three edges. -/
theorem splitTriangle_spec (P : Prims α) (radius : α) (v_0 v_1 v_2 : Nat)
    (verts : List (Vertex α)) (cache : Cache)
    (h0 : v_0 < verts.length) (h1 : v_1 < verts.length) (h2 : v_2 < verts.length)
    (hc : CacheOK cache verts.length) :
    ∃ pushed verts' cache', splitTriangle P radius v_0 v_1 v_2 verts cache =
        .ok (pushed, verts', cache') ∧
      pushed.length = 12 ∧ (∀ i ∈ pushed, i < verts'.length) ∧
      verts.length ≤ verts'.length ∧ CacheOK cache' verts'.length ∧
      keysOf cache' = insert (edgeKey v_2 v_0) (insert (edgeKey v_1 v_2)
        (insert (edgeKey v_0 v_1) (keysOf cache))) ∧
      verts'.length + (keysOf cache).card = verts.length + (keysOf cache').card := by
  obtain ⟨a, vs1, c1, e1, ha, hl1, hc1, hk1, hn1⟩ :=
    middlePointIndex_spec P v_0 v_1 verts cache h0 h1 hc
  obtain ⟨b, vs2, c2, e2, hb, hl2, hc2, hk2, hn2⟩ :=
    middlePointIndex_spec P v_1 v_2 vs1 c1 (by omega) (by omega) hc1
  obtain ⟨c, vs3, c3, e3, hcc, hl3, hc3, hk3, hn3⟩ :=
    middlePointIndex_spec P v_2 v_0 vs2 c2 (by omega) (by omega) hc2
  obtain ⟨vs4, e4, hl4⟩ := scalePositionAt_spec vs3 a radius (by omega)
  obtain ⟨vs5, e5, hl5⟩ := scalePositionAt_spec vs4 b radius (by omega)
  obtain ⟨vs6, e6, hl6⟩ := scalePositionAt_spec vs5 c radius (by omega)
  refine ⟨[v_0, a, c, v_1, b, a, v_2, c, b, a, b, c], vs6, c3, ?_, rfl, ?_, by omega, ?_, ?_,
    by omega⟩
  · simp [splitTriangle, e1, e2, e3, e4, e5, e6, bind, Except.bind, pure, Except.pure]
  · intro i hi
    simp only [List.mem_cons, List.mem_singleton, List.not_mem_nil, or_false] at hi
    rcases hi with h | h | h | h | h | h | h | h | h | h | h | h <;> subst h <;> omega
  · have : vs6.length = vs3.length := by omega
    rw [this]; exact hc3
  · rw [hk3, hk2, hk1]

/-- What one pass does on a triangle list with valid indices: it returns, the
index list has four times the length, all indices stay valid, and the vertex
list grows by the number of keys that the pass adds to the cache. -/
theorem subdividePass_spec (P : Prims α) (radius : α) (n : Nat) :
    ∀ (localIndices : List Nat) (verts : List (Vertex α)) (cache : Cache),
      localIndices.length = 3 * n → (∀ i ∈ localIndices, i < verts.length) →
      CacheOK cache verts.length →
      ∃ newIndices verts' cache', subdividePass P radius localIndices verts cache =
          .ok (newIndices, verts', cache') ∧
        newIndices.length = 4 * localIndices.length ∧ (∀ i ∈ newIndices, i < verts'.length) ∧
        verts.length ≤ verts'.length ∧ CacheOK cache' verts'.length ∧
        keysOf cache' = keysOf cache ∪
          ((triangleEdges localIndices).map fun e => edgeKey e.1 e.2).toFinset ∧
        verts'.length + (keysOf cache).card = verts.length + (keysOf cache').card := by
  induction n with
  | zero =>
    intro localIndices verts cache hlen _ hc
    have : localIndices = [] := List.length_eq_zero.mp (by omega)
    subst this
    exact ⟨[], verts, cache, rfl, rfl, by simp, le_refl _, hc, by simp [triangleEdges], rfl⟩
  | succ n ih =>
    intro localIndices verts cache hlen hv hc
    match localIndices, hlen, hv with
    | v_0 :: v_1 :: v_2 :: rest, hlen, hv =>
      obtain ⟨pushed, vs1, c1, e1, hp, hpv, hl1, hc1, hk1, hn1⟩ :=
        splitTriangle_spec P radius v_0 v_1 v_2 verts cache (hv _ (by simp)) (hv _ (by simp))
          (hv _ (by simp)) hc
      have hrest : rest.length = 3 * n := by simp at hlen; omega
      obtain ⟨newIndices, vs2, c2, e2, hnl, hnv, hl2, hc2, hk2, hn2⟩ :=
        ih rest vs1 c1 hrest
          (fun i hi => lt_of_lt_of_le (hv i (by simp [hi])) hl1) hc1
      refine ⟨pushed ++ newIndices, vs2, c2, ?_, ?_, ?_, by omega, hc2, ?_, by omega⟩
      · simp [subdividePass, e1, e2]
      · simp only [List.length_append, List.length_cons, hp, hnl]; omega
      · intro i hi
        rcases List.mem_append.mp hi with h | h
        · exact lt_of_lt_of_le (hpv i h) hl2
        · exact hnv i h
      · rw [hk2, hk1]
        ext k
        simp only [triangleEdges, List.map_cons, List.toFinset_cons, Finset.mem_union,
          Finset.mem_insert]
        tauto
    | [], hlen, _ => simp at hlen
    | [_], hlen, _ => simp at hlen; omega
    | [_, _], hlen, _ => simp at hlen; omega

/-- The same for `L` passes in a row. -/
theorem tessellate_spec (P : Prims α) (radius : α) (L : Nat) :
    ∀ (n : Nat) (localIndices : List Nat) (verts : List (Vertex α)) (cache : Cache),
      localIndices.length = 3 * n → (∀ i ∈ localIndices, i < verts.length) →
      CacheOK cache verts.length →
      ∃ newIndices verts' cache', tessellate P radius L localIndices verts cache =
          .ok (newIndices, verts', cache') ∧
        newIndices.length = localIndices.length * 4 ^ L ∧
        (∀ i ∈ newIndices, i < verts'.length) ∧
        verts.length ≤ verts'.length ∧ CacheOK cache' verts'.length := by
  induction L with
  | zero =>
    intro n localIndices verts cache _ hv hc
    exact ⟨localIndices, verts, cache, rfl, by simp, hv, le_refl _, hc⟩
  | succ L ih =>
    intro n localIndices verts cache hlen hv hc
    obtain ⟨idx1, vs1, c1, e1, hl1, hv1, hle1, hc1, _, _⟩ :=
      subdividePass_spec P radius n localIndices verts cache hlen hv hc
    obtain ⟨idx2, vs2, c2, e2, hl2, hv2, hle2, hc2⟩ :=
      ih (4 * n) idx1 vs1 c1 (by omega) hv1 hc1
    refine ⟨idx2, vs2, c2, ?_, ?_, hv2, by omega, hc2⟩
    · simp [tessellate, e1, e2]
    · rw [hl2, hl1, pow_succ]; ring

theorem projectBase_length (P : Prims α) (radius : α) (vs : List (Vertex α)) :
    (projectBase P radius vs).length = vs.length := by
  simp [projectBase]

theorem cacheOK_nil (n : Nat) : CacheOK [] n := by
  intro kv h
  cases h

/-- The triangle count of `makeSphere` on a base mesh of `T` triangles. -/
theorem makeSphere_counts (P : Prims α) (base : Mesh α) (radius : α) (L T : Nat)
    (hT : base.indices.length = 3 * T) (hv : ∀ i ∈ base.indices, i < base.vertices.length) :
    ∃ m, makeSphere P (some base) radius L = .ok m ∧
      m.indices.length = 3 * (T * 4 ^ L) ∧ (∀ i ∈ m.indices, i < m.vertices.length) ∧
      base.vertices.length ≤ m.vertices.length := by
  obtain ⟨idx, vs, c, e, hl, hvv, hle, _⟩ :=
    tessellate_spec P radius L T base.indices (projectBase P radius base.vertices) []
      hT (by simpa [projectBase_length] using hv) (cacheOK_nil _)
  refine ⟨{ base with vertices := vs, indices := idx }, by simp only [makeSphere, e], ?_, hvv, ?_⟩
  · simp only [hl, hT]; ring
  · simpa [projectBase_length] using hle

end PassTheorems


section EdgeTheorems

variable {α : Type} [Field α]

theorem triangleEdges_mem (localIndices : List Nat) :
    ∀ e ∈ triangleEdges localIndices, e.1 ∈ localIndices ∧ e.2 ∈ localIndices := by
  induction localIndices using triangleEdges.induct with
  | case1 v_0 v_1 v_2 rest ih =>
    intro e he
    simp only [triangleEdges, List.mem_cons] at he
    rcases he with h | h | h | h
    · subst h; simp
    · subst h; simp
    · subst h; simp
    · have := ih e h
      simp [this.1, this.2]
  | case2 l hl =>
    intro e he
    unfold triangleEdges at he
    split at he
    · exact absurd rfl (hl _ _ _ _)
    · cases he

theorem edgeKey_eq_encode (e : Nat × Nat) :
    edgeKey e.1 e.2 = (unorderedPair e).1 * 1024 + (unorderedPair e).2 := by
  simp [edgeKey_eq, unorderedPair]

/-- Below 1024 the packed keys of the edges are as many as the unordered pairs. -/
theorem card_edge_keys (localIndices : List Nat) (hs : ∀ i ∈ localIndices, i < 1024) :
    ((triangleEdges localIndices).map fun e => edgeKey e.1 e.2).toFinset.card =
      (distinctEdges localIndices).card := by
  have himg : ((triangleEdges localIndices).map fun e => edgeKey e.1 e.2).toFinset =
      (distinctEdges localIndices).image fun p => p.1 * 1024 + p.2 := by
    ext k
    simp only [distinctEdges, List.mem_toFinset, List.mem_map, Finset.mem_image]
    constructor
    · rintro ⟨e, he, rfl⟩
      exact ⟨unorderedPair e, ⟨e, he, rfl⟩, (edgeKey_eq_encode e).symm⟩
    · rintro ⟨p, ⟨e, he, rfl⟩, rfl⟩
      exact ⟨e, he, edgeKey_eq_encode e⟩
  rw [himg]
  apply Finset.card_image_of_injOn
  intro p hp q hq hpq
  simp only [distinctEdges, Finset.coe_sort_coe, List.coe_toFinset, List.mem_map,
    Set.mem_setOf_eq] at hp hq
  obtain ⟨e, he, rfl⟩ := hp
  obtain ⟨f, hf, rfl⟩ := hq
  have he' := triangleEdges_mem _ e he
  have hf' := triangleEdges_mem _ f hf
  have e1 := hs _ he'.1
  have e2 := hs _ he'.2
  have f1 := hs _ hf'.1
  have f2 := hs _ hf'.2
  simp only [unorderedPair] at hpq ⊢
  have a1 : min e.1 e.2 < 1024 := lt_of_le_of_lt (min_le_left _ _) e1
  have a2 : max e.1 e.2 < 1024 := max_lt e1 e2
  have b1 : min f.1 f.2 < 1024 := lt_of_le_of_lt (min_le_left _ _) f1
  have b2 : max f.1 f.2 < 1024 := max_lt f1 f2
  ext
  · show min e.1 e.2 = min f.1 f.2
    omega
  · show max e.1 e.2 = max f.1 f.2
    omega

theorem subdividePass_vertex_count (P : Prims α) (radius : α) (localIndices : List Nat)
    (verts : List (Vertex α)) (n : Nat) (hlen : localIndices.length = 3 * n)
    (hv : ∀ i ∈ localIndices, i < verts.length) (hs : ∀ i ∈ localIndices, i < 1024) :
    ∃ newIndices verts' cache', subdividePass P radius localIndices verts [] =
        .ok (newIndices, verts', cache') ∧
      verts'.length = verts.length + (distinctEdges localIndices).card := by
  obtain ⟨idx, vs, c, e, _, _, _, _, hk, hn⟩ :=
    subdividePass_spec P radius n localIndices verts [] hlen hv (cacheOK_nil _)
  refine ⟨idx, vs, c, e, ?_⟩
  have h0 : keysOf ([] : Cache) = ∅ := rfl
  rw [h0, Finset.empty_union] at hk
  rw [h0, Finset.card_empty, hk, card_edge_keys localIndices hs] at hn
  simpa using hn

theorem middleVertex_comm (P : Prims α) (v1 v2 : Vertex α) :
    middleVertex P v1 v2 = middleVertex P v2 v1 := by
  simp only [middleVertex, Vec3.add, Vec2.add, add_comm]

theorem middlePointIndex_comm (P : Prims α) (i1 i2 : Nat) (verts : List (Vertex α))
    (cache : Cache) :
    middlePointIndex P i1 i2 verts cache = middlePointIndex P i2 i1 verts cache := by
  have hk := edgeKey_comm i1 i2
  cases hl : cache.lookup (edgeKey i2 i1) with
  | some hit => simp [middlePointIndex, hk, hl]
  | none =>
    cases h1 : verts[i1]? <;> cases h2 : verts[i2]? <;>
      simp [middlePointIndex, hk, hl, vecAt, h1, h2, middleVertex_comm P]

end EdgeTheorems


section SphereTheorems

variable {α : Type} [Field α]

theorem middlePointIndex_returns (P : Prims α) (i1 i2 : Nat) (verts : List (Vertex α))
    (cache : Cache) (h1 : i1 < verts.length) (h2 : i2 < verts.length) :
    ∃ r verts' cache', middlePointIndex P i1 i2 verts cache = .ok (r, verts', cache') := by
  cases hl : cache.lookup (edgeKey i1 i2) with
  | some hit => exact ⟨hit, verts, cache, by simp [middlePointIndex, hl]⟩
  | none =>
    exact ⟨verts.length % 65536,
      verts ++ [middleVertex P (verts.get ⟨i1, h1⟩) (verts.get ⟨i2, h2⟩)],
      (edgeKey i1 i2, verts.length % 65536) :: cache, by
      simp only [middlePointIndex, hl, vecAt_ok verts i1 h1, vecAt_ok verts i2 h2]⟩

/-- C5: on a base mesh of `T` triangles whose indices are all valid, `makeSphere`
returns a mesh for every radius and every level `L`, and its index list has
exactly `3 * T * 4 ^ L` entries, that is `T * 4 ^ L` triangles (`20 * 4 ^ L`
for the 20 triangles of the icosahedron). -/
theorem makeSphere_triangle_count (P : Prims α) (base : Mesh α) (radius : α) (L T : Nat)
    (hT : base.indices.length = 3 * T) (hv : ∀ i ∈ base.indices, i < base.vertices.length) :
    ∃ m, makeSphere P (some base) radius L = .ok m ∧ m.getNumIndices = 3 * T * 4 ^ L ∧
      m.indices.length = 3 * (T * 4 ^ L) := by
  obtain ⟨m, e, hl, _, _⟩ := makeSphere_counts P base radius L T hT hv
  exact ⟨m, e, by simp only [Mesh.getNumIndices, hl]; ring, hl⟩

/-- Witness for C5: the sample icosahedron at level 2 gives 320 triangles. -/
theorem makeSphere_triangle_count_witness :
    (sampleIcosahedron : Mesh ℚ).indices.length = 3 * 20 ∧
      (∀ i ∈ (sampleIcosahedron : Mesh ℚ).indices, i < (sampleIcosahedron : Mesh ℚ).vertices.length) ∧
      ∃ m, makeSphere samplePrims (some (sampleIcosahedron : Mesh ℚ)) 1 2 = .ok m ∧
        m.getNumIndices = 3 * 20 * 4 ^ 2 ∧ m.indices.length = 3 * (20 * 4 ^ 2) :=
  ⟨by decide, by decide,
    makeSphere_triangle_count samplePrims (sampleIcosahedron : Mesh ℚ) 1 2 20 (by decide) (by decide)⟩

/-- C7: from an empty cache, one subdivision pass over a triangle list whose
indices are valid and below 1024 returns, and the vertex list grows by exactly
the number of distinct unordered pairs that occur as a triangle edge, so an
edge shared by two triangles gets one midpoint vertex; `makeSphere` at level 1
therefore has that many vertices more than its base mesh. -/
theorem one_midpoint_per_distinct_edge (P : Prims α) (radius : α) (base : Mesh α) (n : Nat)
    (hlen : base.indices.length = 3 * n)
    (hv : ∀ i ∈ base.indices, i < base.vertices.length)
    (hs : ∀ i ∈ base.indices, i < 1024) :
    (∀ verts : List (Vertex α), verts.length = base.vertices.length →
      ∃ newIndices verts' cache', subdividePass P radius base.indices verts [] =
          .ok (newIndices, verts', cache') ∧
        verts'.length = verts.length + (distinctEdges base.indices).card) ∧
    ∃ m, makeSphere P (some base) radius 1 = .ok m ∧
      m.getNumVertices = base.getNumVertices + (distinctEdges base.indices).card := by
  constructor
  · intro verts hverts
    exact subdividePass_vertex_count P radius base.indices verts n hlen
      (fun i hi => hverts ▸ hv i hi) hs
  · obtain ⟨idx, vs, c, e, hl⟩ :=
      subdividePass_vertex_count P radius base.indices (projectBase P radius base.vertices) n
        hlen (by simpa [projectBase_length] using hv) hs
    refine ⟨{ base with vertices := vs, indices := idx }, ?_, ?_⟩
    · simp only [makeSphere, tessellate, e]
    · simpa [Mesh.getNumVertices, projectBase_length] using hl

/-- Witness for C7: the sample icosahedron has 12 vertices and 30 distinct
edges, and 42 vertices at level 1. -/
theorem one_midpoint_per_distinct_edge_witness :
    (sampleIcosahedron : Mesh ℚ).indices.length = 3 * 20 ∧
      (∀ i ∈ (sampleIcosahedron : Mesh ℚ).indices, i < (sampleIcosahedron : Mesh ℚ).vertices.length) ∧
      (∀ i ∈ (sampleIcosahedron : Mesh ℚ).indices, i < 1024) ∧
      (sampleIcosahedron : Mesh ℚ).getNumVertices + (distinctEdges (sampleIcosahedron : Mesh ℚ).indices).card = 42 ∧
      ∃ m, makeSphere samplePrims (some (sampleIcosahedron : Mesh ℚ)) 2 1 = .ok m ∧
        m.getNumVertices =
          (sampleIcosahedron : Mesh ℚ).getNumVertices + (distinctEdges (sampleIcosahedron : Mesh ℚ).indices).card :=
  ⟨by decide, by decide, by decide, by decide,
    (one_midpoint_per_distinct_edge samplePrims 2 (sampleIcosahedron : Mesh ℚ) 20 (by decide) (by decide)
      (by decide)).2⟩

/-- C8: the midpoint lookup does not depend on the order of its two indices. For
every vertex list, every cache and every two valid indices, the calls
`middlePointIndex(i1, i2)` and `middlePointIndex(i2, i1)` from the same state
both return, with the same index, the same vertex list and the same cache. -/
theorem middlePointIndex_order_independent (P : Prims α) (i1 i2 : Nat)
    (verts : List (Vertex α)) (cache : Cache) (h1 : i1 < verts.length)
    (h2 : i2 < verts.length) :
    ∃ r verts' cache', middlePointIndex P i1 i2 verts cache = .ok (r, verts', cache') ∧
      middlePointIndex P i2 i1 verts cache = .ok (r, verts', cache') := by
  obtain ⟨r, vs, c, e⟩ := middlePointIndex_returns P i1 i2 verts cache h1 h2
  exact ⟨r, vs, c, e, (middlePointIndex_comm P i1 i2 verts cache) ▸ e⟩

/-- Witness for C8: the edge between vertices 0 and 11 of the sample icosahedron. -/
theorem middlePointIndex_order_independent_witness :
    0 < (sampleIcosahedron : Mesh ℚ).vertices.length ∧ 11 < (sampleIcosahedron : Mesh ℚ).vertices.length ∧
      ∃ r verts' cache',
        middlePointIndex samplePrims 0 11 (sampleIcosahedron : Mesh ℚ).vertices [] =
          .ok (r, verts', cache') ∧
        middlePointIndex samplePrims 11 0 (sampleIcosahedron : Mesh ℚ).vertices [] =
          .ok (r, verts', cache') :=
  ⟨by decide, by decide,
    middlePointIndex_order_independent samplePrims 0 11 (sampleIcosahedron : Mesh ℚ).vertices []
      (by decide) (by decide)⟩

end SphereTheorems


section SphereRadius

variable {α : Type} [Field α]

set_option maxHeartbeats 4000000 in
set_option maxRecDepth 100000 in
/-- Level 1 on the sample icosahedron: vertex 12, the midpoint of the edge
between corners 0 and 11, has been multiplied by the radius twice. -/
theorem level_one_vertex_twelve (P : Prims α) (r : α) :
    ∃ m, makeSphere P (some sampleIcosahedron) r 1 = .ok m ∧
      (m.vertices[12]?).map Vertex.position = some
          ((((Vec3.add (((⟨-1, 13 / 8, 0⟩ : Vec3 α).normalize P).smul r)
            (((⟨-(13 / 8), 0, 1⟩ : Vec3 α).normalize P).smul r)).normalize P).smul r).smul r) := by
  simp [makeSphere, tessellate, subdividePass, splitTriangle, middlePointIndex, scalePositionAt,
    vecAt, edgeKey, projectBase, sampleIcosahedron, icosahedronIndices, List.lookup, bind,
    Except.bind, pure, Except.pure, icosahedronCorner, middleVertex]

theorem dot_smul_smul (v : Vec3 α) (s : α) : (v.smul s).dot (v.smul s) = s * s * v.dot v := by
  simp only [Vec3.smul, Vec3.dot]; ring

theorem real_normalize_dot (P : Prims ℝ) (hP : P.sqrt = Real.sqrt) (v : Vec3 ℝ)
    (hv : 0 < v.dot v) : (v.normalize P).dot (v.normalize P) = 1 := by
  have hs : 0 < Real.sqrt (v.dot v) := Real.sqrt_pos.mpr hv
  rw [Vec3.normalize, dot_smul_smul, hP]
  field_simp

/-- C6, evaluated: over the reals, `makeSphere(2, 1)` on the sample icosahedron
returns a mesh whose vertex 12 (the midpoint of the edge between corners 0 and
11) lies at squared distance 16 from the origin, that is at distance 4 and not
at the radius 2. -/
theorem makeSphere_midpoint_off_sphere :
    ∃ m, makeSphere (⟨Real.sqrt, Real.cos, Real.sin, Real.pi, fun _ _ => 1⟩ : Prims ℝ)
        (some sampleIcosahedron) 2 1 = .ok m ∧
      ∃ v, m.vertices[12]? = some v ∧ v.position.dot v.position = 16 ∧
        Real.sqrt (v.position.dot v.position) = 4 := by
  obtain ⟨m, e, h12⟩ := level_one_vertex_twelve
    (⟨Real.sqrt, Real.cos, Real.sin, Real.pi, fun _ _ => 1⟩ : Prims ℝ) 2
  refine ⟨m, e, ?_⟩
  cases hv : m.vertices[12]? with
  | none => simp [hv] at h12
  | some v =>
    rw [hv] at h12
    simp only [Option.map_some', Option.some.injEq] at h12
    have hd : v.position.dot v.position = 16 := by
      rw [h12, dot_smul_smul, dot_smul_smul, real_normalize_dot _ rfl]
      · norm_num
      · have h1 : (0 : ℝ) < Real.sqrt (13 / 8 * (13 / 8) + 1) :=
          Real.sqrt_pos.mpr (by norm_num)
        simp only [Vec3.add, Vec3.smul, Vec3.normalize, Vec3.dot]
        have hz : (0 : ℝ) < 0 * (1 / Real.sqrt (-1 * -1 + 13 / 8 * (13 / 8) + 0 * 0)) * 2 +
            1 * (1 / Real.sqrt (-(13 / 8) * -(13 / 8) + 0 * 0 + 1 * 1)) * 2 := by
          have : (-(13 / 8) * -(13 / 8) + 0 * 0 + 1 * 1 : ℝ) = 13 / 8 * (13 / 8) + 1 := by
            norm_num
          rw [this]
          positivity
        nlinarith [mul_self_nonneg
          (-1 * (1 / Real.sqrt (-1 * -1 + 13 / 8 * (13 / 8) + 0 * 0)) * 2 +
            -(13 / 8) * (1 / Real.sqrt (-(13 / 8) * -(13 / 8) + 0 * 0 + 1 * 1)) * 2),
          mul_self_nonneg
          (13 / 8 * (1 / Real.sqrt (-1 * -1 + 13 / 8 * (13 / 8) + 0 * 0)) * 2 +
            0 * (1 / Real.sqrt (-(13 / 8) * -(13 / 8) + 0 * 0 + 1 * 1)) * 2),
          mul_pos hz hz]
    refine ⟨v, rfl, hd, ?_⟩
    rw [hd]
    rw [show (16 : ℝ) = 4 * 4 by norm_num]
    exact Real.sqrt_mul_self (by norm_num)

end SphereRadius


/-! ## Cube and cylinder -/

section CubeTheorems

variable {α : Type} [Field α]

/-- C9: for every `side`, `makeCube(side)` has exactly 24 vertices and 36
indices, that is 12 triangles. -/
theorem makeCube_counts (H : Header) (side : α) :
    (makeCube H side).getNumVertices = 24 ∧ (makeCube H side).getNumIndices = 36 ∧
      (makeCube H side).getNumIndices = 3 * 12 ∧
      (makeCube H (1 : α)).getNumVertices = 24 ∧ (makeCube H (1 : α)).getNumIndices = 36 := by
  simp [makeCube, Mesh.getNumVertices, Mesh.getNumIndices, cubeLocalVertices, cubeLocalIndices]

end CubeTheorems

section CylinderTheorems

variable {α : Type} [LinearOrderedField α] [FloorRing α]

theorem pushIndex_length (l : List Nat) (v : Nat) : (pushIndex l v).length = l.length + 1 := by
  simp [pushIndex]

omit [FloorRing α] in
theorem capSteps_spec (P : Prims α) (radius length : α) (segs : List Nat) :
    ∀ st : GenState α,
      ∃ vs is, (segs.foldl (cylinderCapStep P radius length) st).localVerts =
          st.localVerts ++ vs ∧
        (segs.foldl (cylinderCapStep P radius length) st).localIndices = st.localIndices ++ is ∧
        vs.length = 6 * segs.length ∧ is.length = 6 * segs.length ∧
        (segs.foldl (cylinderCapStep P radius length) st).index = st.index + 6 * segs.length := by
  induction segs with
  | nil => intro st; exact ⟨[], [], by simp, by simp, rfl, rfl, rfl⟩
  | cons i segs ih =>
    intro st
    obtain ⟨vs, is, h1, h2, h3, h4, h5⟩ := ih (cylinderCapStep P radius length st i)
    rw [List.foldl_cons, h1, h2, h5]
    have hc : (cylinderCapVertices P radius length i).length = 6 := rfl
    simp only [cylinderCapStep, pushIndex, List.append_assoc, List.length_cons]
    refine ⟨_, _, rfl, rfl, ?_, ?_, ?_⟩
    · simp only [List.length_append, List.length_cons, List.length_nil, h3, hc]; omega
    · simp only [List.length_append, List.length_cons, List.length_nil, h4]; omega
    · omega

theorem cylinderRing_spec (P : Prims α) (radius length z : α) (segs : List Nat) :
    ∀ st : GenState α,
      ∃ vs is, (segs.foldl (cylinderQuadStep P radius length z) st).localVerts =
          st.localVerts ++ vs ∧
        (segs.foldl (cylinderQuadStep P radius length z) st).localIndices =
          st.localIndices ++ is ∧
        vs.length = 4 * segs.length ∧ is.length = 6 * segs.length ∧
        (segs.foldl (cylinderQuadStep P radius length z) st).index =
          st.index + 4 * segs.length := by
  induction segs with
  | nil => intro st; exact ⟨[], [], by simp, by simp, rfl, rfl, rfl⟩
  | cons i segs ih =>
    intro st
    obtain ⟨vs, is, h1, h2, h3, h4, h5⟩ := ih (cylinderQuadStep P radius length z st i)
    rw [List.foldl_cons, h1, h2, h5]
    have hc : (cylinderQuadVertices P radius length z i).length = 4 := rfl
    simp only [cylinderQuadStep, pushIndex, List.append_assoc, List.length_cons]
    refine ⟨_, _, rfl, rfl, ?_, ?_, ?_⟩
    · simp only [List.length_append, List.length_cons, List.length_nil, h3, hc]; omega
    · simp only [List.length_append, List.length_cons, List.length_nil, h4]; omega
    · omega

/-- The ring loop started at height `z` makes exactly `k` turns when `k` is the
first natural number with `length ≤ z + k`, and `fuel > k` suffices for it. -/
theorem cylinderRings_spec (P : Prims α) (radius length : α) (k : Nat) :
    ∀ (fuel : Nat) (z : α) (st : GenState α), k < fuel → length ≤ z + k →
      (∀ j : Nat, j < k → z + j < length) →
      ∃ st' vs is, cylinderRings P radius length fuel z st = some st' ∧
        st'.localVerts = st.localVerts ++ vs ∧ st'.localIndices = st.localIndices ++ is ∧
        vs.length = 80 * k ∧ is.length = 120 * k ∧ st'.index = st.index + 80 * k := by
  induction k with
  | zero =>
    intro fuel z st hf hz _
    obtain ⟨fuel, rfl⟩ : ∃ f, fuel = f + 1 := ⟨fuel - 1, by omega⟩
    have : ¬ z < length := by simpa using hz
    exact ⟨st, [], [], by simp [cylinderRings, this], by simp, by simp, rfl, rfl, rfl⟩
  | succ k ih =>
    intro fuel z st hf hz hlt
    obtain ⟨fuel, rfl⟩ : ∃ f, fuel = f + 1 := ⟨fuel - 1, by omega⟩
    have hz0 : z < length := by simpa using hlt 0 (Nat.succ_pos k)
    obtain ⟨vs1, is1, a1, a2, a3, a4, a5⟩ :=
      cylinderRing_spec P radius length z (List.range NUM_SEGMENTS) st
    obtain ⟨st', vs2, is2, e, b1, b2, b3, b4, b5⟩ :=
      ih fuel (z + 1) (cylinderRing P radius length z st) (by omega)
        (by push_cast at hz; linarith)
        (fun j hj => by have := hlt (j + 1) (by omega); push_cast at this; linarith)
    refine ⟨st', vs1 ++ vs2, is1 ++ is2, ?_, ?_, ?_, ?_, ?_, ?_⟩
    · simp only [cylinderRings, hz0, if_true, e]
    · rw [b1, cylinderRing, a1, List.append_assoc]
    · rw [b2, cylinderRing, a2, List.append_assoc]
    · simp only [List.length_append, a3, b3, List.length_range, NUM_SEGMENTS]; omega
    · simp only [List.length_append, a4, b4, List.length_range, NUM_SEGMENTS]; omega
    · rw [b5, cylinderRing, a5]; simp only [List.length_range, NUM_SEGMENTS]; omega

omit [FloorRing α] in
theorem cylinderCaps_counts (P : Prims α) (radius length : α) :
    (cylinderCaps P radius length).localVerts.length = 120 ∧
      (cylinderCaps P radius length).localIndices.length = 120 ∧
      (cylinderCaps P radius length).index = 120 := by
  obtain ⟨vs, is, h1, h2, h3, h4, h5⟩ :=
    capSteps_spec P radius length (List.range NUM_SEGMENTS) ⟨[], [], 0⟩
  have hn : (List.range NUM_SEGMENTS).length = 20 := by simp [NUM_SEGMENTS]
  rw [hn] at h3 h4 h5
  unfold cylinderCaps
  rw [h1, h2, h5]
  exact ⟨by simp [h3], by simp [h4], by simp⟩

/-- The vertex and index counts of `makeCylinder`: the caps, then 80 vertices and
120 indices for every turn of the ring loop, of which there are `⌈length⌉₊`. -/
theorem makeCylinder_counts (H : Header) (P : Prims α) (fuel : Nat) (radius length : α)
    (hf : ⌈length⌉₊ < fuel) :
    ∃ m ringVerts ringIndices, makeCylinder H P fuel radius length = some m ∧
      m.vertices = (cylinderCaps P radius length).localVerts ++ ringVerts ∧
      m.indices = (cylinderCaps P radius length).localIndices ++ ringIndices ∧
      ringVerts.length = 80 * ⌈length⌉₊ ∧ ringIndices.length = 120 * ⌈length⌉₊ := by
  obtain ⟨st', vs, is, e, h1, h2, h3, h4, _⟩ :=
    cylinderRings_spec P radius length ⌈length⌉₊ fuel 0 (cylinderCaps P radius length) hf
      (by simpa using Nat.le_ceil length)
      (fun j hj => by simpa using Nat.lt_ceil.mp hj)
  exact ⟨{ (Mesh.new H : Mesh α) with vertices := st'.localVerts, indices := st'.localIndices },
    vs, is, by simp only [makeCylinder, e], h1, h2, h3, h4⟩

/-- C10, amended: for every radius and length, `makeCylinder` returns (its ring
loop ends within `⌈length⌉₊ + 1` tests) a mesh that starts with a cap geometry of
exactly 120 vertices and 120 indices, whatever the length, followed by a ring
geometry of exactly `80 * ⌈length⌉₊` vertices and `120 * ⌈length⌉₊` indices:
the ring loop makes one turn for each `z = 0, 1, 2, ...` below `length`. -/
theorem makeCylinder_cap_and_ring_counts (H : Header) (P : Prims α) (fuel : Nat)
    (radius length : α) (hf : ⌈length⌉₊ < fuel) :
    (cylinderCaps P radius length).localVerts.length = 120 ∧
      (cylinderCaps P radius length).localIndices.length = 120 ∧
      ∃ m ringVerts ringIndices, makeCylinder H P fuel radius length = some m ∧
        m.vertices = (cylinderCaps P radius length).localVerts ++ ringVerts ∧
        m.indices = (cylinderCaps P radius length).localIndices ++ ringIndices ∧
        ringVerts.length = 80 * ⌈length⌉₊ ∧ ringIndices.length = 120 * ⌈length⌉₊ ∧
        m.getNumVertices = 120 + 80 * ⌈length⌉₊ ∧ m.getNumIndices = 120 + 120 * ⌈length⌉₊ := by
  obtain ⟨c1, c2, _⟩ := cylinderCaps_counts P radius length
  obtain ⟨m, rv, ri, e, h1, h2, h3, h4⟩ := makeCylinder_counts H P fuel radius length hf
  refine ⟨c1, c2, m, rv, ri, e, h1, h2, h3, h4, ?_, ?_⟩
  · simp only [Mesh.getNumVertices, h1, List.length_append, c1, h3]
  · simp only [Mesh.getNumIndices, h2, List.length_append, c2, h4]

end CylinderTheorems

/-- Witness for C10: `makeCylinder(1, 4)` has 120 + 320 = 440 vertices and
120 + 480 = 600 indices. -/
theorem makeCylinder_cap_and_ring_counts_witness :
    ⌈(4 : ℚ)⌉₊ < 5 ∧ 120 + 80 * ⌈(4 : ℚ)⌉₊ = 440 ∧ 120 + 120 * ⌈(4 : ℚ)⌉₊ = 600 ∧
      ∃ m ringVerts ringIndices, makeCylinder ⟨2, 4, true⟩ samplePrims 5 1 (4 : ℚ) = some m ∧
        m.vertices = (cylinderCaps samplePrims 1 (4 : ℚ)).localVerts ++ ringVerts ∧
        m.indices = (cylinderCaps samplePrims 1 (4 : ℚ)).localIndices ++ ringIndices ∧
        ringVerts.length = 80 * ⌈(4 : ℚ)⌉₊ ∧ ringIndices.length = 120 * ⌈(4 : ℚ)⌉₊ ∧
        m.getNumVertices = 120 + 80 * ⌈(4 : ℚ)⌉₊ ∧
        m.getNumIndices = 120 + 120 * ⌈(4 : ℚ)⌉₊ := by
  have h4 : ⌈(4 : ℚ)⌉₊ = 4 := by
    have : ((4 : ℕ) : ℚ) = 4 := by norm_num
    rw [← this, Nat.ceil_natCast]
  refine ⟨by rw [h4]; decide, by rw [h4], by rw [h4], ?_⟩
  exact (makeCylinder_cap_and_ring_counts ⟨2, 4, true⟩ samplePrims 5 1 (4 : ℚ)
    (by rw [h4]; decide)).2.2

/-- C10 as stated fails: `makeCylinder(1, 2.5)` makes three turns of the ring
loop (`z = 0, 1, 2`), so its ring geometry has 240 vertices and 360 indices,
not `80 * ⌊2.5⌋ = 160` and `120 * ⌊2.5⌋ = 240`. -/
theorem makeCylinder_ring_count_not_floor :
    ∃ m ringVerts ringIndices, makeCylinder ⟨2, 4, true⟩ samplePrims 4 1 (5 / 2 : ℚ) = some m ∧
      m.vertices = (cylinderCaps samplePrims 1 (5 / 2 : ℚ)).localVerts ++ ringVerts ∧
      m.indices = (cylinderCaps samplePrims 1 (5 / 2 : ℚ)).localIndices ++ ringIndices ∧
      ringVerts.length = 240 ∧ ringIndices.length = 360 ∧
      80 * ⌊(5 / 2 : ℚ)⌋₊ = 160 ∧ 120 * ⌊(5 / 2 : ℚ)⌋₊ = 240 ∧
      ringVerts.length ≠ 80 * ⌊(5 / 2 : ℚ)⌋₊ ∧ ringIndices.length ≠ 120 * ⌊(5 / 2 : ℚ)⌋₊ := by
  have hc : ⌈(5 / 2 : ℚ)⌉₊ = 3 := by
    rw [Nat.ceil_eq_iff (by norm_num)]
    constructor <;> norm_num
  have hfl : ⌊(5 / 2 : ℚ)⌋₊ = 2 := by
    rw [Nat.floor_eq_iff (by norm_num)]
    constructor <;> norm_num
  obtain ⟨m, rv, ri, e, h1, h2, h3, h4⟩ :=
    makeCylinder_counts ⟨2, 4, true⟩ samplePrims 4 1 (5 / 2 : ℚ) (by rw [hc]; decide)
  rw [hc] at h3 h4
  refine ⟨m, rv, ri, e, h1, h2, h3, h4, by rw [hfl], by rw [hfl], ?_, ?_⟩
  · rw [h3, hfl]; decide
  · rw [h4, hfl]; decide


/-! ## External model adapter -/

section LoadObjTheorems

variable {α : Type} [Field α]

theorem objVertex?_eq_some (s : ObjMesh α) (i : Nat) (c : Vec3 α) (v : Vertex α) :
    objVertex? s i c = some v ↔
      ∃ p0 p1 p2 n0 n1 n2 t0 t1,
        s.positions[3 * i]? = some p0 ∧ s.positions[3 * i + 1]? = some p1 ∧
        s.positions[3 * i + 2]? = some p2 ∧ s.normals[3 * i]? = some n0 ∧
        s.normals[3 * i + 1]? = some n1 ∧ s.normals[3 * i + 2]? = some n2 ∧
        s.texcoords[2 * i]? = some t0 ∧ s.texcoords[2 * i + 1]? = some t1 ∧
        v = ⟨⟨p0, p1, p2⟩, c, ⟨n0, n1, n2⟩, ⟨t0, 1 - t1⟩⟩ := by
  simp only [objVertex?, Option.bind_eq_bind, Option.bind_eq_some, Nat.add_zero, Option.pure_def,
    Option.some.injEq]
  constructor
  · rintro ⟨p0, h0, p1, h1, p2, h2, n0, h3, n1, h4, n2, h5, t0, h6, t1, h7, rfl⟩
    exact ⟨p0, p1, p2, n0, n1, n2, t0, t1, h0, h1, h2, h3, h4, h5, h6, h7, rfl⟩
  · rintro ⟨p0, p1, p2, n0, n1, n2, t0, t1, h0, h1, h2, h3, h4, h5, h6, h7, rfl⟩
    exact ⟨p0, h0, p1, h1, p2, h2, n0, h3, n1, h4, n2, h5, t0, h6, t1, h7, rfl⟩

theorem objVertex?_isSome (s : ObjMesh α) (i : Nat) (c : Vec3 α)
    (hp : 3 * i + 2 < s.positions.length) (hn : 3 * i + 2 < s.normals.length)
    (ht : 2 * i + 1 < s.texcoords.length) : ∃ v, objVertex? s i c = some v := by
  refine ⟨_, (objVertex?_eq_some s i c _).mpr
    ⟨s.positions[3 * i], s.positions[3 * i + 1], s.positions[3 * i + 2],
      s.normals[3 * i], s.normals[3 * i + 1], s.normals[3 * i + 2],
      s.texcoords[2 * i], s.texcoords[2 * i + 1], ?_, ?_, ?_, ?_, ?_, ?_, ?_, ?_, rfl⟩⟩ <;>
    exact List.getElem?_eq_getElem _

/-- The vertex loop, when it does not throw, pushes one vertex per turn, and the
vertex of index `k` is the braced initializer at `k` with colour
`COLORS[(k / 3) % 6]`. -/
theorem loadObjVertices_spec (s : ObjMesh α) (count : Nat) :
    ∀ (i : Nat) (c : Vec3 α) (vs : List (Vertex α)),
      loadObjVertices s count i c = .ok vs → (i % 3 ≠ 0 → c = colorAt ((i / 3) % 6)) →
      vs.length = count ∧
        ∀ j, j < count → vs[j]? = objVertex? s (i + j) (colorAt (((i + j) / 3) % 6)) := by
  induction count with
  | zero =>
    intro i c vs h _
    simp only [loadObjVertices, Except.ok.injEq] at h
    subst h
    exact ⟨rfl, fun j hj => absurd hj (Nat.not_lt_zero _)⟩
  | succ count ih =>
    intro i c vs h hc
    have hcol : (if i % 3 = 0 then colorAt ((i / 3) % 6) else c) =
        (colorAt ((i / 3) % 6) : Vec3 α) := by
      by_cases h3 : i % 3 = 0
      · simp [h3]
      · simp [h3, hc h3]
    simp only [loadObjVertices, hcol] at h
    cases hv : objVertex? s i (colorAt ((i / 3) % 6)) with
    | none => simp [hv] at h
    | some v =>
      simp only [hv] at h
      cases hr : loadObjVertices s count (i + 1) (colorAt ((i / 3) % 6)) with
      | error f => simp [hr] at h
      | ok rest =>
        simp only [hr, Except.ok.injEq] at h
        subst h
        have hnext : (i + 1) % 3 ≠ 0 →
            (colorAt ((i / 3) % 6) : Vec3 α) = colorAt (((i + 1) / 3) % 6) := by
          intro h3
          have : (i + 1) / 3 = i / 3 := by omega
          rw [this]
        obtain ⟨hl, hj⟩ := ih (i + 1) _ rest hr hnext
        refine ⟨by simp [hl], ?_⟩
        intro j hjlt
        cases j with
        | zero => simpa using hv.symm
        | succ j =>
          have := hj j (by omega)
          simp only [List.getElem?_cons_succ, this]
          have e : i + 1 + j = i + (j + 1) := by omega
          rw [e]

/-- The vertex loop does not throw when the three float arrays are long enough. -/
theorem loadObjVertices_returns (s : ObjMesh α) (count : Nat) :
    ∀ (i : Nat) (c : Vec3 α), 3 * (i + count) ≤ s.positions.length →
      3 * (i + count) ≤ s.normals.length → 2 * (i + count) ≤ s.texcoords.length →
      ∃ vs, loadObjVertices s count i c = .ok vs := by
  induction count with
  | zero => intro i c _ _ _; exact ⟨[], rfl⟩
  | succ count ih =>
    intro i c hp hn ht
    obtain ⟨v, hv⟩ := objVertex?_isSome s i
      (if i % 3 = 0 then colorAt ((i / 3) % 6) else c) (by omega) (by omega) (by omega)
    obtain ⟨vs, hvs⟩ := ih (i + 1) (if i % 3 = 0 then colorAt ((i / 3) % 6) else c)
      (by omega) (by omega) (by omega)
    exact ⟨v :: vs, by simp only [loadObjVertices, hv, hvs]⟩

omit [Field α] in
theorem genTextureID_data (m m' : Mesh α) (texture : Option TextureFile)
    (h : m.genTextureID texture = .ok m') :
    m'.vertices = m.vertices ∧ m'.indices = m.indices := by
  unfold Mesh.genTextureID at h
  split at h
  · simp only [Except.ok.injEq] at h
    subst h
    exact ⟨rfl, rfl⟩
  · split at h
    · simp only [Except.ok.injEq] at h
      subst h
      exact ⟨rfl, rfl⟩
    · split at h
      · simp only [Except.ok.injEq] at h
        subst h
        exact ⟨rfl, rfl⟩
      · simp at h

omit [Field α] in
theorem genTextureID_returns (m : Mesh α) (texture : Option TextureFile)
    (h : TextureOK texture) : ∃ m', m.genTextureID texture = .ok m' := by
  unfold Mesh.genTextureID
  split
  · exact ⟨_, rfl⟩
  · rename_i t
    split
    · exact ⟨_, rfl⟩
    · rename_i name hl
      rcases h t rfl with h0 | h1
      · rw [hl] at h0
        cases h0
      · exact ⟨_, by rw [if_pos h1]⟩

/-- What a mesh returned by `loadObj` was built from. -/
theorem loadObj_eq_some (H : Header) (parsed : ParseResult α) (texture : Option TextureFile)
    (m : Mesh α) (h : loadObj H parsed texture = .ok (some m)) :
    parsed.errMsg = "" ∧ ∃ s, parsed.shapes[0]? = some s ∧
      loadObjVertices s.mesh (s.mesh.positions.length / 3) 0 ⟨1, 1, 1⟩ = .ok m.vertices ∧
      m.indices = loadObjIndices s.mesh := by
  unfold loadObj at h
  by_cases he : parsed.errMsg = ""
  · refine ⟨he, ?_⟩
    simp only [he, ne_eq, not_true_eq_false, if_false, vecAt] at h
    cases hs : parsed.shapes[0]? with
    | none => simp [hs] at h
    | some s =>
      simp only [hs] at h
      cases hv : loadObjVertices s.mesh (s.mesh.positions.length / 3) 0 ⟨1, 1, 1⟩ with
      | error f => simp [hv] at h
      | ok vs =>
        simp only [hv] at h
        cases hg : Mesh.genTextureID { (Mesh.new H : Mesh α) with
            vertices := vs
            indices := loadObjIndices s.mesh } texture with
        | error f => simp [hg] at h
        | ok obj =>
          simp only [hg, Except.ok.injEq, Option.some.injEq] at h
          subst h
          obtain ⟨e1, e2⟩ := genTextureID_data _ _ texture hg
          refine ⟨s, rfl, ?_, ?_⟩
          · rw [e1]
            exact hv
          · rw [e2]
  · simp [he] at h

theorem loadObj_returns (H : Header) (parsed : ParseResult α) (texture : Option TextureFile)
    (s : Shape α) (he : parsed.errMsg = "") (hs : parsed.shapes[0]? = some s)
    (hn : 3 * (s.mesh.positions.length / 3) ≤ s.mesh.normals.length)
    (ht : 2 * (s.mesh.positions.length / 3) ≤ s.mesh.texcoords.length)
    (htex : TextureOK texture) :
    ∃ m, loadObj H parsed texture = .ok (some m) := by
  obtain ⟨vs, hvs⟩ := loadObjVertices_returns s.mesh (s.mesh.positions.length / 3) 0 ⟨1, 1, 1⟩
    (by omega) (by omega) (by omega)
  obtain ⟨obj, hobj⟩ := genTextureID_returns { (Mesh.new H : Mesh α) with
      vertices := vs
      indices := loadObjIndices s.mesh } texture htex
  exact ⟨obj,
    by simp only [loadObj, he, ne_eq, not_true_eq_false, if_false, vecAt, hs, hvs, hobj]⟩

/-- The vertex of index `i` of a mesh returned by `loadObj`. -/
theorem loadObj_vertex (H : Header) (parsed : ParseResult α) (texture : Option TextureFile)
    (m : Mesh α) (h : loadObj H parsed texture = .ok (some m)) :
    ∃ s, parsed.shapes[0]? = some s ∧ m.vertices.length = s.mesh.positions.length / 3 ∧
      ∀ i, i < m.vertices.length →
        m.vertices[i]? = objVertex? s.mesh i (colorAt ((i / 3) % 6)) := by
  obtain ⟨_, s, hs, hv, _⟩ := loadObj_eq_some H parsed texture m h
  obtain ⟨hl, hj⟩ := loadObjVertices_spec s.mesh _ 0 _ _ hv (fun h0 => absurd rfl h0)
  refine ⟨s, hs, hl, ?_⟩
  intro i hi
  have := hj i (by omega)
  simpa using this

end LoadObjTheorems


section LoadObjClaims

variable {α : Type} [Field α]

theorem colors_getElem? (k : Nat) (hk : k < 6) :
    (COLORS : List (Vec3 α))[k]? = some (colorAt k) := by
  have h : k < (COLORS : List (Vec3 α)).length := by simpa [COLORS] using hk
  rw [colorAt, List.getD_eq_getElem?_getD, List.getElem?_eq_getElem h]
  rfl

theorem loadObj_vertex_get (H : Header) (parsed : ParseResult α) (texture : Option TextureFile)
    (m : Mesh α) (h : loadObj H parsed texture = .ok (some m)) (i : Nat)
    (hi : i < m.vertices.length) :
    ∃ s, parsed.shapes[0]? = some s ∧
      objVertex? s.mesh i (colorAt ((i / 3) % 6)) = some (m.vertices.get ⟨i, hi⟩) := by
  obtain ⟨s, hs, _, hv⟩ := loadObj_vertex H parsed texture m h
  refine ⟨s, hs, ?_⟩
  rw [← hv i hi, List.getElem?_eq_getElem hi]
  rfl

theorem loadObj_vertex_color (H : Header) (parsed : ParseResult α) (texture : Option TextureFile)
    (m : Mesh α) (h : loadObj H parsed texture = .ok (some m)) (i : Nat)
    (hi : i < m.vertices.length) :
    (m.vertices.get ⟨i, hi⟩).color = colorAt ((i / 3) % 6) := by
  obtain ⟨s, _, hv⟩ := loadObj_vertex_get H parsed texture m h i hi
  obtain ⟨_, _, _, _, _, _, _, _, _, _, _, _, _, _, _, _, e⟩ :=
    (objVertex?_eq_some _ _ _ _).mp hv
  rw [e]

/-- The two-triangle sample model loads, into a mesh of six vertices. -/
theorem twoTriangles_loads :
    ∃ m, loadObj ⟨2, 4, true⟩ twoTriangles none = .ok (some m) ∧ m.vertices.length = 6 := by
  obtain ⟨m, hm⟩ := loadObj_returns ⟨2, 4, true⟩ twoTriangles none twoTrianglesShape rfl rfl
    (by decide) (by decide) (fun _ h => by cases h)
  obtain ⟨s, hs, hl, _⟩ := loadObj_vertex ⟨2, 4, true⟩ twoTriangles none m hm
  have : s = twoTrianglesShape := (Option.some.inj hs).symm
  subst this
  exact ⟨m, hm, hl⟩

/-- C11: whenever the parser's error message is not empty, `loadObj` returns the
null pointer, whatever shapes, positions or indices the parser produced and
whatever texture was asked for; it returns no mesh and does not fault. -/
theorem loadObj_error_gives_absent (H : Header) (parsed : ParseResult α)
    (texture : Option TextureFile) (h : parsed.errMsg ≠ "") :
    loadObj H parsed texture = .ok none := by
  simp [loadObj, h]

/-- Witness for C11: a parser result with an error message and a populated shape,
asked for with a texture file. -/
theorem loadObj_error_gives_absent_witness :
    failedParse.errMsg ≠ "" ∧ failedParse.shapes ≠ [] ∧
      loadObj ⟨2, 4, true⟩ failedParse (some ⟨"earth", some 7⟩) = .ok none :=
  ⟨by decide, by simp [failedParse, twoTriangles],
    loadObj_error_gives_absent ⟨2, 4, true⟩ failedParse (some ⟨"earth", some 7⟩) (by decide)⟩

/-- C12 as stated fails: for a model of one triangle without normals and texture
coordinates the parser reports no error, and `loadObj` throws
`std::out_of_range` from `normals.at(0)` instead of returning a mesh. -/
theorem loadObj_faults_without_normals :
    bareTriangle.errMsg = "" ∧
      loadObj ⟨2, 4, true⟩ bareTriangle none = .error Fault.outOfRange := by
  refine ⟨rfl, ?_⟩
  simp [loadObj, bareTriangle, vecAt, loadObjVertices, objVertex?]

/-- With a complete shape and a texture file that loads but has no dot in its
name, `loadObj` throws `std::out_of_range` from `file.substr`. -/
theorem loadObj_faults_on_dotless_texture (H : Header) (parsed : ParseResult α)
    (s : Shape α) (filename : String) (name : Nat) (he : parsed.errMsg = "")
    (hs : parsed.shapes[0]? = some s)
    (hn : 3 * (s.mesh.positions.length / 3) ≤ s.mesh.normals.length)
    (ht : 2 * (s.mesh.positions.length / 3) ≤ s.mesh.texcoords.length)
    (hdot : '.' ∉ filename.data) :
    loadObj H parsed (some ⟨filename, some name⟩) = .error Fault.outOfRange := by
  obtain ⟨vs, hvs⟩ := loadObjVertices_returns s.mesh (s.mesh.positions.length / 3) 0 ⟨1, 1, 1⟩
    (by omega) (by omega) (by omega)
  simp only [loadObj, he, ne_eq, not_true_eq_false, if_false, vecAt, hs, hvs,
    Mesh.genTextureID, if_neg hdot]

/-- C12, amended: when the parser's error message is empty, the parser produced
at least one shape, the first shape has at least `3 * ⌊P / 3⌋` normal floats
and `2 * ⌊P / 3⌋` texture floats for its `P` position floats, and the texture
step does not throw (no texture file is given, or the file cannot be loaded, or
its name has a dot), `loadObj` returns a mesh (not the null pointer, no fault)
with exactly `⌊P / 3⌋` vertices, and vertex `i` has the position floats `3i`,
`3i + 1`, `3i + 2` as its position. -/
theorem loadObj_succeeds_on_complete_shape (H : Header) (parsed : ParseResult α)
    (texture : Option TextureFile) (s : Shape α) (he : parsed.errMsg = "")
    (hs : parsed.shapes[0]? = some s)
    (hn : 3 * (s.mesh.positions.length / 3) ≤ s.mesh.normals.length)
    (ht : 2 * (s.mesh.positions.length / 3) ≤ s.mesh.texcoords.length)
    (htex : TextureOK texture) :
    ∃ m, loadObj H parsed texture = .ok (some m) ∧
      m.getNumVertices = s.mesh.positions.length / 3 ∧
      ∀ i, i < s.mesh.positions.length / 3 →
        ∃ p0 p1 p2, s.mesh.positions[3 * i]? = some p0 ∧
          s.mesh.positions[3 * i + 1]? = some p1 ∧ s.mesh.positions[3 * i + 2]? = some p2 ∧
          (m.vertices[i]?).map Vertex.position = some ⟨p0, p1, p2⟩ := by
  obtain ⟨m, hm⟩ := loadObj_returns H parsed texture s he hs hn ht htex
  obtain ⟨s', hs', hl, hv⟩ := loadObj_vertex H parsed texture m hm
  have : s' = s := by rw [hs] at hs'; exact (Option.some.inj hs').symm
  subst this
  refine ⟨m, hm, hl, ?_⟩
  intro i hi
  have hi' : i < m.vertices.length := by omega
  have h1 := hv i hi'
  rw [List.getElem?_eq_getElem hi'] at h1
  obtain ⟨p0, p1, p2, _, _, _, _, _, h0, h1', h2, _, _, _, _, _, e⟩ :=
    (objVertex?_eq_some _ _ _ _).mp h1.symm
  refine ⟨p0, p1, p2, h0, h1', h2, ?_⟩
  rw [List.getElem?_eq_getElem hi', Option.map_some', e]

/-- Witness for C12: a shape of 20 position floats with 18 normal floats and 12
texture floats, loaded with the texture file `earth.png`, gives a mesh of 6
vertices. -/
theorem loadObj_succeeds_on_complete_shape_witness :
    twoTriangles.errMsg = "" ∧ TextureOK (some ⟨"earth.png", some 7⟩) ∧
      ∃ m, loadObj ⟨2, 4, true⟩ twoTriangles (some ⟨"earth.png", some 7⟩) = .ok (some m) ∧
        m.getNumVertices = 6 := by
  have htex : TextureOK (some ⟨"earth.png", some 7⟩) := by
    intro t h
    cases h
    exact Or.inr (by decide)
  obtain ⟨m, hm, hl, _⟩ := loadObj_succeeds_on_complete_shape ⟨2, 4, true⟩ twoTriangles
    (some ⟨"earth.png", some 7⟩) twoTrianglesShape rfl rfl (by decide) (by decide) htex
  exact ⟨rfl, htex, m, hm, hl⟩

/-- C13: in every mesh returned by `loadObj`, vertex `i` has the colour
`COLORS[(i / 3) % 6]` of the palette red, green, blue, yellow, magenta, cyan;
so two vertices of the same run of three have the same colour, the colour three
vertices later is the next palette entry, and the colour 18 vertices later is
the same again. -/
theorem loadObj_vertex_colour_cycles (H : Header) (parsed : ParseResult α)
    (texture : Option TextureFile) (m : Mesh α) (h : loadObj H parsed texture = .ok (some m))
    (i : Nat) (hi : i < m.vertices.length) :
    (COLORS : List (Vec3 α)) =
        [⟨1, 0, 0⟩, ⟨0, 1, 0⟩, ⟨0, 0, 1⟩, ⟨1, 1, 0⟩, ⟨1, 0, 1⟩, ⟨0, 1, 1⟩] ∧
      (COLORS : List (Vec3 α))[(i / 3) % 6]? = some (m.vertices.get ⟨i, hi⟩).color ∧
      (∀ j (hj : j < m.vertices.length), j / 3 = i / 3 →
        (m.vertices.get ⟨j, hj⟩).color = (m.vertices.get ⟨i, hi⟩).color) ∧
      (∀ hj : i + 3 < m.vertices.length,
        (COLORS : List (Vec3 α))[(i / 3 + 1) % 6]? = some (m.vertices.get ⟨i + 3, hj⟩).color) ∧
      (∀ hj : i + 18 < m.vertices.length,
        (m.vertices.get ⟨i + 18, hj⟩).color = (m.vertices.get ⟨i, hi⟩).color) := by
  have hc := loadObj_vertex_color H parsed texture m h
  refine ⟨rfl, ?_, ?_, ?_, ?_⟩
  · rw [hc i hi]
    exact colors_getElem? _ (Nat.mod_lt _ (by decide))
  · intro j hj hji
    rw [hc i hi, hc j hj, hji]
  · intro hj
    rw [hc (i + 3) hj]
    have : (i + 3) / 3 = i / 3 + 1 := by omega
    rw [this]
    exact colors_getElem? _ (Nat.mod_lt _ (by decide))
  · intro hj
    rw [hc (i + 18) hj, hc i hi]
    have : (i + 18) / 3 % 6 = i / 3 % 6 := by omega
    rw [this]

/-- Witness for C13: vertex 4 of the mesh loaded from the two-triangle model is green. -/
theorem loadObj_vertex_colour_cycles_witness :
    ∃ (m : Mesh ℚ) (hi : 4 < m.vertices.length),
      loadObj ⟨2, 4, true⟩ twoTriangles none = .ok (some m) ∧
      (COLORS : List (Vec3 ℚ))[(4 / 3) % 6]? = some (m.vertices.get ⟨4, hi⟩).color ∧
      (m.vertices.get ⟨4, hi⟩).color = ⟨0, 1, 0⟩ := by
  obtain ⟨m, hm, hl⟩ := twoTriangles_loads
  have hi : 4 < m.vertices.length := by omega
  have h := (loadObj_vertex_colour_cycles ⟨2, 4, true⟩ twoTriangles none m hm 4 hi).2.1
  refine ⟨m, hi, hm, h, ?_⟩
  have h' : (COLORS : List (Vec3 ℚ))[(4 / 3) % 6]? = some ⟨0, 1, 0⟩ := by decide
  rw [h'] at h
  exact (Option.some.inj h).symm

/-- C14: in every mesh returned by `loadObj`, vertex `i` has the texture
coordinate `(u, 1 - v)`, where `u` and `v` are the parser's texture floats `2i`
and `2i + 1`, and its normal is the parser's normal floats `3i`, `3i + 1`,
`3i + 2` unchanged; flipping `v` twice gives `v` back (in exact arithmetic). -/
theorem loadObj_vertex_texcoord_and_normal (H : Header) (parsed : ParseResult α)
    (texture : Option TextureFile) (m : Mesh α) (h : loadObj H parsed texture = .ok (some m))
    (i : Nat) (hi : i < m.vertices.length) :
    ∃ s u v n0 n1 n2, parsed.shapes[0]? = some s ∧
      s.mesh.texcoords[2 * i]? = some u ∧ s.mesh.texcoords[2 * i + 1]? = some v ∧
      s.mesh.normals[3 * i]? = some n0 ∧ s.mesh.normals[3 * i + 1]? = some n1 ∧
      s.mesh.normals[3 * i + 2]? = some n2 ∧
      (m.vertices.get ⟨i, hi⟩).textureCoordinate = ⟨u, 1 - v⟩ ∧
      (m.vertices.get ⟨i, hi⟩).normal = ⟨n0, n1, n2⟩ ∧
      1 - (m.vertices.get ⟨i, hi⟩).textureCoordinate.y = v := by
  obtain ⟨s, hs, hv⟩ := loadObj_vertex_get H parsed texture m h i hi
  obtain ⟨_, _, _, n0, n1, n2, t0, t1, _, _, _, h3, h4, h5, h6, h7, e⟩ :=
    (objVertex?_eq_some _ _ _ _).mp hv
  refine ⟨s, t0, t1, n0, n1, n2, hs, h6, h7, h3, h4, h5, ?_, ?_, ?_⟩
  · rw [e]
  · rw [e]
  · rw [e]; simp

/-- Witness for C14: vertex 4 of the mesh loaded from the two-triangle model. -/
theorem loadObj_vertex_texcoord_and_normal_witness :
    ∃ (m : Mesh ℚ) (hi : 4 < m.vertices.length),
      loadObj ⟨2, 4, true⟩ twoTriangles none = .ok (some m) ∧
      (m.vertices.get ⟨4, hi⟩).textureCoordinate = ⟨1, 1 - 1 / 4⟩ ∧
      (m.vertices.get ⟨4, hi⟩).normal = ⟨0, 0, -1⟩ := by
  obtain ⟨m, hm, hl⟩ := twoTriangles_loads
  have hi : 4 < m.vertices.length := by omega
  obtain ⟨s, u, v, n0, n1, n2, hs, h0, h1, h2, h3, h4, ht, hn, _⟩ :=
    loadObj_vertex_texcoord_and_normal ⟨2, 4, true⟩ twoTriangles none m hm 4 hi
  have : s = twoTrianglesShape := (Option.some.inj hs).symm
  subst this
  refine ⟨m, hi, hm, ?_, ?_⟩
  · rw [ht]
    have e0 : u = 1 := (Option.some.inj h0).symm
    have e1 : v = 1 / 4 := (Option.some.inj h1).symm
    rw [e0, e1]
  · rw [hn]
    have e2 : n0 = 0 := (Option.some.inj h2).symm
    have e3 : n1 = 0 := (Option.some.inj h3).symm
    have e4 : n2 = -1 := (Option.some.inj h4).symm
    rw [e2, e3, e4]

/-- C15: the index list of every mesh returned by `loadObj` has the length and
order of the parser's index list; its `k`-th entry is the parser's `k`-th index
modulo `2 ^ 16`, which is the parser's index itself when that is at most 65535. -/
theorem loadObj_indices_narrowed (H : Header) (parsed : ParseResult α)
    (texture : Option TextureFile) (m : Mesh α) (h : loadObj H parsed texture = .ok (some m)) :
    ∃ s, parsed.shapes[0]? = some s ∧ m.getNumIndices = s.mesh.indices.length ∧
      ∀ k (hk : k < s.mesh.indices.length),
        m.indices[k]? = some (s.mesh.indices.get ⟨k, hk⟩ % 2 ^ 16) ∧
        (s.mesh.indices.get ⟨k, hk⟩ ≤ 65535 →
          m.indices[k]? = some (s.mesh.indices.get ⟨k, hk⟩)) := by
  obtain ⟨_, s, hs, _, hi⟩ := loadObj_eq_some H parsed texture m h
  refine ⟨s, hs, by simp [Mesh.getNumIndices, hi, loadObjIndices], ?_⟩
  intro k hk
  have e : m.indices[k]? = some (s.mesh.indices.get ⟨k, hk⟩ % 2 ^ 16) := by
    rw [hi, loadObjIndices, List.getElem?_map, List.getElem?_eq_getElem hk]
    rfl
  refine ⟨e, fun hle => ?_⟩
  rw [e, Nat.mod_eq_of_lt (by omega)]

/-- Witness for C15: the two-triangle model has the indices 0, 1, 2, 3, 4, 65541,
of which the last is stored as 5. -/
theorem loadObj_indices_narrowed_witness :
    ∃ m : Mesh ℚ, loadObj ⟨2, 4, true⟩ twoTriangles none = .ok (some m) ∧
      m.indices = [0, 1, 2, 3, 4, 5] ∧
      ∃ s, twoTriangles.shapes[0]? = some s ∧ m.getNumIndices = s.mesh.indices.length ∧
        ∀ k (hk : k < s.mesh.indices.length),
          m.indices[k]? = some (s.mesh.indices.get ⟨k, hk⟩ % 2 ^ 16) ∧
          (s.mesh.indices.get ⟨k, hk⟩ ≤ 65535 →
            m.indices[k]? = some (s.mesh.indices.get ⟨k, hk⟩)) := by
  obtain ⟨m, hm, _⟩ := twoTriangles_loads
  obtain ⟨_, s, hs, _, hi⟩ := loadObj_eq_some ⟨2, 4, true⟩ twoTriangles none m hm
  have : s = twoTrianglesShape := (Option.some.inj hs).symm
  subst this
  exact ⟨m, hm, by rw [hi]; decide,
    loadObj_indices_narrowed ⟨2, 4, true⟩ twoTriangles none m hm⟩

end LoadObjClaims


/-! ## The mesh invariant, the cone and the ellipsoid -/

section GeneratorInvariant

variable {α : Type} [Field α]

omit [Field α] in
theorem genOK_push_six (st : GenState α) (vs : List (Vertex α)) (k0 k1 k2 k3 k4 k5 n : Nat)
    (h : GenOK st) (hvs : vs.length = n) (h0 : k0 < n) (h1 : k1 < n) (h2 : k2 < n)
    (h3 : k3 < n) (h4 : k4 < n) (h5 : k5 < n) :
    GenOK { localVerts := st.localVerts ++ vs
            localIndices :=
              pushIndex (pushIndex (pushIndex (pushIndex (pushIndex (pushIndex st.localIndices
                (st.index + k0)) (st.index + k1)) (st.index + k2))
                (st.index + k3)) (st.index + k4)) (st.index + k5)
            index := st.index + n } := by
  obtain ⟨hi, hl, hv⟩ := h
  refine ⟨?_, ?_, ?_⟩
  · simp only [List.length_append, hvs, hi]
  · simp only [pushIndex, List.length_append, List.length_singleton]
    omega
  · intro v hv'
    simp only [pushIndex, List.append_assoc, List.mem_append, List.mem_singleton,
      List.length_append, hvs] at hv' ⊢
    rcases hv' with h | h | h | h | h | h | h
    · have := hv v h; omega
    all_goals (subst h; omega)

omit [Field α] in
theorem genOK_foldl (f : GenState α → Nat → GenState α)
    (hf : ∀ st i, GenOK st → GenOK (f st i)) (l : List Nat) :
    ∀ st, GenOK st → GenOK (l.foldl f st) := by
  induction l with
  | nil => intro st h; exact h
  | cons i l ih => intro st h; exact ih _ (hf st i h)

omit [Field α] in
theorem genOK_empty : GenOK (⟨[], [], 0⟩ : GenState α) :=
  ⟨rfl, rfl, fun v hv => by cases hv⟩

theorem coneSegmentVertices_length (P : Prims α) (radius length : α) (i : Nat) :
    (coneSegmentVertices P radius length i).length = 6 := rfl

theorem coneStep_genOK (P : Prims α) (radius length : α) (st : GenState α) (i : Nat)
    (h : GenOK st) : GenOK (coneStep P radius length st i) :=
  genOK_push_six st _ 0 1 2 3 4 5 6 h (coneSegmentVertices_length P radius length i)
    (by omega) (by omega) (by omega) (by omega) (by omega) (by omega)

/-- The loop of `makeCone` over the segments `l`: the vertices of the segments in
order, and the next `6 * l.length` values of `index`, narrowed, as indices. -/
theorem coneSteps_spec (P : Prims α) (radius length : α) (l : List Nat) :
    ∀ st : GenState α,
      (l.foldl (coneStep P radius length) st).localVerts =
          st.localVerts ++ l.flatMap (coneSegmentVertices P radius length) ∧
        (l.foldl (coneStep P radius length) st).localIndices =
          st.localIndices ++ (List.range' st.index (6 * l.length)).map (fun v => v % 65536) ∧
        (l.foldl (coneStep P radius length) st).index = st.index + 6 * l.length := by
  induction l with
  | nil => intro st; simp
  | cons i l ih =>
    intro st
    obtain ⟨h1, h2, h3⟩ := ih (coneStep P radius length st i)
    rw [List.foldl_cons, h1, h2, h3]
    refine ⟨?_, ?_, ?_⟩
    · simp [coneStep, List.flatMap_cons]
    · have e : List.range' st.index (6 * (i :: l).length) =
          List.range' st.index 6 ++ List.range' (st.index + 6) (6 * l.length) := by
        rw [List.range'_append_1]
        congr 1
      rw [e]
      simp [coneStep, pushIndex, List.range']
    · simp only [coneStep, List.length_cons]; omega

theorem makeCone_data (H : Header) (P : Prims α) (radius length : α) :
    (makeCone H P radius length).vertices =
        (List.range 20).flatMap (coneSegmentVertices P radius length) ∧
      (makeCone H P radius length).indices = List.range 120 := by
  obtain ⟨h1, h2, _⟩ := coneSteps_spec P radius length (List.range NUM_SEGMENTS) ⟨[], [], 0⟩
  have e : (List.range' 0 (6 * (List.range NUM_SEGMENTS).length)).map (fun v => v % 65536) =
      List.range 120 := by decide
  simp only [List.nil_append] at h1 h2
  rw [e] at h2
  exact ⟨h1, h2⟩

theorem flatMap_length_const {β γ : Type} (f : β → List γ) (n : Nat)
    (hf : ∀ b, (f b).length = n) (l : List β) : (l.flatMap f).length = n * l.length := by
  induction l with
  | nil => simp
  | cons b l ih => simp [List.flatMap_cons, hf, ih]; ring

theorem makeCone_genOK (H : Header) (P : Prims α) (radius length : α) :
    MeshInvariant (makeCone H P radius length) := by
  have h := genOK_foldl (coneStep P radius length) (coneStep_genOK P radius length)
    (List.range NUM_SEGMENTS) ⟨[], [], 0⟩ genOK_empty
  exact ⟨h.2.1, h.2.2⟩

end GeneratorInvariant


section CylinderInvariant

variable {α : Type} [LinearOrderedField α] [FloorRing α]

omit [FloorRing α] in
theorem cylinderCapStep_genOK (P : Prims α) (radius length : α) (st : GenState α) (i : Nat)
    (h : GenOK st) : GenOK (cylinderCapStep P radius length st i) :=
  genOK_push_six st _ 0 1 2 3 4 5 6 h rfl
    (by omega) (by omega) (by omega) (by omega) (by omega) (by omega)

theorem cylinderQuadStep_genOK (P : Prims α) (radius length z : α) (st : GenState α) (i : Nat)
    (h : GenOK st) : GenOK (cylinderQuadStep P radius length z st i) :=
  genOK_push_six st _ 0 1 2 3 2 1 4 h rfl
    (by omega) (by omega) (by omega) (by omega) (by omega) (by omega)

theorem cylinderRings_genOK (P : Prims α) (radius length : α) (fuel : Nat) :
    ∀ (z : α) (st st' : GenState α), GenOK st →
      cylinderRings P radius length fuel z st = some st' → GenOK st' := by
  induction fuel with
  | zero => intro z st st' _ h; simp [cylinderRings] at h
  | succ fuel ih =>
    intro z st st' hst h
    simp only [cylinderRings] at h
    by_cases hz : z < length
    · simp only [hz, if_true] at h
      exact ih (z + 1) _ st'
        (genOK_foldl _ (cylinderQuadStep_genOK P radius length z) _ st hst) h
    · simp only [hz, if_false, Option.some.injEq] at h
      exact h ▸ hst

theorem makeCylinder_invariant (H : Header) (P : Prims α) (fuel : Nat) (radius length : α)
    (m : Mesh α) (h : makeCylinder H P fuel radius length = some m) : MeshInvariant m := by
  unfold makeCylinder at h
  cases hr : cylinderRings P radius length fuel 0 (cylinderCaps P radius length) with
  | none => simp [hr] at h
  | some st =>
    simp only [hr, Option.some.injEq] at h
    have hcaps : GenOK (cylinderCaps P radius length) :=
      genOK_foldl _ (cylinderCapStep_genOK P radius length) _ _ genOK_empty
    have hst := cylinderRings_genOK P radius length fuel 0 _ st hcaps hr
    subst h
    exact ⟨hst.2.1, hst.2.2⟩

/-- C16: for every side, radius and length the meshes of `makeCube`,
`makeTetrahedron`, `makeCone` and `makeCylinder` satisfy the mesh invariant: the
index count is a multiple of 3 and every stored 16-bit index is below the vertex
count. For the cylinder this holds whatever the length, also when the running
`index` has outgrown 16 bits and is stored reduced modulo `2 ^ 16`. -/
theorem generators_satisfy_mesh_invariant (H : Header) (P : Prims α) (fuel : Nat)
    (side radius length : α) (hf : ⌈length⌉₊ < fuel) :
    MeshInvariant (makeCube H side) ∧ MeshInvariant (makeTetrahedron H P radius) ∧
      MeshInvariant (makeCone H P radius length) ∧
      ∃ m, makeCylinder H P fuel radius length = some m ∧ MeshInvariant m := by
  refine ⟨?_, ?_, makeCone_genOK H P radius length, ?_⟩
  · have h24 : (cubeLocalVertices : List (Vertex α)).length = 24 := rfl
    refine ⟨by simp [makeCube, cubeLocalIndices], ?_⟩
    simp only [makeCube, List.length_map, h24]
    decide
  · refine ⟨by simp [makeTetrahedron], ?_⟩
    simp only [makeTetrahedron, List.length_cons, List.length_nil]
    decide
  · obtain ⟨m, _, _, e, _⟩ := makeCylinder_counts H P fuel radius length hf
    exact ⟨m, e, makeCylinder_invariant H P fuel radius length m e⟩

end CylinderInvariant

/-- Witness for C16: a cylinder of length 1000 has 80120 vertices, more than 16
bits can index, and still satisfies the invariant. -/
theorem generators_satisfy_mesh_invariant_witness :
    ⌈(1000 : ℚ)⌉₊ < 1001 ∧ 65536 < 120 + 80 * ⌈(1000 : ℚ)⌉₊ ∧
      MeshInvariant (makeCube ⟨2, 4, true⟩ (1 : ℚ)) ∧
      MeshInvariant (makeTetrahedron ⟨2, 4, true⟩ samplePrims (1 : ℚ)) ∧
      MeshInvariant (makeCone ⟨2, 4, true⟩ samplePrims (1 : ℚ) 1000) ∧
      ∃ m, makeCylinder ⟨2, 4, true⟩ samplePrims 1001 (1 : ℚ) 1000 = some m ∧
        MeshInvariant m := by
  have h : ⌈(1000 : ℚ)⌉₊ = 1000 := by
    have : ((1000 : ℕ) : ℚ) = 1000 := by norm_num
    rw [← this, Nat.ceil_natCast]
  refine ⟨lt_of_eq_of_lt h (by norm_num), by simp [h], ?_⟩
  exact generators_satisfy_mesh_invariant ⟨2, 4, true⟩ samplePrims 1001 1 1 1000
    (lt_of_eq_of_lt h (by norm_num))

section CompositeTheorems

variable {α : Type} [Field α]

/-- C17: subdivision preserves the mesh invariant. If the base mesh satisfies it,
then for every radius and every level `makeSphere` returns a mesh, so no vertex
or index access of the subdivision was out of range, and that mesh satisfies
the invariant again. -/
theorem makeSphere_preserves_mesh_invariant (P : Prims α) (base : Mesh α) (radius : α)
    (L : Nat) (h : MeshInvariant base) :
    ∃ m, makeSphere P (some base) radius L = .ok m ∧ MeshInvariant m ∧
      makeSphere P (some base) radius L ≠ .error Fault.outOfRange := by
  obtain ⟨h3, hv⟩ := h
  obtain ⟨m, e, hl, hm, _⟩ := makeSphere_counts P base radius L (base.indices.length / 3)
    (by omega) hv
  refine ⟨m, e, ⟨by rw [hl]; omega, hm⟩, ?_⟩
  rw [e]
  simp

/-- Witness for C17: the sample icosahedron at radius 2 and level 3. -/
theorem makeSphere_preserves_mesh_invariant_witness :
    MeshInvariant (sampleIcosahedron : Mesh ℚ) ∧
      ∃ m, makeSphere samplePrims (some sampleIcosahedron) 2 3 = .ok m ∧ MeshInvariant m ∧
        makeSphere samplePrims (some sampleIcosahedron) 2 3 ≠ .error Fault.outOfRange :=
  ⟨⟨by decide, by decide⟩,
    makeSphere_preserves_mesh_invariant samplePrims sampleIcosahedron 2 3
      ⟨by decide, by decide⟩⟩

theorem makeSphere_none (P : Prims α) (radius : α) (L : Nat) :
    makeSphere P none radius L = .error Fault.nullDeref := rfl

/-- C18, evaluated: when the parser reports an error for the icosahedron model,
`loadObj` returns the null pointer, and `makeSphere` and `makeEllipse`
dereference it instead of returning an absent mesh; `makeTorus` does return the
null pointer for the same parser result. -/
theorem makeSphere_faults_on_failed_load (H : Header) (P : Prims ℚ) (radius r_x r_y r_z : ℚ)
    (L : Nat) :
    loadObj H failedParse none = .ok none ∧
      makeSphereOf H P failedParse radius L = .error Fault.nullDeref ∧
      makeEllipseOf H P failedParse r_x r_y r_z L = .error Fault.nullDeref ∧
      makeTorus H failedParse = .ok none := by
  have h : loadObj H failedParse none = .ok none := by
    simp [loadObj, failedParse]
  refine ⟨h, ?_, ?_, ?_⟩
  · simp only [makeSphereOf, h, makeSphere]
  · simp only [makeEllipseOf, h, makeEllipse, makeSphere]
  · simp only [makeTorus, h]

theorem scale_mulVec3 (r_x r_y r_z : α) (p : Vec3 α) :
    (mat3OfMat4 (glmScale ⟨r_x, r_y, r_z⟩)).mulVec3 p = ⟨r_x * p.x, r_y * p.y, r_z * p.z⟩ := by
  have h00 : mat3OfMat4 (glmScale (⟨r_x, r_y, r_z⟩ : Vec3 α)) 0 0 = r_x := rfl
  have h01 : mat3OfMat4 (glmScale (⟨r_x, r_y, r_z⟩ : Vec3 α)) 0 1 = 0 := rfl
  have h02 : mat3OfMat4 (glmScale (⟨r_x, r_y, r_z⟩ : Vec3 α)) 0 2 = 0 := rfl
  have h10 : mat3OfMat4 (glmScale (⟨r_x, r_y, r_z⟩ : Vec3 α)) 1 0 = 0 := rfl
  have h11 : mat3OfMat4 (glmScale (⟨r_x, r_y, r_z⟩ : Vec3 α)) 1 1 = r_y := rfl
  have h12 : mat3OfMat4 (glmScale (⟨r_x, r_y, r_z⟩ : Vec3 α)) 1 2 = 0 := rfl
  have h20 : mat3OfMat4 (glmScale (⟨r_x, r_y, r_z⟩ : Vec3 α)) 2 0 = 0 := rfl
  have h21 : mat3OfMat4 (glmScale (⟨r_x, r_y, r_z⟩ : Vec3 α)) 2 1 = 0 := rfl
  have h22 : mat3OfMat4 (glmScale (⟨r_x, r_y, r_z⟩ : Vec3 α)) 2 2 = r_z := rfl
  simp only [Mat3.mulVec3, h00, h01, h02, h10, h11, h12, h20, h21, h22, zero_mul, add_zero,
    zero_add]

/-- C19: on a base mesh satisfying the invariant, `makeEllipse(r_x, r_y, r_z, L)`
and `makeSphere(1, L)` both return; the ellipsoid has the vertex count and the
index list of the unit sphere, every vertex keeps its colour, normal and
texture coordinate, and its position is the unit-sphere position multiplied
componentwise by `(r_x, r_y, r_z)`. -/
theorem makeEllipse_scales_unit_sphere (P : Prims α) (base : Mesh α) (r_x r_y r_z : α)
    (L : Nat) (h : MeshInvariant base) :
    ∃ s e, makeSphere P (some base) 1 L = .ok s ∧
      makeEllipse P (some base) r_x r_y r_z L = .ok e ∧
      e.getNumVertices = s.getNumVertices ∧ e.indices = s.indices ∧
      e.vertices = s.vertices.map (fun v =>
        { v with position := ⟨r_x * v.position.x, r_y * v.position.y, r_z * v.position.z⟩ }) ∧
      e.vertices.map Vertex.color = s.vertices.map Vertex.color ∧
      e.vertices.map Vertex.normal = s.vertices.map Vertex.normal ∧
      e.vertices.map Vertex.textureCoordinate = s.vertices.map Vertex.textureCoordinate ∧
      e.vertices.map Vertex.position = s.vertices.map (fun v =>
        (⟨r_x * v.position.x, r_y * v.position.y, r_z * v.position.z⟩ : Vec3 α)) := by
  obtain ⟨h3, hv⟩ := h
  obtain ⟨s, hs, _⟩ := makeSphere_counts P base 1 L (base.indices.length / 3) (by omega) hv
  refine ⟨s, { s with vertices := s.vertices.map fun v =>
      { v with position := ⟨r_x * v.position.x, r_y * v.position.y, r_z * v.position.z⟩ } },
    hs, ?_, ?_, rfl, rfl, ?_, ?_, ?_, ?_⟩
  · simp only [makeEllipse, hs, scale_mulVec3]
  · simp [Mesh.getNumVertices]
  · simp [List.map_map, Function.comp_def]
  · simp [List.map_map, Function.comp_def]
  · simp [List.map_map, Function.comp_def]
  · simp [List.map_map, Function.comp_def]

/-- Witness for C19: the sample icosahedron with radii 1, 2, 3/2 at level 3, the
ellipsoid that the program builds. -/
theorem makeEllipse_scales_unit_sphere_witness :
    MeshInvariant (sampleIcosahedron : Mesh ℚ) ∧
      ∃ s e, makeSphere samplePrims (some sampleIcosahedron) 1 3 = .ok s ∧
        makeEllipse samplePrims (some sampleIcosahedron) 1 2 (3 / 2) 3 = .ok e ∧
        e.indices = s.indices ∧
        e.vertices = s.vertices.map (fun v =>
          { v with
            position := ⟨1 * v.position.x, 2 * v.position.y, 3 / 2 * v.position.z⟩ }) := by
  obtain ⟨s, e, hs, he, _, hi, hv, _⟩ :=
    makeEllipse_scales_unit_sphere samplePrims sampleIcosahedron 1 2 (3 / 2) 3
      ⟨by decide, by decide⟩
  exact ⟨⟨by decide, by decide⟩, s, e, hs, he, hi, hv⟩

/-- C20: for every radius and length `makeCone` has exactly 120 vertices and 120
indices, six vertices for each of the 20 segments (a side triangle, then a base
triangle), and its index list is 0, 1, ..., 119 in order, whatever the radius
and the length. -/
theorem makeCone_counts (H : Header) (P : Prims α) (radius length : α) :
    (makeCone H P radius length).getNumVertices = 120 ∧
      (makeCone H P radius length).getNumIndices = 120 ∧
      (makeCone H P radius length).indices = List.range 120 ∧
      (makeCone H P radius length).vertices =
        (List.range 20).flatMap (coneSegmentVertices P radius length) ∧
      (∀ i, (coneSegmentVertices P radius length i).length = 6) ∧
      ∀ radius2 length2 : α,
        (makeCone H P radius2 length2).indices = (makeCone H P radius length).indices := by
  obtain ⟨hv, hi⟩ := makeCone_data H P radius length
  refine ⟨?_, ?_, hi, hv, coneSegmentVertices_length P radius length, ?_⟩
  · rw [Mesh.getNumVertices, hv,
      flatMap_length_const _ 6 (coneSegmentVertices_length P radius length)]
    simp
  · rw [Mesh.getNumIndices, hi]
    simp
  · intro radius2 length2
    rw [hi, (makeCone_data H P radius2 length2).2]

end CompositeTheorems


/-! ## Midpoint lookup, key and children of a triangle -/

section MidpointClaims

variable {α : Type} [Field α]

/-- The two ways in which `middlePointIndex` returns: a cache hit, or a miss that
appends the midpoint vertex and binds the key. -/
theorem middlePointIndex_inv (P : Prims α) (i1 i2 : Nat) (verts verts' : List (Vertex α))
    (cache cache' : Cache) (r : Nat)
    (h : middlePointIndex P i1 i2 verts cache = .ok (r, verts', cache')) :
    (cache.lookup (edgeKey i1 i2) = some r ∧ verts' = verts ∧ cache' = cache) ∨
      (cache.lookup (edgeKey i1 i2) = none ∧ ∃ v1 v2, verts[i1]? = some v1 ∧
        verts[i2]? = some v2 ∧ r = verts.length % 65536 ∧
        verts' = verts ++ [middleVertex P v1 v2] ∧ cache' = (edgeKey i1 i2, r) :: cache) := by
  unfold middlePointIndex at h
  cases hl : cache.lookup (edgeKey i1 i2) with
  | some hit =>
    simp only [hl, Except.ok.injEq, Prod.mk.injEq] at h
    obtain ⟨rfl, rfl, rfl⟩ := h
    exact Or.inl ⟨rfl, rfl, rfl⟩
  | none =>
    simp only [hl, vecAt] at h
    cases h1 : verts[i1]? with
    | none => simp [h1] at h
    | some v1 =>
      cases h2 : verts[i2]? with
      | none => simp [h1, h2] at h
      | some v2 =>
        simp only [h1, h2, Except.ok.injEq, Prod.mk.injEq] at h
        obtain ⟨rfl, rfl, rfl⟩ := h
        exact Or.inr ⟨rfl, v1, v2, rfl, rfl, rfl, rfl, rfl⟩

theorem lookup_cons_self (cache : Cache) (k v : Nat) :
    List.lookup k ((k, v) :: cache) = some v := by
  simp [List.lookup]

theorem lookup_cons_of_ne (cache : Cache) (k k' v : Nat) (h : k ≠ k') :
    List.lookup k ((k', v) :: cache) = List.lookup k cache := by
  have : (k == k') = false := by simpa using h
  simp [List.lookup, this]

/-- After `middlePointIndex` the cache binds the key of the pair to the returned
index, and every earlier binding is still there. -/
theorem middlePointIndex_lookup (P : Prims α) (i1 i2 : Nat) (verts verts' : List (Vertex α))
    (cache cache' : Cache) (r : Nat)
    (h : middlePointIndex P i1 i2 verts cache = .ok (r, verts', cache')) :
    cache'.lookup (edgeKey i1 i2) = some r ∧
      ∀ k x, cache.lookup k = some x → cache'.lookup k = some x := by
  rcases middlePointIndex_inv P i1 i2 verts verts' cache cache' r h with
    ⟨hl, _, rfl⟩ | ⟨hl, _, _, _, _, _, _, rfl⟩
  · exact ⟨hl, fun _ _ hx => hx⟩
  · refine ⟨lookup_cons_self _ _ _, fun k x hx => ?_⟩
    have hk : k ≠ edgeKey i1 i2 := by
      rintro rfl
      rw [hl] at hx
      cases hx
    rw [lookup_cons_of_ne _ _ _ _ hk, hx]

/-- C24: on a cache hit `middlePointIndex` returns the cached index and leaves the
vertex list and the cache as they are. On a miss with valid indices and fewer
than 65536 vertices it returns the previous length of the vertex list, appends
exactly one vertex, which sits at that position, and adds exactly one cache
entry, for the key. In both cases a second call with the same pair returns the
same index and changes nothing. -/
theorem middlePointIndex_hit_and_miss (P : Prims α) (i1 i2 : Nat) (verts : List (Vertex α))
    (cache : Cache) (h1 : i1 < verts.length) (h2 : i2 < verts.length)
    (hlen : verts.length < 65536) :
    (∀ r, cache.lookup (edgeKey i1 i2) = some r →
      middlePointIndex P i1 i2 verts cache = .ok (r, verts, cache)) ∧
    (cache.lookup (edgeKey i1 i2) = none →
      ∃ v, middlePointIndex P i1 i2 verts cache =
          .ok (verts.length, verts ++ [v], (edgeKey i1 i2, verts.length) :: cache) ∧
        (verts ++ [v])[verts.length]? = some v ∧ (verts ++ [v]).length = verts.length + 1 ∧
        ((edgeKey i1 i2, verts.length) :: cache).length = cache.length + 1) ∧
    ∃ r verts' cache', middlePointIndex P i1 i2 verts cache = .ok (r, verts', cache') ∧
      middlePointIndex P i1 i2 verts' cache' = .ok (r, verts', cache') := by
  have hmiss : cache.lookup (edgeKey i1 i2) = none →
      middlePointIndex P i1 i2 verts cache = .ok (verts.length,
        verts ++ [middleVertex P (verts.get ⟨i1, h1⟩) (verts.get ⟨i2, h2⟩)],
        (edgeKey i1 i2, verts.length) :: cache) := by
    intro hl
    simp [middlePointIndex, hl, vecAt_ok verts i1 h1, vecAt_ok verts i2 h2,
      Nat.mod_eq_of_lt hlen]
  have hhit : ∀ (vs : List (Vertex α)) (c : Cache) (r : Nat),
      c.lookup (edgeKey i1 i2) = some r → middlePointIndex P i1 i2 vs c = .ok (r, vs, c) := by
    intro vs c r hl
    simp [middlePointIndex, hl]
  refine ⟨hhit verts cache, ?_, ?_⟩
  · intro hl
    exact ⟨_, hmiss hl, by simp, by simp, by simp⟩
  · cases hl : cache.lookup (edgeKey i1 i2) with
    | some r => exact ⟨r, verts, cache, hhit _ _ r hl, hhit _ _ r hl⟩
    | none =>
      exact ⟨_, _, _, hmiss hl, hhit _ _ _ (lookup_cons_self _ _ _)⟩

/-- Witness for C24: the first lookup on the sample icosahedron, a miss that
appends vertex 12. -/
theorem middlePointIndex_hit_and_miss_witness :
    0 < (sampleIcosahedron : Mesh ℚ).vertices.length ∧
      11 < (sampleIcosahedron : Mesh ℚ).vertices.length ∧
      (sampleIcosahedron : Mesh ℚ).vertices.length < 65536 ∧
      List.lookup (edgeKey 0 11) ([] : Cache) = none ∧
      ∃ v, middlePointIndex samplePrims 0 11 (sampleIcosahedron : Mesh ℚ).vertices [] =
          .ok ((sampleIcosahedron : Mesh ℚ).vertices.length,
            (sampleIcosahedron : Mesh ℚ).vertices ++ [v],
            [(edgeKey 0 11, (sampleIcosahedron : Mesh ℚ).vertices.length)]) := by
  obtain ⟨v, hv, _⟩ := (middlePointIndex_hit_and_miss samplePrims 0 11
    (sampleIcosahedron : Mesh ℚ).vertices [] (by decide) (by decide) (by decide)).2.1 rfl
  exact ⟨by decide, by decide, by decide, rfl, v, hv⟩

/-- C25: below 1024 the packed key is injective on unordered pairs. For all
indices `i1, i2, j1, j2 < 1024` the keys of `(i1, i2)` and `(j1, j2)` are equal
exactly when the unordered pairs `{i1, i2}` and `{j1, j2}` are equal. -/
theorem edgeKey_injective_below_1024 (i1 i2 j1 j2 : Nat) (hi1 : i1 < 1024) (hi2 : i2 < 1024)
    (hj1 : j1 < 1024) (hj2 : j2 < 1024) :
    (edgeKey i1 i2 = edgeKey j1 j2 ↔ s(i1, i2) = s(j1, j2)) ∧
      (edgeKey i1 i2 = edgeKey j1 j2 ↔ (i1 = j1 ∧ i2 = j2) ∨ (i1 = j2 ∧ i2 = j1)) ∧
      edgeKey i1 i2 = (min i1 i2 <<< 10) + max i1 i2 := by
  have hk : edgeKey i1 i2 = edgeKey j1 j2 ↔ (i1 = j1 ∧ i2 = j2) ∨ (i1 = j2 ∧ i2 = j1) := by
    rw [edgeKey_eq, edgeKey_eq]
    constructor
    · intro h
      rcases Nat.le_total i1 i2 with a | a <;> rcases Nat.le_total j1 j2 with b | b <;>
        simp only [Nat.min_eq_left, Nat.min_eq_right, Nat.max_eq_left, Nat.max_eq_right, a, b]
          at h <;> omega
    · rintro (⟨rfl, rfl⟩ | ⟨rfl, rfl⟩)
      · rfl
      · rw [Nat.min_comm, Nat.max_comm]
  refine ⟨?_, hk, ?_⟩
  · rw [hk, Sym2.eq_iff]
  · rw [edgeKey_eq, Nat.shiftLeft_eq]

/-- Witness for C25: the pairs `(3, 700)` and `(700, 3)` have the same key. -/
theorem edgeKey_injective_below_1024_witness :
    (3 : Nat) < 1024 ∧ (700 : Nat) < 1024 ∧ edgeKey 3 700 = 3772 ∧
      (edgeKey 3 700 = edgeKey 700 3 ↔ s(3, 700) = s(700, 3)) :=
  ⟨by decide, by decide, by decide,
    (edgeKey_injective_below_1024 3 700 700 3 (by decide) (by decide) (by decide)
      (by decide)).1⟩

end MidpointClaims


section ChildrenClaims

variable {α : Type} [Field α]

/-- The six calls that the loop body of `makeSphere` makes for one triangle, when
it returns. -/
theorem splitTriangle_inv (P : Prims α) (radius : α) (v_0 v_1 v_2 : Nat)
    (verts verts' : List (Vertex α)) (cache cache' : Cache) (pushed : List Nat)
    (h : splitTriangle P radius v_0 v_1 v_2 verts cache = .ok (pushed, verts', cache')) :
    ∃ a b c vs1 c1 vs2 c2 vs3 vs4 vs5,
      middlePointIndex P v_0 v_1 verts cache = .ok (a, vs1, c1) ∧
      middlePointIndex P v_1 v_2 vs1 c1 = .ok (b, vs2, c2) ∧
      middlePointIndex P v_2 v_0 vs2 c2 = .ok (c, vs3, cache') ∧
      scalePositionAt vs3 a radius = .ok vs4 ∧ scalePositionAt vs4 b radius = .ok vs5 ∧
      scalePositionAt vs5 c radius = .ok verts' ∧
      pushed = [v_0, a, c, v_1, b, a, v_2, c, b, a, b, c] := by
  simp only [splitTriangle, bind, Except.bind, pure, Except.pure] at h
  cases h1 : middlePointIndex P v_0 v_1 verts cache with
  | error f => simp [h1] at h
  | ok r1 =>
    obtain ⟨a, vs1, c1⟩ := r1
    simp only [h1] at h
    cases h2 : middlePointIndex P v_1 v_2 vs1 c1 with
    | error f => simp [h2] at h
    | ok r2 =>
      obtain ⟨b, vs2, c2⟩ := r2
      simp only [h2] at h
      cases h3 : middlePointIndex P v_2 v_0 vs2 c2 with
      | error f => simp [h3] at h
      | ok r3 =>
        obtain ⟨c, vs3, c3⟩ := r3
        simp only [h3] at h
        cases h4 : scalePositionAt vs3 a radius with
        | error f => simp [h4] at h
        | ok vs4 =>
          simp only [h4] at h
          cases h5 : scalePositionAt vs4 b radius with
          | error f => simp [h5] at h
          | ok vs5 =>
            simp only [h5] at h
            cases h6 : scalePositionAt vs5 c radius with
            | error f => simp [h6] at h
            | ok vs6 =>
              simp only [h6, Except.ok.injEq, Prod.mk.injEq] at h
              obtain ⟨rfl, rfl, rfl⟩ := h
              exact ⟨a, b, c, vs1, c1, vs2, c2, vs3, vs4, vs5, rfl, h2, h3, h4, h5, h6, rfl⟩

/-- The children of one triangle, with the midpoint indices as the final cache of
the loop body binds them. -/
theorem splitTriangle_children (P : Prims α) (radius : α) (v_0 v_1 v_2 : Nat)
    (verts verts' : List (Vertex α)) (cache cache' : Cache) (pushed : List Nat)
    (h : splitTriangle P radius v_0 v_1 v_2 verts cache = .ok (pushed, verts', cache')) :
    (∃ a b c, pushed = [v_0, a, c, v_1, b, a, v_2, c, b, a, b, c] ∧
      cache'.lookup (edgeKey v_0 v_1) = some a ∧ cache'.lookup (edgeKey v_1 v_2) = some b ∧
      cache'.lookup (edgeKey v_2 v_0) = some c) ∧
    ∀ k x, cache.lookup k = some x → cache'.lookup k = some x := by
  obtain ⟨a, b, c, vs1, c1, vs2, c2, vs3, vs4, vs5, e1, e2, e3, _, _, _, hp⟩ :=
    splitTriangle_inv P radius v_0 v_1 v_2 verts verts' cache cache' pushed h
  obtain ⟨l1, s1⟩ := middlePointIndex_lookup P _ _ _ _ _ _ _ e1
  obtain ⟨l2, s2⟩ := middlePointIndex_lookup P _ _ _ _ _ _ _ e2
  obtain ⟨l3, s3⟩ := middlePointIndex_lookup P _ _ _ _ _ _ _ e3
  exact ⟨⟨a, b, c, hp, s3 _ _ (s2 _ _ l1), s3 _ _ l2, l3⟩,
    fun k x hx => s3 _ _ (s2 _ _ (s1 _ _ hx))⟩

/-- A pass, when it returns, replaces the `t`-th triangle by its four children at
the output positions `12 t .. 12 t + 11`, and keeps every cache binding. -/
theorem subdividePass_children (P : Prims α) (radius : α) :
    ∀ (localIndices : List Nat) (verts verts' : List (Vertex α)) (cache cache' : Cache)
      (newIndices : List Nat),
      subdividePass P radius localIndices verts cache = .ok (newIndices, verts', cache') →
      (∀ k x, cache.lookup k = some x → cache'.lookup k = some x) ∧
      ∀ t v_0 v_1 v_2, localIndices[3 * t]? = some v_0 → localIndices[3 * t + 1]? = some v_1 →
        localIndices[3 * t + 2]? = some v_2 →
        ∃ a b c, cache'.lookup (edgeKey v_0 v_1) = some a ∧
          cache'.lookup (edgeKey v_1 v_2) = some b ∧ cache'.lookup (edgeKey v_2 v_0) = some c ∧
          (newIndices.drop (12 * t)).take 12 = [v_0, a, c, v_1, b, a, v_2, c, b, a, b, c] := by
  intro localIndices
  induction localIndices using triangleEdges.induct with
  | case1 w_0 w_1 w_2 rest ih =>
    intro verts verts' cache cache' newIndices h
    simp only [subdividePass] at h
    cases hs : splitTriangle P radius w_0 w_1 w_2 verts cache with
    | error f => simp [hs] at h
    | ok r1 =>
      obtain ⟨pushed, vs1, c1⟩ := r1
      simp only [hs] at h
      cases hr : subdividePass P radius rest vs1 c1 with
      | error f => simp [hr] at h
      | ok r2 =>
        obtain ⟨new', vs2, c2⟩ := r2
        simp only [hr, Except.ok.injEq, Prod.mk.injEq] at h
        obtain ⟨rfl, rfl, rfl⟩ := h
        obtain ⟨⟨a, b, c, hp, la, lb, lc⟩, st1⟩ :=
          splitTriangle_children P radius w_0 w_1 w_2 verts vs1 cache c1 pushed hs
        obtain ⟨st2, hch⟩ := ih vs1 vs2 c1 c2 new' hr
        refine ⟨fun k x hx => st2 _ _ (st1 _ _ hx), ?_⟩
        intro t v_0 v_1 v_2 h0 h1 h2
        cases t with
        | zero =>
          simp only [Nat.mul_zero, Nat.zero_add, List.getElem?_cons_zero,
            List.getElem?_cons_succ, Option.some.injEq] at h0 h1 h2
          subst h0; subst h1; subst h2
          refine ⟨a, b, c, st2 _ _ la, st2 _ _ lb, st2 _ _ lc, ?_⟩
          rw [hp]
          simp
        | succ t =>
          have e0 : 3 * (t + 1) = (3 * t) + 1 + 1 + 1 := by omega
          have e1 : 3 * (t + 1) + 1 = (3 * t + 1) + 1 + 1 + 1 := by omega
          have e2 : 3 * (t + 1) + 2 = (3 * t + 2) + 1 + 1 + 1 := by omega
          rw [e0] at h0
          rw [e1] at h1
          rw [e2] at h2
          simp only [List.getElem?_cons_succ] at h0 h1 h2
          obtain ⟨a', b', c', la', lb', lc', hd⟩ := hch t v_0 v_1 v_2 h0 h1 h2
          refine ⟨a', b', c', la', lb', lc', ?_⟩
          have hl : pushed.length = 12 := by rw [hp]; rfl
          have e : 12 * (t + 1) = pushed.length + 12 * t := by omega
          rw [e, List.drop_append]
          exact hd
  | case2 l hl =>
    intro verts verts' cache cache' newIndices h
    unfold subdividePass at h
    split at h
    · simp only [Except.ok.injEq, Prod.mk.injEq] at h
      obtain ⟨rfl, rfl, rfl⟩ := h
      exact ⟨fun _ _ hx => hx, fun t v_0 v_1 v_2 h0 => by simp at h0⟩
    · exact absurd rfl (hl _ _ _ _)
    · cases h

end ChildrenClaims


/-! ## Normals and faces of the generators -/

section NormalClaims

variable {α : Type} [Field α]

theorem cross_self (v : Vec3 α) : v.cross v = ⟨0, 0, 0⟩ := by
  simp [Vec3.cross, mul_comm]

theorem normalize_zero (P : Prims α) : Vec3.normalize P (⟨0, 0, 0⟩ : Vec3 α) = ⟨0, 0, 0⟩ := by
  simp [Vec3.normalize, Vec3.smul]

/-- C26: in every segment of `makeCone`, for every radius and length, the cross
product behind the side normal has the same vector `top - v_0` on both sides
and is the zero vector; the three side vertices store the negated
normalization of the zero vector, which (the zero vector itself in exact
arithmetic) is not a unit vector. -/
theorem makeCone_side_normal_degenerate (H : Header) (P : Prims α) (radius length : α)
    (i : Nat) :
    (makeCone H P radius length).vertices =
        (List.range 20).flatMap (coneSegmentVertices P radius length) ∧
      ∃ v_0 v_1 top : Vec3 α,
        ((coneSegmentVertices P radius length i).take 3).map Vertex.position =
          [v_0, v_1, top] ∧
        top = ⟨0, 0, length⟩ ∧
        ((coneSegmentVertices P radius length i).take 3).map Vertex.normal =
          List.replicate 3 (((top.sub v_0).cross (top.sub v_0)).normalize P).neg ∧
        (top.sub v_0).cross (top.sub v_0) = ⟨0, 0, 0⟩ ∧
        (((top.sub v_0).cross (top.sub v_0)).normalize P).neg =
          (Vec3.normalize P ⟨0, 0, 0⟩).neg ∧
        (((top.sub v_0).cross (top.sub v_0)).normalize P).neg = ⟨0, 0, 0⟩ ∧
        Vec3.dot (((top.sub v_0).cross (top.sub v_0)).normalize P).neg
          (((top.sub v_0).cross (top.sub v_0)).normalize P).neg ≠ 1 := by
  refine ⟨(makeCone_data H P radius length).1, _, _, _, rfl, rfl, rfl, cross_self _, ?_, ?_, ?_⟩
  · rw [cross_self]
  · rw [cross_self, normalize_zero]
    simp [Vec3.neg]
  · rw [cross_self, normalize_zero]
    simp [Vec3.neg, Vec3.dot]

/-- C28, evaluated: every one of the 24 vertices of `makeCube` stores the zero
vector as its normal, for every side; no stored normal is a unit vector. -/
theorem makeCube_normals_are_zero (H : Header) (side : α) :
    (makeCube H side).vertices.map Vertex.normal = List.replicate 24 ⟨0, 0, 0⟩ ∧
      Vec3.dot (⟨0, 0, 0⟩ : Vec3 α) ⟨0, 0, 0⟩ ≠ 1 := by
  refine ⟨?_, by simp [Vec3.dot]⟩
  simp [makeCube, cubeLocalVertices, List.replicate]

end NormalClaims


section CubeFaceClaims

variable {α : Type} [Field α]

/-- C27, evaluated: the left face of `makeCube` is not two proper triangles. Its
four vertices 12..15 sit at `(-1, 1, 1)`, `(-1, 1, -1)`, `(-1, -1, -1)` and again
`(-1, -1, -1)` (times `side`), so the corner `(-1, -1, 1)` is never used and the
triangle of the indices 12, 14, 15 has two equal corners; the triangle of the
indices 12, 14, 13 has `(p1 - p0) × (p2 - p0) = (4 side², 0, 0)`, which on the
face `x = -side` points to the cube centre, while the top triangle 0, 1, 2 on
`y = side` has `(0, 4 side², 0)`, pointing away from it. -/
theorem makeCube_left_face_degenerate (H : Header) (side : α) :
    (((makeCube H side).vertices.drop 12).take 4).map Vertex.position =
        [⟨side * -1, side * 1, side * 1⟩, ⟨side * -1, side * 1, side * -1⟩,
         ⟨side * -1, side * -1, side * -1⟩, ⟨side * -1, side * -1, side * -1⟩] ∧
      ((makeCube H side).indices.drop 18).take 6 = [12, 14, 13, 12, 14, 15] ∧
      (makeCube H side).trianglePositions 7 =
        some (⟨side * -1, side * 1, side * 1⟩, ⟨side * -1, side * -1, side * -1⟩,
          ⟨side * -1, side * -1, side * -1⟩) ∧
      triangleCross (⟨side * -1, side * 1, side * 1⟩ : Vec3 α)
        ⟨side * -1, side * -1, side * -1⟩ ⟨side * -1, side * -1, side * -1⟩ = ⟨0, 0, 0⟩ ∧
      (makeCube H side).trianglePositions 6 =
        some (⟨side * -1, side * 1, side * 1⟩, ⟨side * -1, side * -1, side * -1⟩,
          ⟨side * -1, side * 1, side * -1⟩) ∧
      triangleCross (⟨side * -1, side * 1, side * 1⟩ : Vec3 α)
        ⟨side * -1, side * -1, side * -1⟩ ⟨side * -1, side * 1, side * -1⟩ =
          ⟨4 * side ^ 2, 0, 0⟩ ∧
      (makeCube H side).trianglePositions 0 =
        some (⟨side * -1, side * 1, side * 1⟩, ⟨side * 1, side * 1, side * 1⟩,
          ⟨side * 1, side * 1, side * -1⟩) ∧
      triangleCross (⟨side * -1, side * 1, side * 1⟩ : Vec3 α)
        ⟨side * 1, side * 1, side * 1⟩ ⟨side * 1, side * 1, side * -1⟩ =
          ⟨0, 4 * side ^ 2, 0⟩ := by
  refine ⟨?_, ?_, ?_, ?_, ?_, ?_, ?_, ?_⟩
  · simp [makeCube, cubeLocalVertices, scale_mulVec3]
  · simp [makeCube, cubeLocalIndices]
  · simp [Mesh.trianglePositions, makeCube, cubeLocalVertices, cubeLocalIndices, scale_mulVec3]
  · simp only [triangleCross, Vec3.sub, Vec3.cross, Vec3.mk.injEq]
    refine ⟨by ring, by ring, by ring⟩
  · simp [Mesh.trianglePositions, makeCube, cubeLocalVertices, cubeLocalIndices, scale_mulVec3]
  · simp only [triangleCross, Vec3.sub, Vec3.cross, Vec3.mk.injEq]
    refine ⟨by ring, by ring, by ring⟩
  · simp [Mesh.trianglePositions, makeCube, cubeLocalVertices, cubeLocalIndices, scale_mulVec3]
  · simp only [triangleCross, Vec3.sub, Vec3.cross, Vec3.mk.injEq]
    refine ⟨by ring, by ring, by ring⟩

end CubeFaceClaims


section CylinderContent

variable {α : Type} [LinearOrderedField α] [FloorRing α]

omit [FloorRing α] in
theorem capSteps_verts (P : Prims α) (radius length : α) (l : List Nat) :
    ∀ st : GenState α,
      (l.foldl (cylinderCapStep P radius length) st).localVerts =
        st.localVerts ++ l.flatMap (cylinderCapVertices P radius length) := by
  induction l with
  | nil => intro st; simp
  | cons i l ih =>
    intro st
    rw [List.foldl_cons, ih]
    simp [cylinderCapStep, List.flatMap_cons]

theorem quadSteps_verts (P : Prims α) (radius length z : α) (l : List Nat) :
    ∀ st : GenState α,
      (l.foldl (cylinderQuadStep P radius length z) st).localVerts =
        st.localVerts ++ l.flatMap (cylinderQuadVertices P radius length z) := by
  induction l with
  | nil => intro st; simp
  | cons i l ih =>
    intro st
    rw [List.foldl_cons, ih]
    simp [cylinderQuadStep, List.flatMap_cons]

/-- The vertices that the ring loop pushes: for each turn `j`, at height `z + j`,
the quads of the 20 segments in order. -/
theorem cylinderRings_verts (P : Prims α) (radius length : α) (k : Nat) :
    ∀ (fuel : Nat) (z : α) (st : GenState α), k < fuel → length ≤ z + k →
      (∀ j : Nat, j < k → z + j < length) →
      ∃ st', cylinderRings P radius length fuel z st = some st' ∧
        st'.localVerts = st.localVerts ++ (List.range k).flatMap fun j =>
          (List.range NUM_SEGMENTS).flatMap (cylinderQuadVertices P radius length (z + j)) := by
  induction k with
  | zero =>
    intro fuel z st hf hz _
    obtain ⟨fuel, rfl⟩ : ∃ f, fuel = f + 1 := ⟨fuel - 1, by omega⟩
    have : ¬ z < length := by simpa using hz
    exact ⟨st, by simp [cylinderRings, this], by simp⟩
  | succ k ih =>
    intro fuel z st hf hz hlt
    obtain ⟨fuel, rfl⟩ : ∃ f, fuel = f + 1 := ⟨fuel - 1, by omega⟩
    have hz0 : z < length := by simpa using hlt 0 (Nat.succ_pos k)
    obtain ⟨st', e, hv⟩ :=
      ih fuel (z + 1) (cylinderRing P radius length z st) (by omega)
        (by push_cast at hz; linarith)
        (fun j hj => by have := hlt (j + 1) (by omega); push_cast at this; linarith)
    refine ⟨st', by simp only [cylinderRings, hz0, if_true, e], ?_⟩
    rw [hv, cylinderRing, quadSteps_verts, List.append_assoc, List.range_succ_eq_map,
      List.flatMap_cons, List.flatMap_map]
    congr 2
    · simp
    · apply List.flatMap_congr
      intro j _
      have : z + 1 + (j : α) = z + ((j + 1 : ℕ) : α) := by push_cast; ring
      simp only [Function.comp, this]

/-- The vertex list of `makeCylinder`: the caps of the 20 segments, then for each
turn `j < ⌈length⌉₊` of the ring loop the quads of the 20 segments at height `j`. -/
theorem makeCylinder_verts (H : Header) (P : Prims α) (fuel : Nat) (radius length : α)
    (hf : ⌈length⌉₊ < fuel) :
    ∃ m, makeCylinder H P fuel radius length = some m ∧
      m.vertices = (List.range NUM_SEGMENTS).flatMap (cylinderCapVertices P radius length) ++
        (List.range ⌈length⌉₊).flatMap fun j =>
          (List.range NUM_SEGMENTS).flatMap (cylinderQuadVertices P radius length (j : α)) := by
  obtain ⟨st', e, hv⟩ :=
    cylinderRings_verts P radius length ⌈length⌉₊ fuel 0 (cylinderCaps P radius length) hf
      (by simpa using Nat.le_ceil length)
      (fun j hj => by simpa using Nat.lt_ceil.mp hj)
  refine ⟨{ (Mesh.new H : Mesh α) with vertices := st'.localVerts, indices := st'.localIndices },
    by simp only [makeCylinder, e], ?_⟩
  simp only [hv, cylinderCaps, capSteps_verts, List.nil_append, zero_add]

/-- C29, evaluated: the cap normals of `makeCylinder` and `makeCone` lie along the
y axis, in the plane of the cap, not along the z axis of the shape. The bottom
cap vertices of a cylinder segment have `z = -length / 2` and the normal
`(0, -1, 0)`, the top cap vertices `z = -length / 2 + length` and `(0, 1, 0)`;
the base vertices of a cone segment have `z = 0` and `(0, -1, 0)`. Each of these
normals has dot product 0 with the z axis and a non-zero cross product with it. -/
theorem cap_normals_lie_in_cap_plane (H : Header) (P : Prims α) (radius length : α)
    (i : Nat) :
    (∃ m ringVerts, makeCylinder H P (⌈length⌉₊ + 1) radius length = some m ∧
      m.vertices =
        (List.range 20).flatMap (cylinderCapVertices P radius length) ++ ringVerts) ∧
    (cylinderCapVertices P radius length i).map (fun v => v.position.z) =
      [-(length / 2), -(length / 2), -(length / 2),
        -(length / 2) + length, -(length / 2) + length, -(length / 2) + length] ∧
    (cylinderCapVertices P radius length i).map Vertex.normal =
      [⟨0, -1, 0⟩, ⟨0, -1, 0⟩, ⟨0, -1, 0⟩, ⟨0, 1, 0⟩, ⟨0, 1, 0⟩, ⟨0, 1, 0⟩] ∧
    (makeCone H P radius length).vertices =
      (List.range 20).flatMap (coneSegmentVertices P radius length) ∧
    ((coneSegmentVertices P radius length i).drop 3).map (fun v => v.position.z) = [0, 0, 0] ∧
    ((coneSegmentVertices P radius length i).drop 3).map Vertex.normal =
      [⟨0, -1, 0⟩, ⟨0, -1, 0⟩, ⟨0, -1, 0⟩] ∧
    Vec3.dot (⟨0, -1, 0⟩ : Vec3 α) ⟨0, 0, 1⟩ = 0 ∧ Vec3.dot (⟨0, 1, 0⟩ : Vec3 α) ⟨0, 0, 1⟩ = 0 ∧
    Vec3.cross (⟨0, -1, 0⟩ : Vec3 α) ⟨0, 0, 1⟩ = ⟨-1, 0, 0⟩ ∧
    Vec3.cross (⟨0, 1, 0⟩ : Vec3 α) ⟨0, 0, 1⟩ = ⟨1, 0, 0⟩ ∧
    (⟨-1, 0, 0⟩ : Vec3 α) ≠ ⟨0, 0, 0⟩ ∧ (⟨1, 0, 0⟩ : Vec3 α) ≠ ⟨0, 0, 0⟩ := by
  refine ⟨?_, rfl, rfl, (makeCone_data H P radius length).1, rfl, rfl, ?_, ?_, ?_, ?_, ?_, ?_⟩
  · obtain ⟨m, e, hv⟩ := makeCylinder_verts H P (⌈length⌉₊ + 1) radius length (Nat.lt_succ_self _)
    exact ⟨m, _, e, hv⟩
  · simp [Vec3.dot]
  · simp [Vec3.dot]
  · simp [Vec3.cross]
  · simp [Vec3.cross]
  · simp
  · simp

end CylinderContent


section TetrahedronClaims

variable {α : Type} [LinearOrderedField α]

theorem tetra_corner (P : Prims α) (x y z : α) (hx : x * x = 1) (hy : y * y = 1)
    (hz : z * z = 1) :
    Vec3.normalize P ⟨x, y, z⟩ = ⟨x * (1 / P.sqrt 3), y * (1 / P.sqrt 3), z * (1 / P.sqrt 3)⟩ := by
  have h3 : x * x + y * y + z * z = 3 := by rw [hx, hy, hz]; norm_num
  simp only [Vec3.normalize, Vec3.smul, Vec3.dot, h3]

/-- C30: `makeTetrahedron` yields 12 vertices and the index list 0..11. With
`a, b, c, d` the four normalized corners (which are pairwise distinct as soon as
the square root of 3 is positive), the four triangles are the faces `a d b`,
`a c d`, `a b c`, `b d c`; each face stores the negation of the corner it
misses as the normal of its three vertices; `(p1 - p0) × (p2 - p0)` is a
positive multiple of that stored normal, and the stored normal has a positive
dot product with the corners of its face, so it points outward and agrees with
the winding. -/
theorem makeTetrahedron_faces (H : Header) (P : Prims α) (radius : α)
    (hs : 0 < P.sqrt 3) :
    ∃ a b c d : Vec3 α,
      a = Vec3.normalize P ⟨1, 1, 1⟩ ∧ b = Vec3.normalize P ⟨1, -1, -1⟩ ∧
      c = Vec3.normalize P ⟨-1, 1, -1⟩ ∧ d = Vec3.normalize P ⟨-1, -1, 1⟩ ∧
      (makeTetrahedron H P radius).getNumVertices = 12 ∧
      (makeTetrahedron H P radius).indices = List.range 12 ∧
      (makeTetrahedron H P radius).vertices.map Vertex.position =
        [a, d, b, a, c, d, a, b, c, b, d, c] ∧
      (makeTetrahedron H P radius).vertices.map Vertex.normal =
        [c.neg, c.neg, c.neg, b.neg, b.neg, b.neg, d.neg, d.neg, d.neg, a.neg, a.neg, a.neg] ∧
      (a ≠ b ∧ a ≠ c ∧ a ≠ d ∧ b ≠ c ∧ b ≠ d ∧ c ≠ d) ∧
      (∃ t, 0 < t ∧ triangleCross a d b = c.neg.smul t) ∧
      (∃ t, 0 < t ∧ triangleCross a c d = b.neg.smul t) ∧
      (∃ t, 0 < t ∧ triangleCross a b c = d.neg.smul t) ∧
      (∃ t, 0 < t ∧ triangleCross b d c = a.neg.smul t) ∧
      (0 < c.neg.dot a ∧ 0 < c.neg.dot d ∧ 0 < c.neg.dot b) ∧
      (0 < b.neg.dot a ∧ 0 < b.neg.dot c ∧ 0 < b.neg.dot d) ∧
      (0 < d.neg.dot a ∧ 0 < d.neg.dot b ∧ 0 < d.neg.dot c) ∧
      (0 < a.neg.dot b ∧ 0 < a.neg.dot d ∧ 0 < a.neg.dot c) := by
  have hk : 0 < 1 / P.sqrt 3 := one_div_pos.mpr hs
  have hkk : 0 < 1 / P.sqrt 3 * (1 / P.sqrt 3) := mul_pos hk hk
  have ha := tetra_corner P 1 1 1 (by norm_num) (by norm_num) (by norm_num)
  have hb := tetra_corner P 1 (-1) (-1) (by norm_num) (by norm_num) (by norm_num)
  have hc := tetra_corner P (-1) 1 (-1) (by norm_num) (by norm_num) (by norm_num)
  have hd := tetra_corner P (-1) (-1) 1 (by norm_num) (by norm_num) (by norm_num)
  refine ⟨_, _, _, _, rfl, rfl, rfl, rfl, rfl, rfl, rfl, rfl, ?_, ?_, ?_, ?_, ?_, ?_, ?_, ?_, ?_⟩
  · rw [ha, hb, hc, hd]
    simp only [ne_eq, Vec3.mk.injEq, not_and]
    refine ⟨?_, ?_, ?_, ?_, ?_, ?_⟩ <;> intros <;> linarith
  · refine ⟨4 * (1 / P.sqrt 3), by linarith, ?_⟩
    rw [ha, hb, hc, hd]
    simp only [triangleCross, Vec3.sub, Vec3.cross, Vec3.neg, Vec3.smul, Vec3.mk.injEq]
    refine ⟨by ring, by ring, by ring⟩
  · refine ⟨4 * (1 / P.sqrt 3), by linarith, ?_⟩
    rw [ha, hb, hc, hd]
    simp only [triangleCross, Vec3.sub, Vec3.cross, Vec3.neg, Vec3.smul, Vec3.mk.injEq]
    refine ⟨by ring, by ring, by ring⟩
  · refine ⟨4 * (1 / P.sqrt 3), by linarith, ?_⟩
    rw [ha, hb, hc, hd]
    simp only [triangleCross, Vec3.sub, Vec3.cross, Vec3.neg, Vec3.smul, Vec3.mk.injEq]
    refine ⟨by ring, by ring, by ring⟩
  · refine ⟨4 * (1 / P.sqrt 3), by linarith, ?_⟩
    rw [ha, hb, hc, hd]
    simp only [triangleCross, Vec3.sub, Vec3.cross, Vec3.neg, Vec3.smul, Vec3.mk.injEq]
    refine ⟨by ring, by ring, by ring⟩
  all_goals
    rw [ha, hb, hc, hd]
    simp only [Vec3.neg, Vec3.dot]
    refine ⟨?_, ?_, ?_⟩ <;> nlinarith

/-- Witness for C30: the real square root of 3 is positive. -/
theorem makeTetrahedron_faces_witness :
    0 < Real.sqrt 3 ∧
      ∃ a b c d : Vec3 ℝ,
        (makeTetrahedron ⟨2, 4, true⟩
            (⟨Real.sqrt, Real.cos, Real.sin, Real.pi, fun _ _ => 1⟩ : Prims ℝ) 1).vertices.map
          Vertex.position = [a, d, b, a, c, d, a, b, c, b, d, c] ∧
        (a ≠ b ∧ a ≠ c ∧ a ≠ d ∧ b ≠ c ∧ b ≠ d ∧ c ≠ d) ∧
        ∃ t, 0 < t ∧ triangleCross a d b = c.neg.smul t := by
  have h3 : 0 < Real.sqrt 3 := Real.sqrt_pos.mpr (by norm_num)
  obtain ⟨a, b, c, d, _, _, _, _, _, _, hp, _, hne, h1, _⟩ :=
    makeTetrahedron_faces ⟨2, 4, true⟩
      (⟨Real.sqrt, Real.cos, Real.sin, Real.pi, fun _ _ => 1⟩ : Prims ℝ) 1 h3
  exact ⟨h3, a, b, c, d, hp, hne, h1⟩

end TetrahedronClaims


/-! ## Colours of the generators -/

section PaletteLemmas

variable {α : Type} [Field α]

theorem colorAt_mem (k : Nat) (hk : k < 6) : (colorAt k : Vec3 α) ∈ (COLORS : List (Vec3 α)) := by
  have h := colors_getElem? (α := α) k hk
  exact List.getElem?_mem h

theorem paletteGroup_of_colorAt (g : List (Vertex α)) (k : Nat) (hk : k < 6)
    (h : ∀ v ∈ g, v.color = colorAt k) : PaletteGroup g :=
  ⟨colorAt k, colorAt_mem k hk, h⟩

theorem paletteGroups_nil (sizes : List Nat) : PaletteGroups sizes ([] : List (Vertex α)) :=
  ⟨[], rfl, fun g hg => by cases hg⟩

theorem paletteGroups_single (sizes : List Nat) (g : List (Vertex α)) (hl : g.length ∈ sizes)
    (h : PaletteGroup g) : PaletteGroups sizes g :=
  ⟨[g], by simp, fun g' hg' => by
    rw [List.mem_singleton] at hg'
    subst hg'
    exact ⟨hl, h⟩⟩

theorem paletteGroups_append (sizes : List Nat) (xs ys : List (Vertex α))
    (hx : PaletteGroups sizes xs) (hy : PaletteGroups sizes ys) :
    PaletteGroups sizes (xs ++ ys) := by
  obtain ⟨gx, rfl, hgx⟩ := hx
  obtain ⟨gy, rfl, hgy⟩ := hy
  refine ⟨gx ++ gy, by simp, fun g hg => ?_⟩
  rcases List.mem_append.mp hg with h | h
  · exact hgx g h
  · exact hgy g h

theorem paletteGroups_flatMap {β : Type} (sizes : List Nat) (f : β → List (Vertex α))
    (l : List β) (h : ∀ b, PaletteGroups sizes (f b)) : PaletteGroups sizes (l.flatMap f) := by
  induction l with
  | nil => exact paletteGroups_nil sizes
  | cons b l ih =>
    rw [List.flatMap_cons]
    exact paletteGroups_append sizes _ _ (h b) ih

theorem paletteGroups_mem (sizes : List Nat) (vs : List (Vertex α))
    (h : PaletteGroups sizes vs) : ∀ v ∈ vs, v.color ∈ (COLORS : List (Vec3 α)) := by
  obtain ⟨groups, rfl, hg⟩ := h
  intro v hv
  obtain ⟨g, hgm, hvg⟩ := List.mem_flatten.mp hv
  obtain ⟨_, c, hc, hall⟩ := hg g hgm
  rw [hall v hvg]
  exact hc

theorem makeTetrahedron_paletteGroups (H : Header) (P : Prims α) (radius : α) :
    PaletteGroups [3] (makeTetrahedron H P radius).vertices := by
  have h : (makeTetrahedron H P radius).vertices =
      ((makeTetrahedron H P radius).vertices.take 3 ++
        ((makeTetrahedron H P radius).vertices.drop 3).take 3) ++
      (((makeTetrahedron H P radius).vertices.drop 6).take 3 ++
        (makeTetrahedron H P radius).vertices.drop 9) := rfl
  rw [h]
  refine paletteGroups_append _ _ _ (paletteGroups_append _ _ _ ?_ ?_)
    (paletteGroups_append _ _ _ ?_ ?_)
  · exact paletteGroups_single _ _ (by simp [makeTetrahedron])
      (paletteGroup_of_colorAt _ 0 (by decide) (by simp [makeTetrahedron]))
  · exact paletteGroups_single _ _ (by simp [makeTetrahedron])
      (paletteGroup_of_colorAt _ 1 (by decide) (by simp [makeTetrahedron]))
  · exact paletteGroups_single _ _ (by simp [makeTetrahedron])
      (paletteGroup_of_colorAt _ 2 (by decide) (by simp [makeTetrahedron]))
  · exact paletteGroups_single _ _ (by simp [makeTetrahedron])
      (paletteGroup_of_colorAt _ 3 (by decide) (by simp [makeTetrahedron]))

theorem coneSegment_paletteGroups (P : Prims α) (radius length : α) (i : Nat) :
    PaletteGroups [3] (coneSegmentVertices P radius length i) := by
  have h : coneSegmentVertices P radius length i =
      (coneSegmentVertices P radius length i).take 3 ++
        (coneSegmentVertices P radius length i).drop 3 := rfl
  rw [h]
  refine paletteGroups_append _ _ _ ?_ ?_
  · exact paletteGroups_single _ _ (by simp [coneSegmentVertices])
      (paletteGroup_of_colorAt _ (i % 6) (Nat.mod_lt _ (by decide))
        (by simp [coneSegmentVertices]))
  · exact paletteGroups_single _ _ (by simp [coneSegmentVertices])
      (paletteGroup_of_colorAt _ ((i + 1) % 6) (Nat.mod_lt _ (by decide))
        (by simp [coneSegmentVertices]))

theorem makeCone_paletteGroups (H : Header) (P : Prims α) (radius length : α) :
    PaletteGroups [3] (makeCone H P radius length).vertices := by
  rw [(makeCone_data H P radius length).1]
  exact paletteGroups_flatMap _ _ _ (coneSegment_paletteGroups P radius length)

end PaletteLemmas

section CylinderPalette

variable {α : Type} [LinearOrderedField α] [FloorRing α]

omit [FloorRing α] in
theorem cylinderCap_paletteGroups (P : Prims α) (radius length : α) (i : Nat) :
    PaletteGroups [6, 4] (cylinderCapVertices P radius length i) :=
  paletteGroups_single _ _ (by simp [cylinderCapVertices])
    (paletteGroup_of_colorAt _ ((i + 1) % 6) (Nat.mod_lt _ (by decide))
      (by simp [cylinderCapVertices]))

theorem cylinderQuad_paletteGroups (P : Prims α) (radius length z : α) (i : Nat) :
    PaletteGroups [6, 4] (cylinderQuadVertices P radius length z i) :=
  paletteGroups_single _ _ (by simp [cylinderQuadVertices])
    (paletteGroup_of_colorAt _ ((i + ⌊z⌋₊) % 6) (Nat.mod_lt _ (by decide))
      (by simp [cylinderQuadVertices]))

theorem makeCylinder_paletteGroups (H : Header) (P : Prims α) (fuel : Nat) (radius length : α)
    (hf : ⌈length⌉₊ < fuel) :
    ∃ m, makeCylinder H P fuel radius length = some m ∧ PaletteGroups [6, 4] m.vertices := by
  obtain ⟨m, e, hv⟩ := makeCylinder_verts H P fuel radius length hf
  refine ⟨m, e, ?_⟩
  rw [hv]
  refine paletteGroups_append _ _ _ ?_ ?_
  · exact paletteGroups_flatMap _ _ _ (cylinderCap_paletteGroups P radius length)
  · exact paletteGroups_flatMap _ _ _
      (fun j => paletteGroups_flatMap _ _ _ (cylinderQuad_paletteGroups P radius length _))

end CylinderPalette

/-- C21 as stated fails for `makeCube`: vertex 3 of `makeCube(1)` is white,
`(1, 1, 1)`, which is no entry of `COLORS`, and the vertices 0 and 1 of the top
face are red and green, two different colours on one face. -/
theorem makeCube_colours_not_from_palette :
    (∃ v ∈ (makeCube ⟨2, 4, true⟩ (1 : ℚ)).vertices,
        v.color = ⟨1, 1, 1⟩ ∧ v.color ∉ (COLORS : List (Vec3 ℚ))) ∧
      ((makeCube ⟨2, 4, true⟩ (1 : ℚ)).vertices.take 4).map Vertex.color =
        [⟨1, 0, 0⟩, ⟨0, 1, 0⟩, ⟨0, 0, 1⟩, ⟨1, 1, 1⟩] ∧
      (⟨1, 0, 0⟩ : Vec3 ℚ) ≠ ⟨0, 1, 0⟩ := by
  refine ⟨⟨⟨⟨1 * -1, 1 * 1, 1 * -1⟩, ⟨1, 1, 1⟩, ⟨0, 0, 0⟩, ⟨0, 0⟩⟩, ?_, rfl, ?_⟩, ?_, ?_⟩
  · simp [makeCube, cubeLocalVertices, scale_mulVec3]
  · simp [COLORS]
  · simp [makeCube, cubeLocalVertices]
  · simp


/-! ## Colour channels stay in the unit interval -/

section ColourPreservation

variable {α : Type} [Field α]

theorem middlePointIndex_preserves (P : Prims α) (Q : Vertex α → Prop)
    (hmid : ∀ v1 v2, Q v1 → Q v2 → Q (middleVertex P v1 v2))
    (i1 i2 : Nat) (verts verts' : List (Vertex α)) (cache cache' : Cache) (r : Nat)
    (h : middlePointIndex P i1 i2 verts cache = .ok (r, verts', cache'))
    (hq : ∀ v ∈ verts, Q v) : ∀ v ∈ verts', Q v := by
  rcases middlePointIndex_inv P i1 i2 verts verts' cache cache' r h with
    ⟨_, rfl, _⟩ | ⟨_, v1, v2, h1, h2, _, rfl, _⟩
  · exact hq
  · intro v hv
    rcases List.mem_append.mp hv with hv | hv
    · exact hq v hv
    · rw [List.mem_singleton] at hv
      subst hv
      exact hmid v1 v2 (hq v1 (List.getElem?_mem h1)) (hq v2 (List.getElem?_mem h2))

theorem scalePositionAt_preserves (Q : Vertex α → Prop)
    (hpos : ∀ (v : Vertex α) p, Q v → Q { v with position := p })
    (verts verts' : List (Vertex α)) (a : Nat) (radius : α)
    (h : scalePositionAt verts a radius = .ok verts')
    (hq : ∀ v ∈ verts, Q v) : ∀ v ∈ verts', Q v := by
  unfold scalePositionAt at h
  cases hv : verts[a]? with
  | none => simp [hv] at h
  | some w =>
    simp only [hv, Except.ok.injEq] at h
    subst h
    intro v hm
    rcases List.mem_or_eq_of_mem_set hm with hm | rfl
    · exact hq v hm
    · exact hpos w _ (hq w (List.getElem?_mem hv))

theorem splitTriangle_preserves (P : Prims α) (Q : Vertex α → Prop)
    (hmid : ∀ v1 v2, Q v1 → Q v2 → Q (middleVertex P v1 v2))
    (hpos : ∀ (v : Vertex α) p, Q v → Q { v with position := p })
    (radius : α) (v_0 v_1 v_2 : Nat)
    (verts verts' : List (Vertex α)) (cache cache' : Cache) (pushed : List Nat)
    (h : splitTriangle P radius v_0 v_1 v_2 verts cache = .ok (pushed, verts', cache'))
    (hq : ∀ v ∈ verts, Q v) : ∀ v ∈ verts', Q v := by
  obtain ⟨a, b, c, vs1, c1, vs2, c2, vs3, vs4, vs5, h1, h2, h3, h4, h5, h6, _⟩ :=
    splitTriangle_inv P radius v_0 v_1 v_2 verts verts' cache cache' pushed h
  have q1 := middlePointIndex_preserves P Q hmid _ _ _ _ _ _ _ h1 hq
  have q2 := middlePointIndex_preserves P Q hmid _ _ _ _ _ _ _ h2 q1
  have q3 := middlePointIndex_preserves P Q hmid _ _ _ _ _ _ _ h3 q2
  have q4 := scalePositionAt_preserves Q hpos _ _ _ _ h4 q3
  have q5 := scalePositionAt_preserves Q hpos _ _ _ _ h5 q4
  exact scalePositionAt_preserves Q hpos _ _ _ _ h6 q5

theorem subdividePass_preserves (P : Prims α) (Q : Vertex α → Prop)
    (hmid : ∀ v1 v2, Q v1 → Q v2 → Q (middleVertex P v1 v2))
    (hpos : ∀ (v : Vertex α) p, Q v → Q { v with position := p })
    (radius : α) (localIndices : List Nat) :
    ∀ (verts verts' : List (Vertex α)) (cache cache' : Cache) (newIndices : List Nat),
      subdividePass P radius localIndices verts cache = .ok (newIndices, verts', cache') →
      (∀ v ∈ verts, Q v) → ∀ v ∈ verts', Q v := by
  induction localIndices using triangleEdges.induct with
  | case1 v_0 v_1 v_2 rest ih =>
    intro verts verts' cache cache' newIndices h hq
    rw [subdividePass] at h
    cases hs : splitTriangle P radius v_0 v_1 v_2 verts cache with
    | error f => simp [hs] at h
    | ok r =>
      obtain ⟨pushed, vs1, c1⟩ := r
      simp only [hs] at h
      cases hr : subdividePass P radius rest vs1 c1 with
      | error f => simp [hr] at h
      | ok r2 =>
        obtain ⟨new', vs2, c2⟩ := r2
        simp only [hr, Except.ok.injEq, Prod.mk.injEq] at h
        obtain ⟨_, rfl, _⟩ := h
        exact ih vs1 vs2 c1 c2 new' hr
          (splitTriangle_preserves P Q hmid hpos radius _ _ _ _ _ _ _ _ hs hq)
  | case2 l hl =>
    intro verts verts' cache cache' newIndices h hq
    unfold subdividePass at h
    split at h
    · simp only [Except.ok.injEq, Prod.mk.injEq] at h
      obtain ⟨_, rfl, _⟩ := h
      exact hq
    · exact absurd rfl (hl _ _ _ _)
    · simp at h

theorem tessellate_preserves (P : Prims α) (Q : Vertex α → Prop)
    (hmid : ∀ v1 v2, Q v1 → Q v2 → Q (middleVertex P v1 v2))
    (hpos : ∀ (v : Vertex α) p, Q v → Q { v with position := p })
    (radius : α) (L : Nat) :
    ∀ (localIndices : List Nat) (verts verts' : List (Vertex α)) (cache cache' : Cache)
      (newIndices : List Nat),
      tessellate P radius L localIndices verts cache = .ok (newIndices, verts', cache') →
      (∀ v ∈ verts, Q v) → ∀ v ∈ verts', Q v := by
  induction L with
  | zero =>
    intro localIndices verts verts' cache cache' newIndices h hq
    simp only [tessellate, Except.ok.injEq, Prod.mk.injEq] at h
    obtain ⟨_, rfl, _⟩ := h
    exact hq
  | succ L ih =>
    intro localIndices verts verts' cache cache' newIndices h hq
    rw [tessellate] at h
    cases hs : subdividePass P radius localIndices verts cache with
    | error f => simp [hs] at h
    | ok r =>
      obtain ⟨idx, vs1, c1⟩ := r
      simp only [hs] at h
      exact ih idx vs1 verts' c1 cache' newIndices h
        (subdividePass_preserves P Q hmid hpos radius localIndices _ _ _ _ _ hs hq)

theorem makeSphere_preserves (P : Prims α) (Q : Vertex α → Prop)
    (hmid : ∀ v1 v2, Q v1 → Q v2 → Q (middleVertex P v1 v2))
    (hpos : ∀ (v : Vertex α) p, Q v → Q { v with position := p })
    (base m : Mesh α) (radius : α) (L : Nat)
    (h : makeSphere P (some base) radius L = .ok m)
    (hq : ∀ v ∈ base.vertices, Q v) : ∀ v ∈ m.vertices, Q v := by
  simp only [makeSphere] at h
  cases ht : tessellate P radius L base.indices (projectBase P radius base.vertices) [] with
  | error f => simp [ht] at h
  | ok r =>
    obtain ⟨idx, vs, c⟩ := r
    simp only [ht, Except.ok.injEq] at h
    subst h
    refine tessellate_preserves P Q hmid hpos radius L _ _ _ _ _ _ ht ?_
    intro v hv
    obtain ⟨w, hw, rfl⟩ := List.mem_map.mp hv
    exact hpos w _ (hq w hw)

theorem makeEllipse_preserves (P : Prims α) (Q : Vertex α → Prop)
    (hmid : ∀ v1 v2, Q v1 → Q v2 → Q (middleVertex P v1 v2))
    (hpos : ∀ (v : Vertex α) p, Q v → Q { v with position := p })
    (base e : Mesh α) (r_x r_y r_z : α) (L : Nat)
    (h : makeEllipse P (some base) r_x r_y r_z L = .ok e)
    (hq : ∀ v ∈ base.vertices, Q v) : ∀ v ∈ e.vertices, Q v := by
  simp only [makeEllipse] at h
  cases hs : makeSphere P (some base) 1 L with
  | error f => simp [hs] at h
  | ok m =>
    simp only [hs, Except.ok.injEq] at h
    subst h
    intro v hv
    obtain ⟨w, hw, rfl⟩ := List.mem_map.mp hv
    exact hpos w _ (makeSphere_preserves P Q hmid hpos base m 1 L hs hq w hw)

end ColourPreservation

section UnitColours

variable {α : Type} [LinearOrderedField α]

theorem unitChannels_of_palette (c : Vec3 α) (h : c ∈ (COLORS : List (Vec3 α))) :
    UnitChannels c := by
  simp only [COLORS, List.mem_cons, List.mem_singleton, List.not_mem_nil, or_false] at h
  rcases h with rfl | rfl | rfl | rfl | rfl | rfl <;> norm_num [UnitChannels]

theorem unitChannels_middleVertex (P : Prims α) (v1 v2 : Vertex α)
    (h1 : UnitChannels v1.color) (h2 : UnitChannels v2.color) :
    UnitChannels (middleVertex P v1 v2).color := by
  obtain ⟨⟨a1, a2⟩, ⟨a3, a4⟩, a5, a6⟩ := h1
  obtain ⟨⟨b1, b2⟩, ⟨b3, b4⟩, b5, b6⟩ := h2
  simp only [UnitChannels, middleVertex, Vec3.add, Vec3.smul]
  refine ⟨⟨?_, ?_⟩, ⟨?_, ?_⟩, ?_, ?_⟩ <;> linarith

theorem makeCube_unitColors (H : Header) (side : α) : UnitColors (makeCube H side).vertices := by
  intro v hv
  simp only [makeCube, List.mem_map] at hv
  obtain ⟨w, hw, rfl⟩ := hv
  simp only [cubeLocalVertices, List.mem_cons, List.mem_singleton, List.not_mem_nil,
    or_false] at hw
  rcases hw with rfl | rfl | rfl | rfl | rfl | rfl | rfl | rfl | rfl | rfl | rfl | rfl |
    rfl | rfl | rfl | rfl | rfl | rfl | rfl | rfl | rfl | rfl | rfl | rfl <;>
    norm_num [UnitChannels, dec]

theorem loadObj_unitColors (H : Header) (parsed : ParseResult α) (texture : Option TextureFile)
    (m : Mesh α) (h : loadObj H parsed texture = .ok (some m)) : UnitColors m.vertices := by
  intro v hv
  obtain ⟨i, hi, rfl⟩ := List.getElem_of_mem hv
  have hc := loadObj_vertex_color H parsed texture m h i hi
  simp only [List.get_eq_getElem] at hc
  rw [hc]
  exact unitChannels_of_palette _ (colorAt_mem _ (Nat.mod_lt _ (by decide)))

end UnitColours

section UnitColoursClaim

variable {α : Type} [LinearOrderedField α] [FloorRing α]

/-- C22: every colour channel the generators store lies in `[0, 1]`: this holds
for all vertices of `makeCube`, `makeTetrahedron`, `makeCone`, `makeCylinder`
and of every mesh `loadObj` returns, and `makeSphere` and `makeEllipse` keep it
- on a base mesh with the mesh invariant and unit colours they return a mesh
with unit colours, and whatever the base mesh, a mesh they return has unit
colours when the base has, a midpoint colour being the mean of two. -/
theorem generator_colours_are_unit (H : Header) (P : Prims α) (fuel : Nat)
    (side radius length : α) (hf : ⌈length⌉₊ < fuel) :
    UnitColors (makeCube H side).vertices ∧
      UnitColors (makeTetrahedron H P radius).vertices ∧
      UnitColors (makeCone H P radius length).vertices ∧
      (∃ m, makeCylinder H P fuel radius length = some m ∧ UnitColors m.vertices) ∧
      (∀ (parsed : ParseResult α) (texture : Option TextureFile) (m : Mesh α),
        loadObj H parsed texture = .ok (some m) → UnitColors m.vertices) ∧
      (∀ (base : Mesh α) (r : α) (L : Nat), MeshInvariant base → UnitColors base.vertices →
        ∃ m, makeSphere P (some base) r L = .ok m ∧ UnitColors m.vertices) ∧
      (∀ (base : Mesh α) (r_x r_y r_z : α) (L : Nat), MeshInvariant base →
        UnitColors base.vertices →
        ∃ e, makeEllipse P (some base) r_x r_y r_z L = .ok e ∧ UnitColors e.vertices) ∧
      (∀ (base m : Mesh α) (r : α) (L : Nat), makeSphere P (some base) r L = .ok m →
        UnitColors base.vertices → UnitColors m.vertices) ∧
      (∀ (base e : Mesh α) (r_x r_y r_z : α) (L : Nat),
        makeEllipse P (some base) r_x r_y r_z L = .ok e →
        UnitColors base.vertices → UnitColors e.vertices) := by
  have hmid : ∀ v1 v2 : Vertex α, UnitChannels v1.color → UnitChannels v2.color →
      UnitChannels (middleVertex P v1 v2).color := unitChannels_middleVertex P
  have hpos : ∀ (v : Vertex α) (p : Vec3 α), UnitChannels v.color →
      UnitChannels ({ v with position := p } : Vertex α).color := fun _ _ h => h
  have hsphere : ∀ (base m : Mesh α) (r : α) (L : Nat), makeSphere P (some base) r L = .ok m →
      UnitColors base.vertices → UnitColors m.vertices := fun base m r L h hq =>
    makeSphere_preserves P (fun v => UnitChannels v.color) hmid hpos base m r L h hq
  have hellipse : ∀ (base e : Mesh α) (r_x r_y r_z : α) (L : Nat),
      makeEllipse P (some base) r_x r_y r_z L = .ok e →
      UnitColors base.vertices → UnitColors e.vertices := fun base e r_x r_y r_z L h hq =>
    makeEllipse_preserves P (fun v => UnitChannels v.color) hmid hpos base e r_x r_y r_z L h hq
  have hreturns : ∀ (base : Mesh α) (r : α) (L : Nat), MeshInvariant base →
      ∃ m, makeSphere P (some base) r L = .ok m := by
    intro base r L hinv
    obtain ⟨m, e, _⟩ := makeSphere_counts P base r L (base.indices.length / 3)
      (by have := hinv.1; omega) hinv.2
    exact ⟨m, e⟩
  refine ⟨makeCube_unitColors H side, ?_, ?_, ?_, loadObj_unitColors H, ?_, ?_, hsphere,
    hellipse⟩
  · intro v hv
    exact unitChannels_of_palette _
      (paletteGroups_mem _ _ (makeTetrahedron_paletteGroups H P radius) v hv)
  · intro v hv
    exact unitChannels_of_palette _
      (paletteGroups_mem _ _ (makeCone_paletteGroups H P radius length) v hv)
  · obtain ⟨m, e, hm⟩ := makeCylinder_paletteGroups H P fuel radius length hf
    exact ⟨m, e, fun v hv => unitChannels_of_palette _ (paletteGroups_mem _ _ hm v hv)⟩
  · intro base r L hinv hq
    obtain ⟨m, e⟩ := hreturns base r L hinv
    exact ⟨m, e, hsphere base m r L e hq⟩
  · intro base r_x r_y r_z L hinv hq
    obtain ⟨m, e⟩ := hreturns base 1 L hinv
    have he : makeEllipse P (some base) r_x r_y r_z L = .ok { m with
        vertices := m.vertices.map fun v =>
          { v with position := (mat3OfMat4 (glmScale ⟨r_x, r_y, r_z⟩)).mulVec3 v.position } } := by
      simp only [makeEllipse, e]
    exact ⟨_, he, hellipse base _ r_x r_y r_z L he hq⟩

end UnitColoursClaim

/-- Witness for C22: the shapes as the program builds them, a cylinder and a cone
of radius 1 and length 4, a cube of side 1 and a sphere of radius 2 tessellated
once from the sample icosahedron. -/
theorem generator_colours_are_unit_witness :
    ⌈(4 : ℚ)⌉₊ < 5 ∧
      UnitColors (makeCube ⟨2, 4, true⟩ (1 : ℚ)).vertices ∧
      UnitColors (makeCone ⟨2, 4, true⟩ samplePrims (1 : ℚ) 4).vertices ∧
      (∃ m, makeCylinder ⟨2, 4, true⟩ samplePrims 5 (1 : ℚ) 4 = some m ∧
        UnitColors m.vertices) ∧
      ∃ m, makeSphere samplePrims (some (sampleIcosahedron : Mesh ℚ)) 2 1 = .ok m ∧
        UnitColors m.vertices := by
  have h4 : ⌈(4 : ℚ)⌉₊ = 4 := by
    have : ((4 : ℕ) : ℚ) = 4 := by norm_num
    rw [← this, Nat.ceil_natCast]
  have hf : ⌈(4 : ℚ)⌉₊ < 5 := lt_of_eq_of_lt h4 (by norm_num)
  obtain ⟨h1, _, h3, h4, _, h6, _⟩ :=
    generator_colours_are_unit ⟨2, 4, true⟩ samplePrims 5 (1 : ℚ) 1 4 hf
  refine ⟨hf, h1, h3, h4, h6 sampleIcosahedron 2 1 ?_ ?_⟩
  · exact ⟨by decide, by decide⟩
  · simp [UnitColors, sampleIcosahedron, icosahedronCorner, UnitChannels]


/-! ## Copying a mesh and the coherence of its cached transform -/

section CopyClaims

variable {α : Type} [Field α]

theorem glmTranslate_ne_one : (glmTranslate ⟨1, 0, 0⟩ : Mat4 ℚ) ≠ 1 := by
  intro h
  have h03 : (glmTranslate ⟨1, 0, 0⟩ : Mat4 ℚ) 0 3 = 1 := rfl
  have h1 : (1 : Mat4 ℚ) 0 3 = 0 := rfl
  rw [h, h1] at h03
  exact zero_ne_one h03

theorem copy_eq_ok (rhs cp : Mesh α) (changed0 solid0 : Bool)
    (h : rhs.copy changed0 solid0 = .ok cp) :
    (cp.vertices = rhs.vertices ∧ cp.indices = rhs.indices ∧
      cp.getNumVertices = rhs.getNumVertices ∧ cp.getNumIndices = rhs.getNumIndices ∧
      cp.textureID = rhs.textureID ∧ cp.numBuffers = rhs.numBuffers ∧
      cp.drawMode = rhs.drawMode) ∧
    (cp.translate_M = 1 ∧ cp.rotate_M = 1 ∧ cp.scale_M = 1 ∧ cp.revolve_M = 1 ∧
      cp.transform_MTW = 1 ∧ cp.changed = changed0 ∧ cp.getTransform.1 = 1) := by
  unfold Mesh.copy at h
  split at h
  · simp at h
  · simp only [Except.ok.injEq] at h
    subst h
    refine ⟨⟨rfl, rfl, rfl, rfl, rfl, rfl, rfl⟩, rfl, rfl, rfl, rfl, rfl, rfl, ?_⟩
    cases changed0 <;> simp [Mesh.getTransform, mat4Identity]

/-- Copying a mesh whose buffers were never generated reads through the null
pointer, as soon as the buffer count is not 0. -/
theorem copy_faults_without_buffers (H : Header) (changed0 solid0 : Bool)
    (h : 0 < H.DEFAULT_NUM_BUFFERS) :
    (Mesh.new H : Mesh α).copy changed0 solid0 = .error Fault.nullDeref := by
  simp [Mesh.copy, Mesh.new, h]

/-- C33, evaluated: the copy constructor copies the vertex and index data, the
counts, the texture ID, the buffer count and the draw mode, but none of the
transform state: it returns whenever the original holds its `numBuffers` buffer
names, and the four components and the cached matrix of every copy are the
identity, whatever they were in the original. Take the cube of `makeCube(1)`
with the two buffer names 1 and 2 that its `genBufferArrayID` call got from the
driver, and translate it by `(1, 0, 0)`: the copy constructor returns,
`getTransform` gives the translation on the original and the identity on the
copy, whichever values the two flags that the constructor leaves unset happen
to have. -/
theorem copy_drops_transform_state (rhs : Mesh α) (changed0 solid0 : Bool) :
    ((rhs.numBuffers ≤ rhs.bufferIDs.length → ∃ cp, rhs.copy changed0 solid0 = .ok cp) ∧
      ∀ cp, rhs.copy changed0 solid0 = .ok cp →
        (cp.vertices = rhs.vertices ∧ cp.indices = rhs.indices ∧
          cp.getNumVertices = rhs.getNumVertices ∧ cp.getNumIndices = rhs.getNumIndices ∧
          cp.textureID = rhs.textureID ∧ cp.numBuffers = rhs.numBuffers ∧
          cp.drawMode = rhs.drawMode) ∧
        (cp.translate_M = 1 ∧ cp.rotate_M = 1 ∧ cp.scale_M = 1 ∧ cp.revolve_M = 1 ∧
          cp.transform_MTW = 1 ∧ cp.changed = changed0 ∧ cp.getTransform.1 = 1)) ∧
    ∃ cp : Mesh ℚ,
      (({ makeCube ⟨2, 4, true⟩ (1 : ℚ) with bufferIDs := [1, 2] } : Mesh ℚ).translateModel
        ⟨1, 0, 0⟩).copy changed0 solid0 = .ok cp ∧
      ({ makeCube ⟨2, 4, true⟩ (1 : ℚ) with bufferIDs := [1, 2] } : Mesh ℚ).numBuffers = 2 ∧
      cp.vertices = (makeCube ⟨2, 4, true⟩ (1 : ℚ)).vertices ∧
      cp.bufferIDs = [1, 2] ∧
      (({ makeCube ⟨2, 4, true⟩ (1 : ℚ) with bufferIDs := [1, 2] } : Mesh ℚ).translateModel
        ⟨1, 0, 0⟩).translate_M = glmTranslate ⟨1, 0, 0⟩ ∧
      cp.translate_M = 1 ∧
      (({ makeCube ⟨2, 4, true⟩ (1 : ℚ) with bufferIDs := [1, 2] } : Mesh ℚ).translateModel
        ⟨1, 0, 0⟩).getTransform.1 = glmTranslate ⟨1, 0, 0⟩ ∧
      cp.getTransform.1 = 1 ∧
      cp.getTransform.1 ≠
        (({ makeCube ⟨2, 4, true⟩ (1 : ℚ) with bufferIDs := [1, 2] } : Mesh ℚ).translateModel
          ⟨1, 0, 0⟩).getTransform.1 := by
  refine ⟨⟨fun hb => ?_, fun cp h => copy_eq_ok rhs cp changed0 solid0 h⟩, ?_⟩
  · exact ⟨_, by rw [Mesh.copy, if_neg (by omega)]⟩
  have horig : (({ makeCube ⟨2, 4, true⟩ (1 : ℚ) with bufferIDs := [1, 2] } : Mesh ℚ).translateModel
      ⟨1, 0, 0⟩).getTransform.1 = glmTranslate ⟨1, 0, 0⟩ := by
    simp [Mesh.getTransform, Mesh.translateModel, makeCube, Mesh.new, mat4Identity]
  obtain ⟨cp, hcp⟩ : ∃ cp, (({ makeCube ⟨2, 4, true⟩ (1 : ℚ) with bufferIDs := [1, 2] } :
      Mesh ℚ).translateModel ⟨1, 0, 0⟩).copy changed0 solid0 = .ok cp := ⟨_, rfl⟩
  obtain ⟨⟨hv, _⟩, ht, _, _, _, _, _, hT⟩ := copy_eq_ok _ cp changed0 solid0 hcp
  have hb : cp.bufferIDs = [1, 2] := by
    unfold Mesh.copy at hcp
    simp only [Mesh.translateModel, makeCube, Mesh.new] at hcp
    simp only [List.length_cons, List.length_nil, Nat.lt_irrefl, if_false, Except.ok.injEq]
      at hcp
    subst hcp
    rfl
  refine ⟨cp, hcp, rfl, hv, hb, rfl, ht, horig, hT, ?_⟩
  rw [hT, horig]
  exact fun h => glmTranslate_ne_one h.symm

theorem coherent_new (H : Header) : (Mesh.new H : Mesh α).Coherent := by
  right
  simp [Mesh.new, mat4Identity]

theorem coherent_step (P : Prims α) (m : Mesh α) (op : TransformOp α) (h : m.Coherent) :
    (m.step P op).Coherent := by
  cases op with
  | mutate c => cases c <;> exact Or.inl rfl
  | getTransform =>
    unfold Mesh.step Mesh.getTransform
    by_cases hc : m.changed = true
    · right
      simp [hc]
    · rcases h with h | h
      · exact absurd h hc
      · right
        simpa [hc] using h
  | clearTransform =>
    right
    simp [Mesh.step, Mesh.clearTransform, mat4Identity]

theorem coherent_run (P : Prims α) (ops : List (TransformOp α)) :
    ∀ m : Mesh α, m.Coherent → (m.run P ops).Coherent := by
  induction ops with
  | nil => intro m h; exact h
  | cons op ops ih => intro m h; exact ih _ (coherent_step P m op h)

theorem getTransform_of_coherent (m : Mesh α) (h : m.Coherent) :
    m.getTransform.1 = m.revolve_M * m.translate_M * m.rotate_M * m.scale_M := by
  unfold Mesh.getTransform
  by_cases hc : m.changed = true
  · simp [hc]
  · rcases h with h | h
    · exact absurd h hc
    · simpa [hc] using h

/-- C35: every state that a default-constructed mesh reaches by a sequence of
`translateModel`, `rotateModel`, `scaleModel`, `revolveModel`, `getTransform`
and `clearTransform` calls is coherent - its dirty flag is set or its cached
matrix is `revolve * translate * rotate * scale` of its current components -
each call keeps a coherent mesh coherent, and `getTransform` on a reachable
state returns that product and leaves a coherent state behind. -/
theorem reachable_states_are_coherent (H : Header) (P : Prims α)
    (ops : List (TransformOp α)) :
    ((Mesh.new H : Mesh α).run P ops).Coherent ∧
      ((Mesh.new H : Mesh α).run P ops).getTransform.1 =
        ((Mesh.new H : Mesh α).run P ops).revolve_M *
          ((Mesh.new H : Mesh α).run P ops).translate_M *
          ((Mesh.new H : Mesh α).run P ops).rotate_M *
          ((Mesh.new H : Mesh α).run P ops).scale_M ∧
      ((Mesh.new H : Mesh α).run P ops).getTransform.2.Coherent ∧
      ∀ op : TransformOp α,
        ((Mesh.new H : Mesh α).run P (ops ++ [op])).Coherent := by
  have h := coherent_run P ops (Mesh.new H : Mesh α) (coherent_new H)
  refine ⟨h, getTransform_of_coherent _ h, coherent_step P _ TransformOp.getTransform h, ?_⟩
  intro op
  exact coherent_run P (ops ++ [op]) _ (coherent_new H)

end CopyClaims

/-! ## `loadObj` keeps indices it was given -/

/-- C34: `loadObj` does not check the indices against the vertex count. The
one-vertex model with the index list `0, 5, 0` and an empty error message loads
into a mesh of one vertex whose index list is `0, 5, 0`, so it holds the index
5, which is not below its vertex count 1. -/
theorem loadObj_keeps_stray_index :
    strayIndexModel.errMsg = "" ∧
      ∃ m : Mesh ℚ, loadObj ⟨2, 4, true⟩ strayIndexModel none = .ok (some m) ∧
        m.getNumVertices = 1 ∧ m.indices = [0, 5, 0] ∧
        ∃ i ∈ m.indices, m.getNumVertices ≤ i := by
  refine ⟨rfl, ?_⟩
  obtain ⟨m, hm⟩ := loadObj_returns ⟨2, 4, true⟩ strayIndexModel none strayIndexShape rfl rfl
    (by decide) (by decide) (fun _ h => by cases h)
  obtain ⟨s, hs, hl, _⟩ := loadObj_vertex ⟨2, 4, true⟩ strayIndexModel none m hm
  obtain ⟨_, s', hs', _, hi⟩ := loadObj_eq_some ⟨2, 4, true⟩ strayIndexModel none m hm
  have e : s = strayIndexShape := (Option.some.inj hs).symm
  have e' : s' = strayIndexShape := (Option.some.inj hs').symm
  subst e
  subst e'
  have hn : m.getNumVertices = 1 := hl
  have hidx : m.indices = [0, 5, 0] := by rw [hi]; rfl
  refine ⟨m, hm, hn, hidx, 5, ?_, ?_⟩
  · rw [hidx]; decide
  · rw [hn]; decide


/-! ## The tetrahedron and the cube against their size arguments -/

section SizeClaims

variable {α : Type} [LinearOrderedField α]

/-- C36: `makeTetrahedron` ignores its `radius` argument: for all `r1` and `r2`
the meshes `makeTetrahedron(r1)` and `makeTetrahedron(r2)` are the same mesh,
and when the library square root squares back to 3 at 3, every corner is at
squared distance 1, so at distance 1, from the origin. -/
theorem makeTetrahedron_ignores_radius (H : Header) (P : Prims α) (r1 r2 : α)
    (hs : P.sqrt 3 * P.sqrt 3 = 3) :
    makeTetrahedron H P r1 = makeTetrahedron H P r2 ∧
      (makeTetrahedron H P r1).vertices = (makeTetrahedron H P r2).vertices ∧
      (makeTetrahedron H P r1).indices = (makeTetrahedron H P r2).indices ∧
      ∀ v ∈ (makeTetrahedron H P r1).vertices, v.position.dot v.position = 1 := by
  refine ⟨rfl, rfl, rfl, ?_⟩
  have h0 : P.sqrt 3 ≠ 0 := by
    intro h
    rw [h, mul_zero] at hs
    norm_num at hs
  have hd : ∀ x y z : α, x * x = 1 → y * y = 1 → z * z = 1 →
      (Vec3.normalize P ⟨x, y, z⟩).dot (Vec3.normalize P ⟨x, y, z⟩) = 1 := by
    intro x y z hx hy hz
    rw [tetra_corner P x y z hx hy hz]
    simp only [Vec3.dot]
    have : x * (1 / P.sqrt 3) * (x * (1 / P.sqrt 3)) + y * (1 / P.sqrt 3) * (y * (1 / P.sqrt 3)) +
        z * (1 / P.sqrt 3) * (z * (1 / P.sqrt 3)) =
        (x * x + y * y + z * z) / (P.sqrt 3 * P.sqrt 3) := by
      field_simp
    rw [this, hx, hy, hz, hs]
    norm_num
  have ha := hd 1 1 1 (by norm_num) (by norm_num) (by norm_num)
  have hb := hd 1 (-1) (-1) (by norm_num) (by norm_num) (by norm_num)
  have hc := hd (-1) 1 (-1) (by norm_num) (by norm_num) (by norm_num)
  have hdd := hd (-1) (-1) 1 (by norm_num) (by norm_num) (by norm_num)
  intro v hv
  simp only [makeTetrahedron, List.mem_cons, List.mem_singleton, List.not_mem_nil,
    or_false] at hv
  rcases hv with rfl | rfl | rfl | rfl | rfl | rfl | rfl | rfl | rfl | rfl | rfl | rfl <;>
    assumption

/-- Witness for C36: the real square root, with the radii 1 and 5. -/
theorem makeTetrahedron_ignores_radius_witness :
    Real.sqrt 3 * Real.sqrt 3 = 3 ∧
      makeTetrahedron ⟨2, 4, true⟩
          (⟨Real.sqrt, Real.cos, Real.sin, Real.pi, fun _ _ => 1⟩ : Prims ℝ) 1 =
        makeTetrahedron ⟨2, 4, true⟩
          (⟨Real.sqrt, Real.cos, Real.sin, Real.pi, fun _ _ => 1⟩ : Prims ℝ) 5 ∧
      ∀ v ∈ (makeTetrahedron ⟨2, 4, true⟩
          (⟨Real.sqrt, Real.cos, Real.sin, Real.pi, fun _ _ => 1⟩ : Prims ℝ) 1).vertices,
        v.position.dot v.position = 1 := by
  have h3 : Real.sqrt 3 * Real.sqrt 3 = 3 := Real.mul_self_sqrt (by norm_num)
  obtain ⟨h1, _, _, h2⟩ := makeTetrahedron_ignores_radius ⟨2, 4, true⟩
    (⟨Real.sqrt, Real.cos, Real.sin, Real.pi, fun _ _ => 1⟩ : Prims ℝ) 1 5 h3
  exact ⟨h3, h1, h2⟩

theorem makeCube_positions (H : Header) (side : α) :
    (makeCube H side).vertices.map Vertex.position =
      (cubeLocalVertices : List (Vertex α)).map fun v =>
        ⟨side * v.position.x, side * v.position.y, side * v.position.z⟩ := by
  simp [makeCube, List.map_map, Function.comp_def, scale_mulVec3]

theorem makeCube_coordinates (H : Header) (side : α) :
    ∀ p ∈ (makeCube H side).vertices.map Vertex.position,
      (p.x = side ∨ p.x = -side) ∧ (p.y = side ∨ p.y = -side) ∧ (p.z = side ∨ p.z = -side) := by
  intro p hp
  rw [makeCube_positions, List.mem_map] at hp
  obtain ⟨v, hv, rfl⟩ := hp
  simp only [cubeLocalVertices, List.mem_cons, List.mem_singleton, List.not_mem_nil,
    or_false] at hv
  rcases hv with rfl | rfl | rfl | rfl | rfl | rfl | rfl | rfl | rfl | rfl | rfl | rfl |
    rfl | rfl | rfl | rfl | rfl | rfl | rfl | rfl | rfl | rfl | rfl | rfl <;> simp

/-- C32, amended: `makeCube(side)` is a cube centred at the origin whose edges
have the length `2 * side`: every coordinate of every vertex position is `side`
or `-side`, all eight such corners occur, with a position its negation occurs
too, and for `side > 0` any two corner positions that differ in exactly one
coordinate are at squared distance `(2 * side) ^ 2`, which is not `side ^ 2`. -/
theorem makeCube_edge_is_twice_side (H : Header) (side : α) (hs : 0 < side) :
    (∀ p ∈ (makeCube H side).vertices.map Vertex.position,
      (p.x = side ∨ p.x = -side) ∧ (p.y = side ∨ p.y = -side) ∧ (p.z = side ∨ p.z = -side)) ∧
    (∀ x ∈ [side, -side], ∀ y ∈ [side, -side], ∀ z ∈ [side, -side],
      (⟨x, y, z⟩ : Vec3 α) ∈ (makeCube H side).vertices.map Vertex.position) ∧
    (∀ p ∈ (makeCube H side).vertices.map Vertex.position,
      p.neg ∈ (makeCube H side).vertices.map Vertex.position) ∧
    (∀ p ∈ (makeCube H side).vertices.map Vertex.position,
      ∀ q ∈ (makeCube H side).vertices.map Vertex.position,
        (p.x ≠ q.x ∧ p.y = q.y ∧ p.z = q.z) ∨ (p.x = q.x ∧ p.y ≠ q.y ∧ p.z = q.z) ∨
          (p.x = q.x ∧ p.y = q.y ∧ p.z ≠ q.z) →
        (p.sub q).dot (p.sub q) = (2 * side) ^ 2 ∧ (p.sub q).dot (p.sub q) ≠ side ^ 2) ∧
    0 < 2 * side := by
  have hcorner : ∀ x ∈ [side, -side], ∀ y ∈ [side, -side], ∀ z ∈ [side, -side],
      (⟨x, y, z⟩ : Vec3 α) ∈ (makeCube H side).vertices.map Vertex.position := by
    intro x hx y hy z hz
    rw [makeCube_positions]
    simp only [List.mem_cons, List.mem_singleton, List.not_mem_nil, or_false] at hx hy hz
    rcases hx with rfl | rfl <;> rcases hy with rfl | rfl <;> rcases hz with rfl | rfl <;>
      simp [cubeLocalVertices]
  have hne : (2 * side) ^ 2 ≠ side ^ 2 := by
    have : side ^ 2 < (2 * side) ^ 2 := by nlinarith
    exact ne_of_gt this
  refine ⟨makeCube_coordinates H side, hcorner, ?_, ?_, by linarith⟩
  · intro p hp
    obtain ⟨hx, hy, hz⟩ := makeCube_coordinates H side p hp
    have e : p.neg = ⟨-p.x, -p.y, -p.z⟩ := rfl
    rw [e]
    apply hcorner
    · rcases hx with h | h <;> simp [h]
    · rcases hy with h | h <;> simp [h]
    · rcases hz with h | h <;> simp [h]
  · intro p hp q hq hd
    obtain ⟨px, py, pz⟩ := makeCube_coordinates H side p hp
    obtain ⟨qx, qy, qz⟩ := makeCube_coordinates H side q hq
    have key : (p.sub q).dot (p.sub q) = (2 * side) ^ 2 := by
      simp only [Vec3.sub, Vec3.dot]
      rcases hd with ⟨h1, h2, h3⟩ | ⟨h1, h2, h3⟩ | ⟨h1, h2, h3⟩
      · rw [h2, h3]
        rcases px with a | a <;> rcases qx with b | b <;> rw [a, b] at h1 ⊢ <;>
          first | exact absurd rfl h1 | ring
      · rw [h1, h3]
        rcases py with a | a <;> rcases qy with b | b <;> rw [a, b] at h2 ⊢ <;>
          first | exact absurd rfl h2 | ring
      · rw [h1, h2]
        rcases pz with a | a <;> rcases qz with b | b <;> rw [a, b] at h3 ⊢ <;>
          first | exact absurd rfl h3 | ring
    exact ⟨key, by rw [key]; exact hne⟩

end SizeClaims

/-- Witness for C32: the cube of the program, `makeCube(1)`, has the corners
`(±1, ±1, ±1)` and edges of length 2. -/
theorem makeCube_edge_is_twice_side_witness :
    (0 : ℚ) < 1 ∧
      (∀ x ∈ [(1 : ℚ), -1], ∀ y ∈ [(1 : ℚ), -1], ∀ z ∈ [(1 : ℚ), -1],
        (⟨x, y, z⟩ : Vec3 ℚ) ∈ (makeCube ⟨2, 4, true⟩ (1 : ℚ)).vertices.map Vertex.position) ∧
      ∀ p ∈ (makeCube ⟨2, 4, true⟩ (1 : ℚ)).vertices.map Vertex.position,
        ∀ q ∈ (makeCube ⟨2, 4, true⟩ (1 : ℚ)).vertices.map Vertex.position,
          (p.x ≠ q.x ∧ p.y = q.y ∧ p.z = q.z) ∨ (p.x = q.x ∧ p.y ≠ q.y ∧ p.z = q.z) ∨
            (p.x = q.x ∧ p.y = q.y ∧ p.z ≠ q.z) →
          (p.sub q).dot (p.sub q) = (2 * 1) ^ 2 ∧ (p.sub q).dot (p.sub q) ≠ 1 ^ 2 := by
  obtain ⟨_, h2, _, h4, _⟩ := makeCube_edge_is_twice_side ⟨2, 4, true⟩ (1 : ℚ) (by norm_num)
  exact ⟨by norm_num, h2, h4⟩

/-- C32 as stated fails at `makeCube(1)`: the vertices 0 and 1 sit at `(-1, 1, 1)`
and `(1, 1, 1)`, which differ in the first coordinate only, and their squared
distance is 4, not `1 ^ 2`. -/
theorem makeCube_edge_is_not_side :
    ∃ p ∈ (makeCube ⟨2, 4, true⟩ (1 : ℚ)).vertices.map Vertex.position,
      ∃ q ∈ (makeCube ⟨2, 4, true⟩ (1 : ℚ)).vertices.map Vertex.position,
        p = ⟨-1, 1, 1⟩ ∧ q = ⟨1, 1, 1⟩ ∧ (p.x ≠ q.x ∧ p.y = q.y ∧ p.z = q.z) ∧
          (p.sub q).dot (p.sub q) = 4 ∧ (p.sub q).dot (p.sub q) ≠ (1 : ℚ) ^ 2 := by
  refine ⟨⟨-1, 1, 1⟩, ?_, ⟨1, 1, 1⟩, ?_, rfl, rfl, ?_, ?_, ?_⟩
  · rw [makeCube_positions]
    simp [cubeLocalVertices]
  · rw [makeCube_positions]
    simp [cubeLocalVertices]
  · norm_num
  · norm_num [Vec3.sub, Vec3.dot]
  · norm_num [Vec3.sub, Vec3.dot]

/-! ## Key collisions above the bound -/

theorem numberedVertices_getElem? (n k : Nat) (hk : k < n) :
    (numberedVertices n)[k]? = some (numberedVertex k) := by
  rw [numberedVertices, List.getElem?_map, List.getElem?_range hk]
  rfl

/-- C37: above 1024 the packed key collides. The 16-bit indices 0, 2049 and
1, 1025 form two different unordered pairs with the same key 2049. On a list of
2050 vertices and an empty cache, `middlePointIndex(0, 2049)` creates vertex
2050, the midpoint of the vertices 0 and 2049; after that
`middlePointIndex(1, 1025)` returns 2050 as well and changes nothing, although
the midpoint of the vertices 1 and 1025 is a different vertex. -/
theorem edgeKey_collides_above_1024 :
    ((0 : Nat) < 65536 ∧ 2049 < 65536 ∧ 1 < 65536 ∧ 1025 < 65536) ∧
      s(0, 2049) ≠ s(1, 1025) ∧ edgeKey 0 2049 = edgeKey 1 1025 ∧
      ∃ (verts' : List (Vertex ℚ)) (cache' : Cache) (v1 v2 w1 w2 : Vertex ℚ),
        middlePointIndex samplePrims 0 2049 (numberedVertices 2050) [] =
          .ok (2050, verts', cache') ∧
        (numberedVertices 2050)[0]? = some v1 ∧ (numberedVertices 2050)[2049]? = some v2 ∧
        verts'[2050]? = some (middleVertex samplePrims v1 v2) ∧
        middlePointIndex samplePrims 1 1025 verts' cache' = .ok (2050, verts', cache') ∧
        verts'[1]? = some w1 ∧ verts'[1025]? = some w2 ∧
        middleVertex samplePrims w1 w2 ≠ middleVertex samplePrims v1 v2 := by
  have hlen : (numberedVertices 2050).length = 2050 := by
    rw [numberedVertices, List.length_map, List.length_range]
  have h0 := numberedVertices_getElem? 2050 0 (by norm_num)
  have h1 := numberedVertices_getElem? 2050 1 (by norm_num)
  have h1025 := numberedVertices_getElem? 2050 1025 (by norm_num)
  have h2049 := numberedVertices_getElem? 2050 2049 (by norm_num)
  have hk : edgeKey 0 2049 = 2049 := by decide
  have hk' : edgeKey 1 1025 = 2049 := by decide
  refine ⟨by decide, by decide, by decide,
    numberedVertices 2050 ++ [middleVertex samplePrims (numberedVertex 0) (numberedVertex 2049)],
    [(2049, 2050)], numberedVertex 0, numberedVertex 2049, numberedVertex 1,
    numberedVertex 1025, ?_, h0, h2049, ?_, ?_, ?_, ?_, ?_⟩
  · simp only [middlePointIndex, hk, List.lookup, vecAt, h0, h2049, hlen]
  · rw [List.getElem?_append_right (by rw [hlen]), hlen]
    rfl
  · simp only [middlePointIndex, hk', List.lookup, beq_self_eq_true]
  · rw [List.getElem?_append_left (by rw [hlen]; norm_num)]
    exact h1
  · rw [List.getElem?_append_left (by rw [hlen]; norm_num)]
    exact h1025
  · intro h
    have := congrArg (fun v : Vertex ℚ => v.textureCoordinate.x) h
    norm_num [middleVertex, numberedVertex, Vec2.add, Vec2.smul] at this


/-! ## The index blocks of the cylinder -/

section CylinderIndexBlocks

variable {α : Type} [LinearOrderedField α] [FloorRing α]

/-- A list made of `n` blocks of the same length `c`: its `q`-th block. -/
theorem flatMap_block {β : Type} (f : Nat → List β) (c : Nat) (hc : ∀ i, (f i).length = c)
    (pre : List β) (n q : Nat) (hq : q < n) :
    ((pre ++ (List.range n).flatMap f).drop (pre.length + c * q)).take c = f q := by
  induction n with
  | zero => omega
  | succ n ih =>
    have hlen : ((List.range n).flatMap f).length = c * n := by
      rw [flatMap_length_const f c hc, List.length_range]
    rw [List.range_succ, List.flatMap_append, ← List.append_assoc]
    by_cases h : q < n
    · have hle : pre.length + c * q + c ≤ (pre ++ (List.range n).flatMap f).length := by
        rw [List.length_append, hlen]
        have : c * q + c ≤ c * n := by
          calc c * q + c = c * (q + 1) := by ring
            _ ≤ c * n := Nat.mul_le_mul_left c h
        omega
      rw [List.drop_append_of_le_length (by omega), List.take_append_of_le_length]
      · exact ih h
      · rw [List.length_drop]; omega
    · have hqn : q = n := by omega
      subst hqn
      have e : pre.length + c * q = (pre ++ (List.range q).flatMap f).length := by
        rw [List.length_append, hlen]
      rw [e, List.drop_left]
      simp only [List.flatMap_cons, List.flatMap_nil, List.append_nil]
      rw [List.take_of_length_le (by rw [hc])]

omit [FloorRing α] in
theorem capSteps_indices (P : Prims α) (radius length : α) (l : List Nat) :
    ∀ st : GenState α,
      (l.foldl (cylinderCapStep P radius length) st).localIndices =
        st.localIndices ++
          (List.range l.length).flatMap fun k => capIndexBlock (st.index + 6 * k) := by
  induction l with
  | nil => intro st; simp
  | cons i l ih =>
    intro st
    rw [List.foldl_cons, ih, List.length_cons, List.range_succ_eq_map, List.flatMap_cons,
      List.flatMap_map]
    have e : (cylinderCapStep P radius length st i).localIndices =
        st.localIndices ++ capIndexBlock (st.index + 6 * 0) := by
      simp [cylinderCapStep, pushIndex, capIndexBlock]
    have e2 : (cylinderCapStep P radius length st i).index = st.index + 6 := rfl
    rw [e, e2, List.append_assoc]
    congr 2
    apply List.flatMap_congr
    intro k _
    have : st.index + 6 + 6 * k = st.index + 6 * (k + 1) := by ring
    simp only [Function.comp, this, Nat.succ_eq_add_one]

theorem quadSteps_indices (P : Prims α) (radius length z : α) (l : List Nat) :
    ∀ st : GenState α,
      (l.foldl (cylinderQuadStep P radius length z) st).localIndices =
          st.localIndices ++
            (List.range l.length).flatMap (fun k => quadIndexBlock (st.index + 4 * k)) ∧
        (l.foldl (cylinderQuadStep P radius length z) st).index = st.index + 4 * l.length := by
  induction l with
  | nil => intro st; simp
  | cons i l ih =>
    intro st
    rw [List.foldl_cons, (ih _).1, (ih _).2, List.length_cons, List.range_succ_eq_map,
      List.flatMap_cons, List.flatMap_map]
    have e : (cylinderQuadStep P radius length z st i).localIndices =
        st.localIndices ++ quadIndexBlock (st.index + 4 * 0) := by
      simp [cylinderQuadStep, pushIndex, quadIndexBlock]
    have e2 : (cylinderQuadStep P radius length z st i).index = st.index + 4 := rfl
    rw [e, e2, List.append_assoc]
    refine ⟨?_, by omega⟩
    congr 2
    apply List.flatMap_congr
    intro k _
    have : st.index + 4 + 4 * k = st.index + 4 * (k + 1) := by ring
    simp only [Function.comp, this, Nat.succ_eq_add_one]

/-- What the ring loop appends: the index blocks and the vertices of the side
quads, numbered `q = 0, 1, ...` in the order of generation; quad `q` belongs to
the turn `q / 20` and the segment `q % 20`. -/
theorem cylinderRings_content (P : Prims α) (radius length : α) (k : Nat) :
    ∀ (fuel : Nat) (z : α) (st : GenState α), k < fuel → length ≤ z + k →
      (∀ j : Nat, j < k → z + j < length) →
      ∃ st', cylinderRings P radius length fuel z st = some st' ∧
        st'.localIndices = st.localIndices ++
          (List.range (20 * k)).flatMap (fun q => quadIndexBlock (st.index + 4 * q)) ∧
        st'.localVerts = st.localVerts ++
          (List.range (20 * k)).flatMap (fun q =>
            cylinderQuadVertices P radius length (z + ((q / 20 : ℕ) : α)) (q % 20)) := by
  induction k with
  | zero =>
    intro fuel z st hf hz _
    obtain ⟨fuel, rfl⟩ : ∃ f, fuel = f + 1 := ⟨fuel - 1, by omega⟩
    have : ¬ z < length := by simpa using hz
    exact ⟨st, by simp [cylinderRings, this], by simp, by simp⟩
  | succ k ih =>
    intro fuel z st hf hz hlt
    obtain ⟨fuel, rfl⟩ : ∃ f, fuel = f + 1 := ⟨fuel - 1, by omega⟩
    have hz0 : z < length := by simpa using hlt 0 (Nat.succ_pos k)
    obtain ⟨st', e, hi, hv⟩ :=
      ih fuel (z + 1) (cylinderRing P radius length z st) (by omega)
        (by push_cast at hz; linarith)
        (fun j hj => by have := hlt (j + 1) (by omega); push_cast at this; linarith)
    have hn : (List.range NUM_SEGMENTS).length = 20 := by simp [NUM_SEGMENTS]
    have hsplit : List.range (20 * (k + 1)) =
        List.range 20 ++ (List.range (20 * k)).map (20 + ·) := by
      rw [← List.range_add]
      congr 1
      ring
    refine ⟨st', by simp only [cylinderRings, hz0, if_true, e], ?_, ?_⟩
    · rw [hi, cylinderRing, (quadSteps_indices P radius length z _ st).1,
        (quadSteps_indices P radius length z _ st).2, hn, List.append_assoc, hsplit,
        List.flatMap_append, List.flatMap_map]
      congr 2
      apply List.flatMap_congr
      intro q _
      have : st.index + 4 * 20 + 4 * q = st.index + 4 * (20 + q) := by ring
      simp only [Function.comp, this]
    · rw [hv, cylinderRing, quadSteps_verts, List.append_assoc, hsplit, List.flatMap_append,
        List.flatMap_map]
      congr 2
      · apply List.flatMap_congr
        intro q hq
        have hq20 : q < 20 := by simpa [NUM_SEGMENTS] using hq
        have h1 : q / 20 = 0 := Nat.div_eq_of_lt hq20
        have h2 : q % 20 = q := Nat.mod_eq_of_lt hq20
        simp [h1, h2]
      · apply List.flatMap_congr
        intro q _
        have h1 : (20 + q) / 20 = q / 20 + 1 := by omega
        have h2 : (20 + q) % 20 = q % 20 := by omega
        have h3 : z + 1 + ((q / 20 : ℕ) : α) = z + ((q / 20 + 1 : ℕ) : α) := by
          push_cast; ring
        simp only [Function.comp, h1, h2, h3]

/-- The blocks of `makeCylinder`: cap segment `i` owns the vertices and the index
entries from `6 i` on, side quad `q` the four vertices from `120 + 4 q` and the
six index entries from `120 + 6 q` on, which hold the vertex positions reduced
modulo `2 ^ 16`. -/
theorem makeCylinder_blocks (H : Header) (P : Prims α) (fuel : Nat) (radius length : α)
    (hf : ⌈length⌉₊ < fuel) :
    ∃ m, makeCylinder H P fuel radius length = some m ∧
      (∀ i, i < 20 →
        (m.vertices.drop (6 * i)).take 6 = cylinderCapVertices P radius length i ∧
        (m.indices.drop (6 * i)).take 6 = capIndexBlock (6 * i)) ∧
      (∀ q, q < 20 * ⌈length⌉₊ →
        (m.vertices.drop (120 + 4 * q)).take 4 =
          cylinderQuadVertices P radius length ((q / 20 : ℕ) : α) (q % 20) ∧
        (m.indices.drop (120 + 6 * q)).take 6 = quadIndexBlock (120 + 4 * q)) := by
  obtain ⟨st', e, hi, hv⟩ :=
    cylinderRings_content P radius length ⌈length⌉₊ fuel 0 (cylinderCaps P radius length) hf
      (by simpa using Nat.le_ceil length)
      (fun j hj => by simpa using Nat.lt_ceil.mp hj)
  have hn : (List.range NUM_SEGMENTS).length = 20 := by simp [NUM_SEGMENTS]
  have hcv : (cylinderCaps P radius length).localVerts =
      [] ++ (List.range 20).flatMap (cylinderCapVertices P radius length) := by
    simp only [cylinderCaps, capSteps_verts, List.nil_append, NUM_SEGMENTS]
  have hci : (cylinderCaps P radius length).localIndices =
      [] ++ (List.range 20).flatMap (fun k => capIndexBlock (6 * k)) := by
    simp only [cylinderCaps, capSteps_indices, List.nil_append, hn, zero_add]
  have hcl := (cylinderCaps_counts P radius length)
  rw [(cylinderCaps_counts P radius length).2.2] at hi
  simp only [zero_add] at hv
  refine ⟨{ (Mesh.new H : Mesh α) with vertices := st'.localVerts, indices := st'.localIndices },
    by simp only [makeCylinder, e], ?_, ?_⟩
  · intro i hi20
    constructor
    · show ((st'.localVerts.drop (6 * i)).take 6) = _
      rw [hv, hcv]
      have h6 : 6 * i + 6 ≤ ([] ++ (List.range 20).flatMap
          (cylinderCapVertices P radius length)).length := by
        rw [← hcv, hcl.1]; omega
      rw [List.drop_append_of_le_length (by omega), List.take_append_of_le_length
        (by rw [List.length_drop]; omega)]
      have := flatMap_block (cylinderCapVertices P radius length) 6 (fun _ => rfl) [] 20 i hi20
      simpa using this
    · show ((st'.localIndices.drop (6 * i)).take 6) = _
      rw [hi, hci]
      have h6 : 6 * i + 6 ≤ ([] ++ (List.range 20).flatMap
          (fun k => capIndexBlock (6 * k))).length := by
        rw [← hci, hcl.2.1]; omega
      rw [List.drop_append_of_le_length (by omega), List.take_append_of_le_length
        (by rw [List.length_drop]; omega)]
      have := flatMap_block (fun k => capIndexBlock (6 * k)) 6 (fun _ => rfl) [] 20 i hi20
      simpa using this
  · intro q hq
    constructor
    · show ((st'.localVerts.drop (120 + 4 * q)).take 4) = _
      rw [hv]
      have := flatMap_block (fun q => cylinderQuadVertices P radius length ((q / 20 : ℕ) : α)
        (q % 20)) 4 (fun _ => rfl) (cylinderCaps P radius length).localVerts _ q hq
      rw [hcl.1] at this
      exact this
    · show ((st'.localIndices.drop (120 + 6 * q)).take 6) = _
      rw [hi]
      have := flatMap_block (fun q => quadIndexBlock (120 + 4 * q)) 6 (fun _ => rfl)
        (cylinderCaps P radius length).localIndices _ q hq
      rw [hcl.2.1] at this
      exact this

end CylinderIndexBlocks


section CylinderIndexClaim

variable {α : Type} [LinearOrderedField α] [FloorRing α]

/-- C31, amended: as long as the vertex positions fit 16 bits, the indices of
`makeCylinder` name the vertices made for the triangle being emitted. Cap
segment `i` owns the six vertices from position `6 i` on and is indexed
`6 i, ..., 6 i + 5`. Side quad `q`, counted in generation order, owns the four
vertices from position `b = 120 + 4 q` on; its six index entries are
`b, b + 1, b + 2, b + 3, b + 2, b + 1` reduced modulo `2 ^ 16`, which are these
numbers themselves when `b + 3 < 65536`. -/
theorem makeCylinder_indices_name_own_vertices (H : Header) (P : Prims α) (fuel : Nat)
    (radius length : α) (hf : ⌈length⌉₊ < fuel) :
    ∃ m, makeCylinder H P fuel radius length = some m ∧
      (∀ i, i < 20 →
        (m.vertices.drop (6 * i)).take 6 = cylinderCapVertices P radius length i ∧
        (m.indices.drop (6 * i)).take 6 =
          [6 * i, 6 * i + 1, 6 * i + 2, 6 * i + 3, 6 * i + 4, 6 * i + 5]) ∧
      (∀ q, q < 20 * ⌈length⌉₊ →
        (m.vertices.drop (120 + 4 * q)).take 4 =
          cylinderQuadVertices P radius length ((q / 20 : ℕ) : α) (q % 20) ∧
        (m.indices.drop (120 + 6 * q)).take 6 =
          [(120 + 4 * q) % 65536, (120 + 4 * q + 1) % 65536, (120 + 4 * q + 2) % 65536,
            (120 + 4 * q + 3) % 65536, (120 + 4 * q + 2) % 65536, (120 + 4 * q + 1) % 65536] ∧
        (120 + 4 * q + 3 < 65536 →
          (m.indices.drop (120 + 6 * q)).take 6 =
            [120 + 4 * q, 120 + 4 * q + 1, 120 + 4 * q + 2,
              120 + 4 * q + 3, 120 + 4 * q + 2, 120 + 4 * q + 1])) := by
  obtain ⟨m, e, hcap, hquad⟩ := makeCylinder_blocks H P fuel radius length hf
  refine ⟨m, e, ?_, ?_⟩
  · intro i hi
    refine ⟨(hcap i hi).1, ?_⟩
    rw [(hcap i hi).2]
    simp only [capIndexBlock, Nat.add_zero]
    rw [Nat.mod_eq_of_lt (by omega), Nat.mod_eq_of_lt (by omega), Nat.mod_eq_of_lt (by omega),
      Nat.mod_eq_of_lt (by omega), Nat.mod_eq_of_lt (by omega), Nat.mod_eq_of_lt (by omega)]
  · intro q hq
    refine ⟨(hquad q hq).1, ?_, ?_⟩
    · rw [(hquad q hq).2]
      simp only [quadIndexBlock, Nat.add_zero]
    · intro hb
      rw [(hquad q hq).2]
      simp only [quadIndexBlock, Nat.add_zero]
      rw [Nat.mod_eq_of_lt (by omega), Nat.mod_eq_of_lt (by omega), Nat.mod_eq_of_lt (by omega),
        Nat.mod_eq_of_lt (by omega)]

end CylinderIndexClaim

/-- Witness for C31: the cylinder of the program, `makeCylinder(1, 4)`; its last
side quad, number 79, owns the vertices 436..439. -/
theorem makeCylinder_indices_name_own_vertices_witness :
    ⌈(4 : ℚ)⌉₊ < 5 ∧
      ∃ m, makeCylinder ⟨2, 4, true⟩ samplePrims 5 (1 : ℚ) 4 = some m ∧
        (m.vertices.drop (120 + 4 * 79)).take 4 =
          cylinderQuadVertices samplePrims 1 4 ((79 / 20 : ℕ) : ℚ) (79 % 20) ∧
        (m.indices.drop (120 + 6 * 79)).take 6 = [436, 437, 438, 439, 438, 437] := by
  have h4 : ⌈(4 : ℚ)⌉₊ = 4 := by
    have : ((4 : ℕ) : ℚ) = 4 := by norm_num
    rw [← this, Nat.ceil_natCast]
  have hf : ⌈(4 : ℚ)⌉₊ < 5 := lt_of_eq_of_lt h4 (by norm_num)
  obtain ⟨m, e, _, hquad⟩ :=
    makeCylinder_indices_name_own_vertices ⟨2, 4, true⟩ samplePrims 5 (1 : ℚ) 4 hf
  have h79 : 79 < 20 * ⌈(4 : ℚ)⌉₊ := by rw [h4]; norm_num
  obtain ⟨hv, _, hi⟩ := hquad 79 h79
  exact ⟨hf, m, e, hv, hi (by norm_num)⟩

/-- C31 as stated fails for long cylinders: in `makeCylinder(1, 818)` the side
quad number 16354 owns the vertices from position 65536 on, yet its index
entries are `0, 1, 2, 3, 2, 1`, which name vertices of the first cap segment. -/
theorem makeCylinder_indices_wrap :
    ∃ m, makeCylinder ⟨2, 4, true⟩ samplePrims 819 (1 : ℚ) 818 = some m ∧
      120 + 4 * 16354 = 65536 ∧
      (m.vertices.drop (120 + 4 * 16354)).take 4 =
        cylinderQuadVertices samplePrims 1 818 ((16354 / 20 : ℕ) : ℚ) (16354 % 20) ∧
      (m.indices.drop (120 + 6 * 16354)).take 6 = [0, 1, 2, 3, 2, 1] ∧
      (m.indices.drop (120 + 6 * 16354)).take 6 ≠
        [65536, 65537, 65538, 65539, 65538, 65537] := by
  have h818 : ⌈(818 : ℚ)⌉₊ = 818 := by
    have : ((818 : ℕ) : ℚ) = 818 := by norm_num
    rw [← this, Nat.ceil_natCast]
  have hf : ⌈(818 : ℚ)⌉₊ < 819 := lt_of_eq_of_lt h818 (by norm_num)
  obtain ⟨m, e, _, hquad⟩ := makeCylinder_blocks ⟨2, 4, true⟩ samplePrims 819 (1 : ℚ) 818 hf
  have hq : 16354 < 20 * ⌈(818 : ℚ)⌉₊ := by rw [h818]; norm_num
  obtain ⟨hv, hi⟩ := hquad 16354 hq
  have hb : quadIndexBlock (120 + 4 * 16354) = [0, 1, 2, 3, 2, 1] := by
    simp [quadIndexBlock]
  refine ⟨m, e, by norm_num, hv, by rw [hi, hb], ?_⟩
  rw [hi, hb]
  simp


/-! ## One cache for all passes -/

section SharedCache

variable {α : Type} [Field α]

theorem edgeKey_inj_below (i1 i2 j1 j2 : Nat) (hi1 : i1 < 1024) (hi2 : i2 < 1024)
    (hj1 : j1 < 1024) (hj2 : j2 < 1024) (h : edgeKey i1 i2 = edgeKey j1 j2) :
    (i1 = j1 ∧ i2 = j2) ∨ (i1 = j2 ∧ i2 = j1) := by
  rw [edgeKey_eq, edgeKey_eq] at h
  rcases Nat.le_total i1 i2 with a | a <;> rcases Nat.le_total j1 j2 with b | b <;>
    simp only [Nat.min_eq_left, Nat.min_eq_right, Nat.max_eq_left, Nat.max_eq_right, a, b]
      at h <;> omega

omit [Field α] in
/-- Between two passes, while the vertex count is at most 1024, no key that the
next pass looks up is bound in the cache. -/
theorem passState_no_hit (localIndices : List Nat) (verts : List (Vertex α)) (cache : Cache)
    (n0 : Nat) (hs : PassState localIndices verts cache n0) (hsmall : verts.length ≤ 1024) :
    ∀ e ∈ triangleEdges localIndices, cache.lookup (edgeKey e.1 e.2) = none := by
  obtain ⟨_, hv, _, hn0, hkeys, hedges⟩ := hs
  intro e he
  rw [lookup_eq_none_iff_not_mem_keys]
  intro hmem
  obtain ⟨i, j, hi, hj, hk⟩ := hkeys _ hmem
  obtain ⟨m1, m2⟩ := triangleEdges_mem localIndices e he
  have b1 := hv _ m1
  have b2 := hv _ m2
  have := edgeKey_inj_below e.1 e.2 i j (by omega) (by omega) (by omega) (by omega) hk
  have := hedges e he
  omega

theorem middlePointIndex_append (P : Prims α) (i1 i2 : Nat) (verts : List (Vertex α))
    (new old : Cache) (h : old.lookup (edgeKey i1 i2) = none) :
    middlePointIndex P i1 i2 verts (new ++ old) =
      Except.map (fun r => (r.1, r.2.1, r.2.2 ++ old)) (middlePointIndex P i1 i2 verts new) := by
  unfold middlePointIndex
  simp only [List.lookup_append, h]
  cases hl : new.lookup (edgeKey i1 i2) with
  | some hit => simp [Except.map]
  | none =>
    simp only [Option.or_none]
    cases h1 : vecAt verts i1 with
    | error f => simp [Except.map]
    | ok v1 =>
      cases h2 : vecAt verts i2 with
      | error f => simp [Except.map]
      | ok v2 => simp [Except.map]

theorem splitTriangle_append (P : Prims α) (radius : α) (v_0 v_1 v_2 : Nat)
    (verts : List (Vertex α)) (new old : Cache)
    (h01 : old.lookup (edgeKey v_0 v_1) = none) (h12 : old.lookup (edgeKey v_1 v_2) = none)
    (h20 : old.lookup (edgeKey v_2 v_0) = none) :
    splitTriangle P radius v_0 v_1 v_2 verts (new ++ old) =
      Except.map (fun r => (r.1, r.2.1, r.2.2 ++ old))
        (splitTriangle P radius v_0 v_1 v_2 verts new) := by
  simp only [splitTriangle, bind, Except.bind, pure, Except.pure]
  rw [middlePointIndex_append P v_0 v_1 verts new old h01]
  cases h1 : middlePointIndex P v_0 v_1 verts new with
  | error f => rfl
  | ok r1 =>
    obtain ⟨a, vs1, c1⟩ := r1
    simp only [Except.map]
    rw [middlePointIndex_append P v_1 v_2 vs1 c1 old h12]
    cases h2 : middlePointIndex P v_1 v_2 vs1 c1 with
    | error f => rfl
    | ok r2 =>
      obtain ⟨b, vs2, c2⟩ := r2
      simp only [Except.map]
      rw [middlePointIndex_append P v_2 v_0 vs2 c2 old h20]
      cases h3 : middlePointIndex P v_2 v_0 vs2 c2 with
      | error f => rfl
      | ok r3 =>
        obtain ⟨c, vs3, c3⟩ := r3
        simp only [Except.map]
        cases h4 : scalePositionAt vs3 a radius with
        | error f => rfl
        | ok vs4 =>
          simp only []
          cases h5 : scalePositionAt vs4 b radius with
          | error f => rfl
          | ok vs5 =>
            simp only []
            cases h6 : scalePositionAt vs5 c radius with
            | error f => rfl
            | ok vs6 => rfl

/-- A pass that finds none of its keys in the old part of the cache runs as it
does without that part. -/
theorem subdividePass_append (P : Prims α) (radius : α) (old : Cache)
    (localIndices : List Nat) :
    ∀ (verts : List (Vertex α)) (new : Cache),
      (∀ e ∈ triangleEdges localIndices, old.lookup (edgeKey e.1 e.2) = none) →
      subdividePass P radius localIndices verts (new ++ old) =
        Except.map (fun r => (r.1, r.2.1, r.2.2 ++ old))
          (subdividePass P radius localIndices verts new) := by
  induction localIndices using triangleEdges.induct with
  | case1 v_0 v_1 v_2 rest ih =>
    intro verts new hk
    simp only [triangleEdges, List.forall_mem_cons] at hk
    obtain ⟨h01, h12, h20, hrest⟩ := hk
    rw [subdividePass, subdividePass,
      splitTriangle_append P radius v_0 v_1 v_2 verts new old h01 h12 h20]
    cases hs : splitTriangle P radius v_0 v_1 v_2 verts new with
    | error f => rfl
    | ok r =>
      obtain ⟨pushed, vs1, c1⟩ := r
      simp only [Except.map]
      rw [ih vs1 c1 hrest]
      cases hr : subdividePass P radius rest vs1 c1 with
      | error f => rfl
      | ok r2 => rfl
  | case2 l hl =>
    intro verts new _
    unfold subdividePass
    split
    · rfl
    · exact absurd rfl (hl _ _ _ _)
    · rfl

theorem middlePointIndex_length_le (P : Prims α) (i1 i2 : Nat) (verts verts' : List (Vertex α))
    (cache cache' : Cache) (r : Nat)
    (h : middlePointIndex P i1 i2 verts cache = .ok (r, verts', cache')) :
    verts.length ≤ verts'.length := by
  rcases middlePointIndex_inv P i1 i2 verts verts' cache cache' r h with
    ⟨_, rfl, _⟩ | ⟨_, v1, v2, _, _, _, rfl, _⟩
  · exact le_refl _
  · simp

theorem scalePositionAt_inv (verts verts' : List (Vertex α)) (a : Nat) (radius : α)
    (h : scalePositionAt verts a radius = .ok verts') :
    verts'.length = verts.length ∧ ∀ i, i ≠ a → verts'[i]? = verts[i]? := by
  unfold scalePositionAt at h
  cases hv : verts[a]? with
  | none => simp [hv] at h
  | some w =>
    simp only [hv, Except.ok.injEq] at h
    subst h
    refine ⟨List.length_set _ _ _, fun i hi => ?_⟩
    rw [List.getElem?_set_ne (Ne.symm hi)]

theorem splitTriangle_length_le (P : Prims α) (radius : α) (v_0 v_1 v_2 : Nat)
    (verts verts' : List (Vertex α)) (cache cache' : Cache) (pushed : List Nat)
    (h : splitTriangle P radius v_0 v_1 v_2 verts cache = .ok (pushed, verts', cache')) :
    verts.length ≤ verts'.length := by
  obtain ⟨a, b, c, vs1, c1, vs2, c2, vs3, vs4, vs5, h1, h2, h3, h4, h5, h6, _⟩ :=
    splitTriangle_inv P radius v_0 v_1 v_2 verts verts' cache cache' pushed h
  have l1 := middlePointIndex_length_le P _ _ _ _ _ _ _ h1
  have l2 := middlePointIndex_length_le P _ _ _ _ _ _ _ h2
  have l3 := middlePointIndex_length_le P _ _ _ _ _ _ _ h3
  have l4 := (scalePositionAt_inv _ _ _ _ h4).1
  have l5 := (scalePositionAt_inv _ _ _ _ h5).1
  have l6 := (scalePositionAt_inv _ _ _ _ h6).1
  omega

theorem subdividePass_length_le (P : Prims α) (radius : α) (localIndices : List Nat) :
    ∀ (verts verts' : List (Vertex α)) (cache cache' : Cache) (newIndices : List Nat),
      subdividePass P radius localIndices verts cache = .ok (newIndices, verts', cache') →
      verts.length ≤ verts'.length := by
  induction localIndices using triangleEdges.induct with
  | case1 v_0 v_1 v_2 rest ih =>
    intro verts verts' cache cache' newIndices h
    rw [subdividePass] at h
    cases hs : splitTriangle P radius v_0 v_1 v_2 verts cache with
    | error f => simp [hs] at h
    | ok r =>
      obtain ⟨pushed, vs1, c1⟩ := r
      simp only [hs] at h
      cases hr : subdividePass P radius rest vs1 c1 with
      | error f => simp [hr] at h
      | ok r2 =>
        obtain ⟨new', vs2, c2⟩ := r2
        simp only [hr, Except.ok.injEq, Prod.mk.injEq] at h
        obtain ⟨_, rfl, _⟩ := h
        have l1 := splitTriangle_length_le P radius _ _ _ _ _ _ _ _ hs
        have l2 := ih vs1 vs2 c1 c2 new' hr
        omega
  | case2 l hl =>
    intro verts verts' cache cache' newIndices h
    unfold subdividePass at h
    split at h
    · simp only [Except.ok.injEq, Prod.mk.injEq] at h
      obtain ⟨_, rfl, _⟩ := h
      exact le_refl _
    · exact absurd rfl (hl _ _ _ _)
    · simp at h

theorem tessellate_length_le (P : Prims α) (radius : α) (L : Nat) :
    ∀ (localIndices : List Nat) (verts verts' : List (Vertex α)) (cache cache' : Cache)
      (newIndices : List Nat),
      tessellate P radius L localIndices verts cache = .ok (newIndices, verts', cache') →
      verts.length ≤ verts'.length := by
  induction L with
  | zero =>
    intro localIndices verts verts' cache cache' newIndices h
    simp only [tessellate, Except.ok.injEq, Prod.mk.injEq] at h
    obtain ⟨_, rfl, _⟩ := h
    exact le_refl _
  | succ L ih =>
    intro localIndices verts verts' cache cache' newIndices h
    rw [tessellate] at h
    cases hs : subdividePass P radius localIndices verts cache with
    | error f => simp [hs] at h
    | ok r =>
      obtain ⟨idx, vs1, c1⟩ := r
      simp only [hs] at h
      have l1 := subdividePass_length_le P radius localIndices _ _ _ _ _ hs
      have l2 := ih idx vs1 verts' c1 cache' newIndices h
      omega

end SharedCache


section PassFrame

variable {α : Type} [Field α]

theorem middlePointIndex_above (P : Prims α) (N i1 i2 : Nat) (verts verts' : List (Vertex α))
    (new new' : Cache) (r : Nat)
    (h : middlePointIndex P i1 i2 verts new = .ok (r, verts', new'))
    (hnew : ∀ kv ∈ new, N ≤ kv.2) (hN : N ≤ verts.length) (hfit : verts'.length ≤ 65536) :
    N ≤ r ∧ (∀ kv ∈ new', N ≤ kv.2) ∧ ∀ i, i < N → verts'[i]? = verts[i]? := by
  rcases middlePointIndex_inv P i1 i2 verts verts' new new' r h with
    ⟨hl, rfl, rfl⟩ | ⟨_, v1, v2, _, _, hr, rfl, rfl⟩
  · exact ⟨hnew _ (lookup_some_mem _ _ _ hl), hnew, fun _ _ => rfl⟩
  · have hlt : verts.length < 65536 := by
      simp only [List.length_append, List.length_cons, List.length_nil] at hfit
      omega
    rw [Nat.mod_eq_of_lt hlt] at hr
    subst hr
    refine ⟨hN, ?_, ?_⟩
    · intro kv hkv
      rcases List.mem_cons.mp hkv with rfl | hkv
      · exact hN
      · exact hnew _ hkv
    · intro i hi
      rw [List.getElem?_append_left (by omega)]

theorem splitTriangle_above (P : Prims α) (radius : α) (N v_0 v_1 v_2 : Nat)
    (verts verts' : List (Vertex α)) (new new' : Cache) (pushed : List Nat)
    (h : splitTriangle P radius v_0 v_1 v_2 verts new = .ok (pushed, verts', new'))
    (hnew : ∀ kv ∈ new, N ≤ kv.2) (hN : N ≤ verts.length) (hfit : verts'.length ≤ 65536) :
    (∀ kv ∈ new', N ≤ kv.2) ∧ (∀ i, i < N → verts'[i]? = verts[i]?) ∧
      ∃ a b c, N ≤ a ∧ N ≤ b ∧ N ≤ c ∧
        pushed = [v_0, a, c, v_1, b, a, v_2, c, b, a, b, c] := by
  obtain ⟨a, b, c, vs1, c1, vs2, c2, vs3, vs4, vs5, h1, h2, h3, h4, h5, h6, hp⟩ :=
    splitTriangle_inv P radius v_0 v_1 v_2 verts verts' new new' pushed h
  have l1 := middlePointIndex_length_le P _ _ _ _ _ _ _ h1
  have l2 := middlePointIndex_length_le P _ _ _ _ _ _ _ h2
  have l3 := middlePointIndex_length_le P _ _ _ _ _ _ _ h3
  obtain ⟨l4, f4⟩ := scalePositionAt_inv _ _ _ _ h4
  obtain ⟨l5, f5⟩ := scalePositionAt_inv _ _ _ _ h5
  obtain ⟨l6, f6⟩ := scalePositionAt_inv _ _ _ _ h6
  obtain ⟨ha, n1, g1⟩ := middlePointIndex_above P N _ _ _ _ _ _ _ h1 hnew hN (by omega)
  obtain ⟨hb, n2, g2⟩ := middlePointIndex_above P N _ _ _ _ _ _ _ h2 n1 (by omega) (by omega)
  obtain ⟨hc, n3, g3⟩ := middlePointIndex_above P N _ _ _ _ _ _ _ h3 n2 (by omega) (by omega)
  refine ⟨n3, ?_, a, b, c, ha, hb, hc, hp⟩
  intro i hi
  rw [f6 i (by omega), f5 i (by omega), f4 i (by omega), g3 i hi, g2 i hi, g1 i hi]

/-- A pass whose cache binds only indices from `N` on, run on at least `N`
vertices: it leaves the vertices below `N` alone, binds only indices from `N`
on, and every edge of its output has an endpoint from `N` on. -/
theorem subdividePass_above (P : Prims α) (radius : α) (N : Nat) (localIndices : List Nat) :
    ∀ (verts verts' : List (Vertex α)) (new new' : Cache) (newIndices : List Nat),
      subdividePass P radius localIndices verts new = .ok (newIndices, verts', new') →
      (∀ kv ∈ new, N ≤ kv.2) → N ≤ verts.length → verts'.length ≤ 65536 →
      (∀ kv ∈ new', N ≤ kv.2) ∧ (∀ i, i < N → verts'[i]? = verts[i]?) ∧
        ∀ e ∈ triangleEdges newIndices, N ≤ e.1 ∨ N ≤ e.2 := by
  induction localIndices using triangleEdges.induct with
  | case1 v_0 v_1 v_2 rest ih =>
    intro verts verts' new new' newIndices h hnew hN hfit
    rw [subdividePass] at h
    cases hs : splitTriangle P radius v_0 v_1 v_2 verts new with
    | error f => simp [hs] at h
    | ok r =>
      obtain ⟨pushed, vs1, c1⟩ := r
      simp only [hs] at h
      cases hr : subdividePass P radius rest vs1 c1 with
      | error f => simp [hr] at h
      | ok r2 =>
        obtain ⟨idx2, vs2, c2⟩ := r2
        simp only [hr, Except.ok.injEq, Prod.mk.injEq] at h
        obtain ⟨rfl, rfl, rfl⟩ := h
        have l1 := splitTriangle_length_le P radius _ _ _ _ _ _ _ _ hs
        have l2 := subdividePass_length_le P radius rest _ _ _ _ _ hr
        obtain ⟨n1, g1, a, b, c, ha, hb, hc, rfl⟩ :=
          splitTriangle_above P radius N _ _ _ _ _ _ _ _ hs hnew hN (by omega)
        obtain ⟨n2, g2, e2⟩ := ih vs1 vs2 c1 c2 idx2 hr n1 (by omega) hfit
        refine ⟨n2, fun i hi => by rw [g2 i hi, g1 i hi], ?_⟩
        intro e he
        simp only [List.cons_append, List.nil_append, triangleEdges, List.mem_cons] at he
        rcases he with rfl | rfl | rfl | rfl | rfl | rfl | rfl | rfl | rfl | rfl | rfl | rfl | he
        · exact Or.inr ha
        · exact Or.inl ha
        · exact Or.inl hc
        · exact Or.inr hb
        · exact Or.inl hb
        · exact Or.inl ha
        · exact Or.inr hc
        · exact Or.inl hc
        · exact Or.inl hb
        · exact Or.inl ha
        · exact Or.inl hb
        · exact Or.inl hc
        · exact e2 e he
  | case2 l hl =>
    intro verts verts' new new' newIndices h hnew hN hfit
    unfold subdividePass at h
    split at h
    · simp only [Except.ok.injEq, Prod.mk.injEq] at h
      obtain ⟨rfl, rfl, rfl⟩ := h
      exact ⟨hnew, fun _ _ => rfl, fun e he => by simp [triangleEdges] at he⟩
    · exact absurd rfl (hl _ _ _ _)
    · simp at h

/-- One pass of `makeSphere` from a state between passes, ending with at most
1024 vertices: it runs as it does on an empty cache, binds only vertices that it
created, leaves the earlier vertices alone, and ends in a state between passes. -/
theorem subdividePass_step (P : Prims α) (radius : α) (localIndices newIndices : List Nat)
    (verts verts' : List (Vertex α)) (cache cache' : Cache) (n0 : Nat)
    (hs : PassState localIndices verts cache n0)
    (h : subdividePass P radius localIndices verts cache = .ok (newIndices, verts', cache'))
    (hsmall : verts'.length ≤ 1024) :
    ∃ new', subdividePass P radius localIndices verts [] = .ok (newIndices, verts', new') ∧
      cache' = new' ++ cache ∧ (∀ kv ∈ new', verts.length ≤ kv.2) ∧
      (∀ i, i < verts.length → verts'[i]? = verts[i]?) ∧
      PassState newIndices verts' cache' verts.length := by
  have hle := subdividePass_length_le P radius localIndices _ _ _ _ _ h
  have hno := passState_no_hit localIndices verts cache n0 hs (by omega)
  obtain ⟨h3, hv, hc, hn0, hkeys, _⟩ := hs
  have hT : localIndices.length = 3 * (localIndices.length / 3) := by omega
  obtain ⟨idx1, vs1, new1, e1, _⟩ :=
    subdividePass_spec P radius _ localIndices verts [] hT hv (cacheOK_nil _)
  obtain ⟨idx2, vs2, c2, e2, hl2, hv2, _, hc2, hk2, _⟩ :=
    subdividePass_spec P radius _ localIndices verts cache hT hv hc
  have hsim := subdividePass_append P radius cache localIndices verts [] hno
  rw [List.nil_append, e1, h] at hsim
  simp only [Except.map, Except.ok.injEq, Prod.mk.injEq] at hsim
  obtain ⟨rfl, rfl, rfl⟩ := hsim
  rw [h] at e2
  simp only [Except.ok.injEq, Prod.mk.injEq] at e2
  obtain ⟨rfl, rfl, hcc⟩ := e2
  obtain ⟨n1, g1, ed1⟩ := subdividePass_above P radius verts.length localIndices _ _ _ _ _ e1
    (fun kv hkv => by cases hkv) (le_refl _) (by omega)
  refine ⟨new1, e1, rfl, n1, g1, by omega, hv2, by rw [hcc]; exact hc2, hle, ?_, ed1⟩
  intro k hk
  rw [hcc, hk2, Finset.mem_union] at hk
  rcases hk with hk | hk
  · obtain ⟨i, j, hi, hj, e⟩ := hkeys k hk
    exact ⟨i, j, by omega, by omega, e⟩
  · rw [List.mem_toFinset, List.mem_map] at hk
    obtain ⟨e, he, rfl⟩ := hk
    obtain ⟨m1, m2⟩ := triangleEdges_mem localIndices e he
    exact ⟨e.1, e.2, hv _ m1, hv _ m2, rfl⟩

/-- The passes of `makeSphere` from a state between passes, ending with at most
1024 vertices: they give what the passes on empty caches give, leave the
vertices they started with alone, and end in a state between passes. -/
theorem tessellate_fresh (P : Prims α) (radius : α) (L : Nat) :
    ∀ (localIndices newIndices : List Nat) (verts verts' : List (Vertex α))
      (cache cache' : Cache) (n0 : Nat),
      PassState localIndices verts cache n0 →
      tessellate P radius L localIndices verts cache = .ok (newIndices, verts', cache') →
      verts'.length ≤ 1024 →
      tessellateFresh P radius L localIndices verts = .ok (newIndices, verts') ∧
        (∀ i, i < verts.length → verts'[i]? = verts[i]?) ∧
        ∃ n, PassState newIndices verts' cache' n := by
  induction L with
  | zero =>
    intro localIndices newIndices verts verts' cache cache' n0 hs h _
    simp only [tessellate, Except.ok.injEq, Prod.mk.injEq] at h
    obtain ⟨rfl, rfl, rfl⟩ := h
    exact ⟨rfl, fun _ _ => rfl, n0, hs⟩
  | succ L ih =>
    intro localIndices newIndices verts verts' cache cache' n0 hs h hsmall
    rw [tessellate] at h
    cases hp : subdividePass P radius localIndices verts cache with
    | error f => simp [hp] at h
    | ok r =>
      obtain ⟨idx1, vs1, c1⟩ := r
      simp only [hp] at h
      have l2 := tessellate_length_le P radius L _ _ _ _ _ _ h
      obtain ⟨new1, e1, _, _, g1, hs1⟩ :=
        subdividePass_step P radius localIndices idx1 verts vs1 cache c1 n0 hs hp (by omega)
      obtain ⟨ef, g2, hfin⟩ := ih idx1 newIndices vs1 verts' c1 cache' verts.length hs1 h hsmall
      have l1 := subdividePass_length_le P radius localIndices _ _ _ _ _ hp
      refine ⟨?_, fun i hi => by rw [g2 i (by omega), g1 i hi], hfin⟩
      simp only [tessellateFresh, e1]
      exact ef

omit [Field α] in
theorem passState_start (localIndices : List Nat) (verts : List (Vertex α))
    (h3 : localIndices.length % 3 = 0) (hv : ∀ i ∈ localIndices, i < verts.length) :
    PassState localIndices verts [] 0 :=
  ⟨h3, hv, cacheOK_nil _, Nat.zero_le _, fun k hk => by simp [keysOf] at hk,
    fun _ _ => Or.inl (Nat.zero_le _)⟩

/-- A bound on the vertex count after `L` passes. -/
theorem tessellate_vertex_bound (P : Prims α) (radius : α) (L : Nat) :
    ∀ (localIndices newIndices : List Nat) (verts verts' : List (Vertex α))
      (cache cache' : Cache),
      localIndices.length % 3 = 0 → (∀ i ∈ localIndices, i < verts.length) →
      CacheOK cache verts.length →
      tessellate P radius L localIndices verts cache = .ok (newIndices, verts', cache') →
      3 * verts'.length + localIndices.length ≤ 3 * verts.length + localIndices.length * 4 ^ L := by
  induction L with
  | zero =>
    intro localIndices newIndices verts verts' cache cache' _ _ _ h
    simp only [tessellate, Except.ok.injEq, Prod.mk.injEq] at h
    obtain ⟨rfl, rfl, rfl⟩ := h
    simp
  | succ L ih =>
    intro localIndices newIndices verts verts' cache cache' h3 hv hc h
    rw [tessellate] at h
    have hT : localIndices.length = 3 * (localIndices.length / 3) := by omega
    obtain ⟨idx1, vs1, c1, e1, hl1, hv1, _, hc1, hk1, hcard⟩ :=
      subdividePass_spec P radius _ localIndices verts cache hT hv hc
    simp only [e1] at h
    have hb := ih idx1 newIndices vs1 verts' c1 cache' (by omega) hv1 hc1 h
    have hedges : (triangleEdges localIndices).length ≤ localIndices.length := by
      clear hT hb h hcard hk1 hc1 hv1 hl1 e1 hc hv h3
      induction localIndices using triangleEdges.induct with
      | case1 v_0 v_1 v_2 rest ih2 => simp only [triangleEdges, List.length_cons]; omega
      | case2 l hl =>
        unfold triangleEdges
        split
        · exact absurd rfl (hl _ _ _ _)
        · simp
    have hcardle : (keysOf c1).card ≤ (keysOf cache).card + localIndices.length := by
      rw [hk1]
      calc (keysOf cache ∪ _).card ≤ (keysOf cache).card + _ := Finset.card_union_le _ _
        _ ≤ (keysOf cache).card + ((triangleEdges localIndices).map
              fun e => edgeKey e.1 e.2).length := by
            apply Nat.add_le_add_left
            exact List.toFinset_card_le _
        _ ≤ (keysOf cache).card + localIndices.length := by
            rw [List.length_map]; omega
    rw [hl1] at hb
    have hp : localIndices.length * 4 ^ (L + 1) = 4 * localIndices.length * 4 ^ L := by
      rw [pow_succ]; ring
    rw [hp]
    omega

end PassFrame


section SharedCacheClaims

variable {α : Type} [Field α]

theorem makeSphere_tessellate (P : Prims α) (base m : Mesh α) (radius : α) (L : Nat)
    (hm : makeSphere P (some base) radius L = .ok m) :
    ∃ cache, tessellate P radius L base.indices (projectBase P radius base.vertices) [] =
        .ok (m.indices, m.vertices, cache) ∧
      m = { base with vertices := m.vertices, indices := m.indices } := by
  simp only [makeSphere] at hm
  cases ht : tessellate P radius L base.indices (projectBase P radius base.vertices) [] with
  | error f => simp [ht] at hm
  | ok r =>
    obtain ⟨idx, vs, c⟩ := r
    simp only [ht, Except.ok.injEq] at hm
    subst hm
    exact ⟨c, rfl, rfl⟩

theorem passState_base (P : Prims α) (base : Mesh α) (radius : α) (hinv : MeshInvariant base) :
    PassState base.indices (projectBase P radius base.vertices) [] 0 :=
  passState_start _ _ hinv.1 (by simpa [projectBase_length] using hinv.2)

theorem makeSphere_vertex_bound (P : Prims α) (base m : Mesh α) (radius : α) (L : Nat)
    (hinv : MeshInvariant base) (hm : makeSphere P (some base) radius L = .ok m) :
    3 * m.vertices.length + base.indices.length ≤
      3 * base.vertices.length + base.indices.length * 4 ^ L := by
  obtain ⟨c, ht, _⟩ := makeSphere_tessellate P base m radius L hm
  have := tessellate_vertex_bound P radius L _ _ _ _ _ _ hinv.1
    (by simpa [projectBase_length] using hinv.2) (cacheOK_nil _) ht
  simpa [projectBase_length] using this

theorem take_of_getElem? {β : Type} (l l' : List β) (h : ∀ i, i < l.length → l'[i]? = l[i]?) :
    l'.take l.length = l := by
  apply List.ext_getElem?
  intro i
  by_cases hi : i < l.length
  · rw [List.getElem?_take_of_lt hi, h i hi]
  · have h1 : (l'.take l.length).length ≤ i := by
      rw [List.length_take]
      omega
    rw [List.getElem?_eq_none h1, List.getElem?_eq_none (by omega)]

/-- C38: `makeSphere` keeps one midpoint cache for all of its passes. On a base
mesh with the mesh invariant, as long as the result has at most 1024 vertices
(every index is below 1024), the result is that of the variant whose passes each
start with an empty cache. Before every pass that starts with at most 1024
vertices the state is one between passes - every cached key belongs to two
indices below the vertex count `n0` at which the pass before started, and every
edge to come has an endpoint from `n0` on - and none of the keys that the pass
will look up is bound in the cache. -/
theorem makeSphere_shared_cache_as_fresh (P : Prims α) (base m : Mesh α) (radius : α)
    (L : Nat) (hinv : MeshInvariant base) (hm : makeSphere P (some base) radius L = .ok m)
    (hsmall : m.vertices.length ≤ 1024) :
    makeSphereFresh P (some base) radius L = .ok m ∧
      makeSphereFresh P (some base) radius L = makeSphere P (some base) radius L ∧
      ∀ (k : Nat) (localIndices : List Nat) (verts : List (Vertex α)) (cache : Cache),
        tessellate P radius k base.indices (projectBase P radius base.vertices) [] =
          .ok (localIndices, verts, cache) →
        verts.length ≤ 1024 →
        (∃ n0, PassState localIndices verts cache n0) ∧
          ∀ e ∈ triangleEdges localIndices, cache.lookup (edgeKey e.1 e.2) = none := by
  obtain ⟨c, ht, hmdef⟩ := makeSphere_tessellate P base m radius L hm
  obtain ⟨ef, _, _⟩ := tessellate_fresh P radius L _ _ _ _ _ _ 0
    (passState_base P base radius hinv) ht hsmall
  have hfresh : makeSphereFresh P (some base) radius L = .ok m := by
    simp only [makeSphereFresh, ef]
    rw [← hmdef]
  refine ⟨hfresh, by rw [hfresh, hm], ?_⟩
  intro k localIndices verts cache hk hle
  obtain ⟨_, _, n, hs⟩ := tessellate_fresh P radius k _ _ _ _ _ _ 0
    (passState_base P base radius hinv) hk hle
  exact ⟨⟨n, hs⟩, passState_no_hit localIndices verts cache n hs hle⟩

/-- C39: a subdivision pass of `makeSphere` only appends. On a base mesh with the
mesh invariant, a pass that ends with at most 1024 vertices leaves every vertex
that existed before it at its index, unchanged in all four fields; the midpoints
`a, b, c` of each triangle, which are the vertices that the radius scaling
touches, have indices from the old vertex count on. So when the result has at
most 1024 vertices its first vertices are exactly the projected base vertices. -/
theorem subdividePass_only_appends (P : Prims α) (base m : Mesh α) (radius : α) (L : Nat)
    (hinv : MeshInvariant base) (hm : makeSphere P (some base) radius L = .ok m)
    (hsmall : m.vertices.length ≤ 1024) :
    (∀ i, i < base.vertices.length →
        m.vertices[i]? = (projectBase P radius base.vertices)[i]?) ∧
      m.vertices.take base.vertices.length = projectBase P radius base.vertices ∧
      ∀ (k : Nat) (localIndices newIndices : List Nat) (verts verts' : List (Vertex α))
        (cache cache' : Cache),
        tessellate P radius k base.indices (projectBase P radius base.vertices) [] =
          .ok (localIndices, verts, cache) →
        subdividePass P radius localIndices verts cache = .ok (newIndices, verts', cache') →
        verts'.length ≤ 1024 →
        verts.length ≤ verts'.length ∧ (∀ i, i < verts.length → verts'[i]? = verts[i]?) ∧
          verts'.take verts.length = verts ∧
          ∀ t v_0 v_1 v_2, localIndices[3 * t]? = some v_0 →
            localIndices[3 * t + 1]? = some v_1 → localIndices[3 * t + 2]? = some v_2 →
            ∃ a b c, verts.length ≤ a ∧ verts.length ≤ b ∧ verts.length ≤ c ∧
              (newIndices.drop (12 * t)).take 12 =
                [v_0, a, c, v_1, b, a, v_2, c, b, a, b, c] := by
  obtain ⟨c, ht, _⟩ := makeSphere_tessellate P base m radius L hm
  obtain ⟨_, hframe, _⟩ := tessellate_fresh P radius L _ _ _ _ _ _ 0
    (passState_base P base radius hinv) ht hsmall
  have hframe' : ∀ i, i < (projectBase P radius base.vertices).length →
      m.vertices[i]? = (projectBase P radius base.vertices)[i]? := hframe
  refine ⟨fun i hi => hframe i (by simpa [projectBase_length] using hi), ?_, ?_⟩
  · have := take_of_getElem? _ _ hframe'
    rwa [projectBase_length] at this
  · intro k localIndices newIndices verts verts' cache cache' hk hp hle
    have l1 := subdividePass_length_le P radius localIndices _ _ _ _ _ hp
    obtain ⟨_, _, n, hs⟩ := tessellate_fresh P radius k _ _ _ _ _ _ 0
      (passState_base P base radius hinv) hk (by omega)
    obtain ⟨new', e1, _, hnew, g1, _⟩ :=
      subdividePass_step P radius localIndices newIndices verts verts' cache cache' n hs hp hle
    refine ⟨l1, g1, take_of_getElem? _ _ g1, ?_⟩
    intro t v_0 v_1 v_2 h0 h1 h2
    obtain ⟨a, b, c, la, lb, lc, hblock⟩ :=
      (subdividePass_children P radius localIndices verts verts' [] new' newIndices e1).2
        t v_0 v_1 v_2 h0 h1 h2
    exact ⟨a, b, c, hnew _ (lookup_some_mem _ _ _ la), hnew _ (lookup_some_mem _ _ _ lb),
      hnew _ (lookup_some_mem _ _ _ lc), hblock⟩

end SharedCacheClaims

/-- The sample icosahedron tessellated twice has at most 1024 vertices. -/
theorem sampleSphere_small :
    ∃ m, makeSphere samplePrims (some (sampleIcosahedron : Mesh ℚ)) 2 2 = .ok m ∧
      m.vertices.length ≤ 1024 := by
  have hinv : MeshInvariant (sampleIcosahedron : Mesh ℚ) := ⟨by decide, by decide⟩
  obtain ⟨m, hm, _⟩ := makeSphere_counts samplePrims (sampleIcosahedron : Mesh ℚ) 2 2 20
    (by decide) hinv.2
  have hb := makeSphere_vertex_bound samplePrims sampleIcosahedron m 2 2 hinv hm
  have h1 : (sampleIcosahedron : Mesh ℚ).indices.length = 60 := by decide
  have h2 : (sampleIcosahedron : Mesh ℚ).vertices.length = 12 := by decide
  rw [h1, h2] at hb
  exact ⟨m, hm, by omega⟩

/-- Witness for C38: the sample icosahedron, radius 2, two passes. -/
theorem makeSphere_shared_cache_as_fresh_witness :
    MeshInvariant (sampleIcosahedron : Mesh ℚ) ∧
      ∃ m, makeSphere samplePrims (some (sampleIcosahedron : Mesh ℚ)) 2 2 = .ok m ∧
        m.vertices.length ≤ 1024 ∧
        makeSphereFresh samplePrims (some (sampleIcosahedron : Mesh ℚ)) 2 2 = .ok m := by
  have hinv : MeshInvariant (sampleIcosahedron : Mesh ℚ) := ⟨by decide, by decide⟩
  obtain ⟨m, hm, hs⟩ := sampleSphere_small
  exact ⟨hinv, m, hm, hs,
    (makeSphere_shared_cache_as_fresh samplePrims sampleIcosahedron m 2 2 hinv hm hs).1⟩

/-- Witness for C39: the sample icosahedron, radius 2, two passes; the first 12
vertices of the result are the projected corners. -/
theorem subdividePass_only_appends_witness :
    MeshInvariant (sampleIcosahedron : Mesh ℚ) ∧
      ∃ m, makeSphere samplePrims (some (sampleIcosahedron : Mesh ℚ)) 2 2 = .ok m ∧
        m.vertices.length ≤ 1024 ∧
        m.vertices.take (sampleIcosahedron : Mesh ℚ).vertices.length =
          projectBase samplePrims 2 (sampleIcosahedron : Mesh ℚ).vertices := by
  have hinv : MeshInvariant (sampleIcosahedron : Mesh ℚ) := ⟨by decide, by decide⟩
  obtain ⟨m, hm, hs⟩ := sampleSphere_small
  exact ⟨hinv, m, hm, hs,
    (subdividePass_only_appends samplePrims sampleIcosahedron m 2 2 hinv hm hs).2.1⟩


/-! ## The palette entries of the generators -/

section PaletteClaim

variable {α : Type} [LinearOrderedField α] [FloorRing α]

omit [FloorRing α] in
theorem makeCube_face_colours_differ (H : Header) (side : α) :
    ∀ f, f < 6 →
      ((((makeCube H side).vertices.map Vertex.color).drop (4 * f)).take 4).Nodup := by
  intro f hf
  have e : (makeCube H side).vertices.map Vertex.color =
      (cubeLocalVertices : List (Vertex α)).map Vertex.color := by
    simp [makeCube, List.map_map, Function.comp_def]
  rw [e]
  interval_cases f <;> simp [cubeLocalVertices] <;> norm_num [dec]

/-- C21, amended: `makeTetrahedron`, `makeCone` and `makeCylinder` colour their
vertices from the palette `COLORS` (red, green, blue, yellow, magenta, cyan), and
every vertex colour in their output is one of its six entries. The three
vertices of face `k` of the tetrahedron carry `COLORS[k]`; in segment `i` of the
cone the three vertices of the side triangle carry `COLORS[i % 6]` and the three
of the base triangle `COLORS[(i + 1) % 6]`; in the cylinder the six cap vertices
of segment `i` carry `COLORS[(i + 1) % 6]` and the four vertices of side quad
`q`, which is segment `q % 20` of the ring at height `q / 20`, carry
`COLORS[(q % 20 + q / 20) % 6]`. `makeCube` takes its 24 colours from its own
table, whatever the side, and the four vertices of each of its faces have four
different colours. -/
theorem generators_colour_from_palette (H : Header) (P : Prims α) (fuel : Nat)
    (side radius length : α) (hf : ⌈length⌉₊ < fuel) :
    ((COLORS : List (Vec3 α)) =
        [⟨1, 0, 0⟩, ⟨0, 1, 0⟩, ⟨0, 0, 1⟩, ⟨1, 1, 0⟩, ⟨1, 0, 1⟩, ⟨0, 1, 1⟩] ∧
      ∀ k, k < 6 → (COLORS : List (Vec3 α))[k]? = some (colorAt k)) ∧
    ((makeTetrahedron H P radius).vertices.map Vertex.color =
        [colorAt 0, colorAt 0, colorAt 0, colorAt 1, colorAt 1, colorAt 1,
         colorAt 2, colorAt 2, colorAt 2, colorAt 3, colorAt 3, colorAt 3] ∧
      ∀ v ∈ (makeTetrahedron H P radius).vertices, v.color ∈ (COLORS : List (Vec3 α))) ∧
    ((∀ i, i < 20 →
        (((makeCone H P radius length).vertices.drop (6 * i)).take 6).map Vertex.color =
          [colorAt (i % 6), colorAt (i % 6), colorAt (i % 6),
           colorAt ((i + 1) % 6), colorAt ((i + 1) % 6), colorAt ((i + 1) % 6)]) ∧
      ∀ v ∈ (makeCone H P radius length).vertices, v.color ∈ (COLORS : List (Vec3 α))) ∧
    (∃ m, makeCylinder H P fuel radius length = some m ∧
      (∀ i, i < 20 →
        ((m.vertices.drop (6 * i)).take 6).map Vertex.color =
          List.replicate 6 (colorAt ((i + 1) % 6))) ∧
      (∀ q, q < 20 * ⌈length⌉₊ →
        ((m.vertices.drop (120 + 4 * q)).take 4).map Vertex.color =
          List.replicate 4 (colorAt ((q % 20 + q / 20) % 6))) ∧
      ∀ v ∈ m.vertices, v.color ∈ (COLORS : List (Vec3 α))) ∧
    ((makeCube H side).vertices.map Vertex.color =
        (cubeLocalVertices : List (Vertex α)).map Vertex.color ∧
      ∀ f, f < 6 →
        ((((makeCube H side).vertices.map Vertex.color).drop (4 * f)).take 4).Nodup) := by
  refine ⟨⟨rfl, fun k hk => colors_getElem? k hk⟩,
    ⟨rfl, paletteGroups_mem _ _ (makeTetrahedron_paletteGroups H P radius)⟩,
    ⟨?_, paletteGroups_mem _ _ (makeCone_paletteGroups H P radius length)⟩, ?_,
    ⟨?_, makeCube_face_colours_differ H side⟩⟩
  · intro i hi
    rw [(makeCone_data H P radius length).1]
    have hb := flatMap_block (coneSegmentVertices P radius length) 6
      (coneSegmentVertices_length P radius length) [] 20 i hi
    simp only [List.nil_append, List.length_nil, zero_add] at hb
    rw [hb]
    rfl
  · obtain ⟨m, e, hcap, hquad⟩ := makeCylinder_blocks H P fuel radius length hf
    obtain ⟨m', e', hpal⟩ := makeCylinder_paletteGroups H P fuel radius length hf
    have hmm : m' = m := by
      rw [e] at e'
      exact (Option.some.inj e').symm
    subst hmm
    refine ⟨m', e, ?_, ?_, paletteGroups_mem _ _ hpal⟩
    · intro i hi
      rw [(hcap i hi).1]
      rfl
    · intro q hq
      rw [(hquad q hq).1]
      simp only [cylinderQuadVertices, Nat.floor_natCast, List.map_cons, List.map_nil,
        List.replicate]
  · simp [makeCube, List.map_map, Function.comp_def]

end PaletteClaim

/-- Witness for C21: the generators as the program calls them, `makeCylinder(1, 4)`,
`makeTetrahedron(1)`, `makeCone(1, 4)`; side quad 79 of the cylinder is segment
19 of ring 3 and carries `COLORS[4]`, magenta. -/
theorem generators_colour_from_palette_witness :
    ⌈(4 : ℚ)⌉₊ < 5 ∧
      (makeTetrahedron ⟨2, 4, true⟩ samplePrims (1 : ℚ)).vertices.map Vertex.color =
        [colorAt 0, colorAt 0, colorAt 0, colorAt 1, colorAt 1, colorAt 1,
         colorAt 2, colorAt 2, colorAt 2, colorAt 3, colorAt 3, colorAt 3] ∧
      ∃ m, makeCylinder ⟨2, 4, true⟩ samplePrims 5 (1 : ℚ) 4 = some m ∧
        ((m.vertices.drop (120 + 4 * 79)).take 4).map Vertex.color =
          List.replicate 4 (colorAt ((79 % 20 + 79 / 20) % 6)) ∧
        (colorAt ((79 % 20 + 79 / 20) % 6) : Vec3 ℚ) = ⟨1, 0, 1⟩ ∧
        ∀ v ∈ m.vertices, v.color ∈ (COLORS : List (Vec3 ℚ)) := by
  have h4 : ⌈(4 : ℚ)⌉₊ = 4 := by
    have : ((4 : ℕ) : ℚ) = 4 := by norm_num
    rw [← this, Nat.ceil_natCast]
  have hf : ⌈(4 : ℚ)⌉₊ < 5 := lt_of_eq_of_lt h4 (by norm_num)
  obtain ⟨_, ⟨h1, _⟩, _, ⟨m, e, _, hq, hall⟩, _⟩ :=
    generators_colour_from_palette ⟨2, 4, true⟩ samplePrims 5 (1 : ℚ) 1 4 hf
  have h79 : 79 < 20 * ⌈(4 : ℚ)⌉₊ := by rw [h4]; norm_num
  exact ⟨hf, h1, m, e, hq 79 h79, rfl, hall⟩


/-! ## The children of a triangle and the midpoints of its edges -/

section MidpointLink

variable {α : Type} [Field α]

end MidpointLink

end Geometry
